import Mathlib

/-!
# DualKalmanTrajectory

A shallow embedding of `Alignment/ReferenceTrajectories/src/DualKalmanTrajectory.cc`
and theorems about it.

Conventions of the embedding.

* `float` and `double` values are exact rationals (`ℚ`) in the model of the whole file:
  rounding, infinities and not-a-number are not part of it. The section on IEEE 754
  arithmetic embeds the two per-hit fill routines once more over IEEE values, for the
  properties of the written numbers that depend on them.
* `unsigned int` arithmetic is arithmetic on `Nat` reduced modulo `2 ^ 32` (`u32`), the
  conversion of an `unsigned int` to an `int` argument is `toInt`.
* The object under construction is a record `DualKalmanTrajectory` of the data members the
  source file writes; a member function is a function from the record to
  `Except Failure (result × record)`.
* `Failure` collects the three ways in which control does not come back to the caller:
  the `cms::Exception("BadConfig")` of `fillKalmanPart`, the `HepGenMatrix::error` of the CLHEP
  matrix classes (dimension or index check failed), and an access outside a container
  (undefined behaviour in the source).
* CLHEP vectors and matrices are a dimension together with an entry function on `Nat`
  indices counted from `0`; a symmetric matrix keeps its lower triangle, as CLHEP does.
* `edm::LogError` output is not modelled.
-/

namespace DualKalman

/-! ## Machine integers -/

/-- Reduction of a natural number to the range of `unsigned int`. -/
def u32 (n : Nat) : Nat := n % 4294967296

/-- Conversion of an `unsigned int` value to `int` (two's complement). -/
def toInt (n : Nat) : Int := if n < 2147483648 then (n : Int) else (n : Int) - 4294967296

/-- The result of `size() + size() - 1` on two `std::vector` sizes (`size_t`, 64 bit),
passed on as an `unsigned int`. -/
def sizeSumMinusOne (a b : Nat) : Nat := u32 ((a + b + 18446744073709551615) % 18446744073709551616)

/-! ## Failures -/

/-- The ways in which a call does not return to its caller: `badConfig` is the exception
`cms::Exception("BadConfig")` with the offending selector, `matrixError` is a call of
`HepGenMatrix::error` (a dimension or index check of a CLHEP matrix operation failed),
`outOfRange` is an access outside a container (no check in the source: undefined
behaviour). -/
inductive Failure where
  | badConfig (residualMethod : Int)
  | matrixError
  | outOfRange
  deriving DecidableEq, Repr

/-! ## CLHEP vectors and matrices -/

/-- The class `HepVector` (`AlgebraicVector`): `nrow` entries, indices from `0`. -/
structure HepVector where
  nrow : Nat
  elem : Nat → ℚ

/-- The class `HepMatrix` (`AlgebraicMatrix`): `nrow × ncol` entries, indices from `0`. -/
structure HepMatrix where
  nrow : Nat
  ncol : Nat
  elem : Nat → Nat → ℚ

/-- The class `HepSymMatrix` (`AlgebraicSymMatrix`): only the entries `elem r c` with `c ≤ r` are
stored. -/
structure HepSymMatrix where
  nrow : Nat
  elem : Nat → Nat → ℚ

/-- The constructor `HepVector(n)`: `n` zero entries. -/
def HepVector.zero (n : Nat) : HepVector := ⟨n, fun _ => 0⟩

/-- The constructor `HepMatrix(p, q, 0)`: the zero matrix. -/
def HepMatrix.zero (p q : Nat) : HepMatrix := ⟨p, q, fun _ _ => 0⟩

/-- The constructor `HepSymMatrix(p, init)`: the zero matrix for `init = 0`, the unit matrix for `init = 1`. -/
def HepSymMatrix.ofInit (p : Nat) (init : Nat) : HepSymMatrix :=
  ⟨p, fun r c => if init = 1 ∧ r = c then 1 else 0⟩

/-- Read access `v[i]`. -/
def HepVector.get (v : HepVector) (i : Nat) : Except Failure ℚ :=
  if i < v.nrow then .ok (v.elem i) else .error .outOfRange

/-- Write access `v[i] = x`. -/
def HepVector.set (v : HepVector) (i : Nat) (x : ℚ) : Except Failure HepVector :=
  if i < v.nrow then .ok { v with elem := fun k => if k = i then x else v.elem k }
  else .error .outOfRange

/-- The entry `(r, c)` of a symmetric matrix: `HepSymMatrix_row` reads the stored entry of
the lower triangle. -/
def HepSymMatrix.entry (a : HepSymMatrix) (r c : Nat) : ℚ :=
  if c ≤ r then a.elem r c else a.elem c r

/-- Read access `a[r][c]`. -/
def HepSymMatrix.get (a : HepSymMatrix) (r c : Nat) : Except Failure ℚ :=
  if r < a.nrow ∧ c < a.nrow then .ok (a.entry r c) else .error .outOfRange

/-- Write access `a[r][c] = x`: writes the stored entry of the lower triangle. -/
def HepSymMatrix.set (a : HepSymMatrix) (r c : Nat) (x : ℚ) : Except Failure HepSymMatrix :=
  if r < a.nrow ∧ c < a.nrow then
    .ok { a with elem := fun i j =>
            if i = max r c ∧ j = min r c then x else a.elem i j }
  else .error .outOfRange

/-- The call `m.sub(min_row, max_row, min_col, max_col)`: the block of the rows
`min_row .. max_row` and columns `min_col .. max_col` (counted from `1`). CLHEP checks
`max_row` and `max_col` against the dimensions. -/
def HepMatrix.subBlock (m : HepMatrix) (min_row max_row min_col max_col : Int) :
    Except Failure HepMatrix :=
  if max_row - min_row + 1 < 0 ∨ max_col - min_col + 1 < 0 then .error .outOfRange
  else if max_row > m.nrow ∨ max_col > m.ncol then .error .matrixError
  else if min_row < 1 ∨ min_col < 1 then .error .outOfRange
  else .ok ⟨(max_row - min_row + 1).toNat, (max_col - min_col + 1).toNat,
            fun i j => m.elem ((min_row - 1).toNat + i) ((min_col - 1).toNat + j)⟩

/-- The call `m.sub(row, col, m1)`: overwrite the block of `m` whose upper left corner is
`(row, col)` (counted from `1`) with `m1`. CLHEP checks that the block lies inside `m`. -/
def HepMatrix.sub (m : HepMatrix) (row col : Int) (m1 : HepMatrix) : Except Failure HepMatrix :=
  if row < 1 ∨ row + m1.nrow - 1 > m.nrow ∨ col < 1 ∨ col + m1.ncol - 1 > m.ncol then
    .error .matrixError
  else
    .ok { m with elem := fun i j =>
            if (row - 1).toNat ≤ i ∧ i < (row - 1).toNat + m1.nrow ∧
               (col - 1).toNat ≤ j ∧ j < (col - 1).toNat + m1.ncol
            then m1.elem (i - (row - 1).toNat) (j - (col - 1).toNat)
            else m.elem i j }

/-- The product `m1 * m2` of a matrix and a vector; CLHEP checks `m1.num_col() == m2.num_row()`. -/
def HepMatrix.mulVec (m1 : HepMatrix) (m2 : HepVector) : Except Failure HepVector :=
  if m1.ncol ≠ m2.nrow then .error .matrixError
  else .ok ⟨m1.nrow, fun i => ∑ j in Finset.range m1.ncol, m1.elem i j * m2.elem j⟩

/-- The call `a.similarity(m1)`, that is `m1 * a * m1.T`: CLHEP forms `temp = m1 * a` (checking
`m1.num_col() == a.num_row()`) and then fills the lower triangle with
`sum_k temp(r, k) * m1(c, k)`. -/
def HepSymMatrix.similarity (a : HepSymMatrix) (m1 : HepMatrix) : Except Failure HepSymMatrix :=
  if m1.ncol ≠ a.nrow then .error .matrixError
  else .ok ⟨m1.nrow, fun r c =>
    ∑ k in Finset.range m1.ncol,
      (∑ l in Finset.range a.nrow, m1.elem r l * a.entry l k) * m1.elem c k⟩

/-! ## Data model -/

/-- The class `LocalError`: the covariance of a local position, entries `xx`, `xy`, `yy`. -/
structure LocalError where
  xx : ℚ
  xy : ℚ
  yy : ℚ
  deriving DecidableEq

/-- The class `LocalPoint`: a local position (only `x` and `y` are read). -/
structure LocalPoint where
  x : ℚ
  y : ℚ
  deriving DecidableEq

/-- The class `AlignmentPositionError` of a detector element: six entries of a symmetric
global error. They are only handed on to the APE helper. -/
structure AlignmentPositionError where
  globalError : List ℚ
  deriving DecidableEq

/-- The class `GeomDet`, as far as it is read: `alignmentPositionError()` is a pointer that
may be null. -/
structure GeomDet where
  alignmentPositionError : Option AlignmentPositionError
  deriving DecidableEq

/-- The class `TrajectoryStateOnSurface`, as far as it is read: `isValid()`, `hasError()`,
`localParameters().mixedFormatVector()` (five entries), `localError().matrix()` (symmetric
`5 × 5`) and `localError().positionError()`. -/
structure TrajectoryStateOnSurface where
  isValid : Bool
  hasError : Bool
  mixedFormatVector : Fin 5 → ℚ
  localErrorMatrix : Fin 5 → Fin 5 → ℚ
  positionError : LocalError

/-- The class `TransientTrackingRecHit` behind a `ConstRecHitPointer`, as far as it is read:
`localPosition()`, `localPositionError()`, `det()` (a pointer that may be null) and
`projectionMatrix()`. -/
structure TransientTrackingRecHit where
  localPosition : LocalPoint
  localPositionError : LocalError
  det : Option GeomDet
  projectionMatrix : HepMatrix

/-- The class `TrajectoryMeasurement`, as far as it is read. -/
structure TrajectoryMeasurement where
  recHit : TransientTrackingRecHit
  updatedState : TrajectoryStateOnSurface
  forwardPredictedState : TrajectoryStateOnSurface
  backwardPredictedState : TrajectoryStateOnSurface

/-- The enumeration `PropagationDirection`. -/
inductive PropagationDirection where
  | oppositeToMomentum
  | alongMomentum
  | anyDirection
  deriving DecidableEq, Repr

/-- The enumeration `MaterialEffects` of `ReferenceTrajectoryBase`. -/
inductive MaterialEffects where
  | none
  | multipleScattering
  | energyLoss
  | combined
  deriving DecidableEq, Repr

/-- The result of one single-direction fit, a `ReferenceTrajectory`, as far as `construct`
reads it: `isValid()`, `recHits()`, `numberOfHits()` and `derivatives()`. -/
structure ReferenceTrajectory where
  isValid : Bool
  recHits : List TransientTrackingRecHit
  numberOfHits : Nat
  derivatives : HepMatrix

/-- The collaborators of the source file that are not part of it: the constructor of
`ReferenceTrajectory` (the single-direction fit; its arguments are the reference state, the
hits, the field, the material effects, the direction and the mass), the
`TrajectoryStateCombiner` and `HelpertRecHit2DLocalPos::parError`. -/
structure Collaborators where
  newReferenceTrajectory : TrajectoryStateOnSurface → List TransientTrackingRecHit → Nat →
    MaterialEffects → PropagationDirection → ℚ → ReferenceTrajectory
  tsosComb : TrajectoryStateOnSurface → TrajectoryStateOnSurface → TrajectoryStateOnSurface
  parError : LocalError → GeomDet → HepSymMatrix

/-- The data members of `ReferenceTrajectoryBase` that `DualKalmanTrajectory.cc` writes. -/
structure DualKalmanTrajectory where
  theValidityFlag : Bool
  theTsosVec : List TrajectoryStateOnSurface
  theRecHits : List TransientTrackingRecHit
  theMeasurements : HepVector
  theMeasurementsCov : HepSymMatrix
  theTrajectoryPositions : HepVector
  theTrajectoryPositionCov : HepSymMatrix
  theParameters : HepVector
  theDerivatives : HepMatrix

/-- The constant `nMeasPerHit` of `ReferenceTrajectoryBase`: two measurements per hit. -/
def nMeasPerHit : Nat := 2

/-- The conversion `asHepVector<5>` of the five local parameters. -/
def asHepVector5 (v : Fin 5 → ℚ) : HepVector :=
  ⟨5, fun i => if h : i < 5 then v ⟨i, h⟩ else 0⟩

/-- The conversion `asHepMatrix<5>` of a symmetric `5 × 5` matrix. -/
def asHepMatrix5 (c : Fin 5 → Fin 5 → ℚ) : HepSymMatrix :=
  ⟨5, fun i j => if h : i < 5 ∧ j < 5 then c ⟨i, h.1⟩ ⟨j, h.2⟩ else 0⟩

/-- Modelled from the spec: the constructor `ReferenceTrajectoryBase(nPar, nHits)`, which is
not part of the source file. The containers are allocated once, for `nHits` hits with
`nMeasPerHit` entries each and `nPar` parameters, and filled with zeros; the hit list and the
state list are empty and the validity flag is false. -/
def ReferenceTrajectoryBase (nPar nHits : Nat) : DualKalmanTrajectory where
  theValidityFlag := false
  theTsosVec := []
  theRecHits := []
  theMeasurements := HepVector.zero (u32 (nMeasPerHit * nHits))
  theMeasurementsCov := HepSymMatrix.ofInit (u32 (nMeasPerHit * nHits)) 0
  theTrajectoryPositions := HepVector.zero (u32 (nMeasPerHit * nHits))
  theTrajectoryPositionCov := HepSymMatrix.ofInit (u32 (nMeasPerHit * nHits)) 0
  theParameters := HepVector.zero 0
  theDerivatives := HepMatrix.zero (u32 (nMeasPerHit * nHits)) nPar

/-- Modelled from the spec: the member `oppositeDirection`, which is declared in the header
and not part of the source file ("once with the given propagation direction, once with the
opposite direction"). -/
def oppositeDirection : PropagationDirection → PropagationDirection
  | .alongMomentum => .oppositeToMomentum
  | .oppositeToMomentum => .alongMomentum
  | .anyDirection => .anyDirection

/-! ## The member functions of `DualKalmanTrajectory.cc` -/

/-- The member `extractParameters` (source lines 305-309). -/
def extractParameters (referenceTsos : TrajectoryStateOnSurface) : HepVector :=
  asHepVector5 referenceTsos.mixedFormatVector

/-- The member `fillTrajectoryPositions` (source lines 290-301). -/
def fillTrajectoryPositions (projection : HepMatrix) (tsos : TrajectoryStateOnSurface)
    (iHit : Nat) (s : DualKalmanTrajectory) : Except Failure DualKalmanTrajectory := do
  let mixedLocalParams := asHepVector5 tsos.mixedFormatVector
  let localPosition ← projection.mulVec mixedLocalParams
  let x0 ← localPosition.get 0
  let p1 ← s.theTrajectoryPositions.set (u32 (nMeasPerHit * iHit)) x0
  let x1 ← localPosition.get 1
  let p2 ← p1.set (u32 (u32 (nMeasPerHit * iHit) + 1)) x1
  pure { s with theTrajectoryPositions := p2 }

/-- The five assignments that end both per-hit fill routines (source lines 222-226 and
280-284): the local position goes to the entries `nMeasPerHit*iHit` and `nMeasPerHit*iHit+1`
of `theMeasurements`, the covariance to the corresponding block of `theMeasurementsCov`. -/
def writeMeasurementAndError (localMeasurement : LocalPoint) (localMeasurementCov : LocalError)
    (iHit : Nat) (s : DualKalmanTrajectory) : Except Failure DualKalmanTrajectory := do
  let i0 := u32 (nMeasPerHit * iHit)
  let i1 := u32 (u32 (nMeasPerHit * iHit) + 1)
  let m1 ← s.theMeasurements.set i0 localMeasurement.x
  let m2 ← m1.set i1 localMeasurement.y
  let c1 ← s.theMeasurementsCov.set i0 i0 localMeasurementCov.xx
  let c2 ← c1.set i0 i1 localMeasurementCov.xy
  let c3 ← c2.set i1 i1 localMeasurementCov.yy
  pure { s with theMeasurements := m2, theMeasurementsCov := c3 }

/-- The member `fillMeasurementAndError1` (source lines 201-229): the covariance is the sum of
the hit error and the state error; the function ends in `return false`. -/
def fillMeasurementAndError1 (hitPtr : TransientTrackingRecHit) (iHit : Nat)
    (tsos : TrajectoryStateOnSurface) (s : DualKalmanTrajectory) :
    Except Failure (Bool × DualKalmanTrajectory) := do
  let newHitPtr := hitPtr
  let localMeasurement := newHitPtr.localPosition
  let hitErr := newHitPtr.localPositionError
  let tsosErr := tsos.positionError
  let localMeasurementCov : LocalError :=
    ⟨hitErr.xx + tsosErr.xx, hitErr.xy + tsosErr.xy, hitErr.yy + tsosErr.yy⟩
  let s1 ← writeMeasurementAndError localMeasurement localMeasurementCov iHit s
  pure (false, s1)

/-- The hit error that `fillMeasurementAndError2` compares with the state error (source lines
245-262): for a hit whose detector element has an alignment position error it is read from
the entries `[0][0]`, `[0][1]`, `[1][1]` of the matrix that `parError` returns, otherwise it
is the local position error of the hit. -/
def hitErrWithAPE (parError : LocalError → GeomDet → HepSymMatrix)
    (newHitPtr : TransientTrackingRecHit) : Except Failure LocalError :=
  let hitErrNoAPE := newHitPtr.localPositionError
  match newHitPtr.det with
  | some det =>
    match det.alignmentPositionError with
    | some _ => do
      let errMat := parError hitErrNoAPE det
      let e00 ← errMat.get 0 0
      let e01 ← errMat.get 0 1
      let e11 ← errMat.get 1 1
      pure ⟨e00, e01, e11⟩
    | none => pure hitErrNoAPE
  | none => pure hitErrNoAPE

/-- The member `fillMeasurementAndError2` (source lines 232-287): the covariance is the hit
error (with APE) minus the state error; `false` is returned, before anything is written,
when a diagonal entry of the hit error is smaller than that of the state error. -/
def fillMeasurementAndError2 (parError : LocalError → GeomDet → HepSymMatrix)
    (hitPtr : TransientTrackingRecHit) (iHit : Nat)
    (tsos : TrajectoryStateOnSurface) (s : DualKalmanTrajectory) :
    Except Failure (Bool × DualKalmanTrajectory) := do
  let newHitPtr := hitPtr
  let localMeasurement := newHitPtr.localPosition
  let hitErr ← hitErrWithAPE parError newHitPtr
  let tsosErr := tsos.positionError
  if hitErr.xx < tsosErr.xx ∨ hitErr.yy < tsosErr.yy then
    pure (false, s)
  else
    let localMeasurementCov : LocalError :=
      ⟨hitErr.xx - tsosErr.xx, hitErr.xy - tsosErr.xy, hitErr.yy - tsosErr.yy⟩
    let s1 ← writeMeasurementAndError localMeasurement localMeasurementCov iHit s
    pure (true, s1)

/-- The loop of `fillKalmanPart` (source lines 178-195) over the hit numbers that are still to
be processed; `iNextHit` is the slot of the first of them. -/
def fillKalmanLoop (env : Collaborators) (trajMeasurements : List TrajectoryMeasurement)
    (residualMethod : Int) :
    List Nat → Nat → DualKalmanTrajectory → Except Failure (Bool × DualKalmanTrajectory)
  | [], _, s => pure (true, s)
  | n :: rest, iNextHit, s =>
    match trajMeasurements[n]? with
    | none => .error .outOfRange
    | some trajMeasurement =>
      let tsos :=
        if residualMethod = 1 then
          env.tsosComb trajMeasurement.forwardPredictedState
            trajMeasurement.backwardPredictedState
        else trajMeasurement.updatedState
      if !tsos.isValid then pure (false, s)
      else do
        let s1 := { s with theTsosVec := s.theTsosVec ++ [tsos] }
        let (ok, s2) ←
          if residualMethod = 1 then fillMeasurementAndError1 trajMeasurement.recHit iNextHit tsos s1
          else fillMeasurementAndError2 env.parError trajMeasurement.recHit iNextHit tsos s1
        if !ok then pure (false, s2)
        else do
          let s3 ← fillTrajectoryPositions trajMeasurement.recHit.projectionMatrix tsos iNextHit s2
          fillKalmanLoop env trajMeasurements residualMethod rest (u32 (iNextHit + 1)) s3

/-- The member `fillKalmanPart` (source lines 156-198): the selector is checked first, then
the hits are processed from the first (`startFirst`) or the second one on. -/
def fillKalmanPart (env : Collaborators) (trajMeasurements : List TrajectoryMeasurement)
    (recHitNums : List Nat) (startFirst : Bool) (iNextHit : Nat) (residualMethod : Int)
    (s : DualKalmanTrajectory) : Except Failure (Bool × DualKalmanTrajectory) :=
  if residualMethod ≠ 1 ∧ residualMethod ≠ 2 then .error (.badConfig residualMethod)
  else
    fillKalmanLoop env trajMeasurements residualMethod
      (recHitNums.drop (if startFirst then 0 else 1)) iNextHit s

/-- The loop of the single-direction `construct` (source lines 145-149): the hits of the
measurements with the given numbers. -/
def collectRecHits (trajMeasurements : List TrajectoryMeasurement) :
    List Nat → Except Failure (List TransientTrackingRecHit)
  | [] => pure []
  | n :: rest =>
    match trajMeasurements[n]? with
    | none => .error .outOfRange
    | some trajMeasurement => do
      let hits ← collectRecHits trajMeasurements rest
      pure (trajMeasurement.recHit :: hits)

/-- The single-direction overload of `construct` (source lines 136-153): collect the hits and
hand them to the constructor of `ReferenceTrajectory`. -/
def constructOneDirection (env : Collaborators) (trajMeasurements : List TrajectoryMeasurement)
    (referenceTsos : TrajectoryStateOnSurface) (recHitNums : List Nat) (mass : ℚ)
    (materialEffects : MaterialEffects) (propDir : PropagationDirection) (magField : Nat) :
    Except Failure ReferenceTrajectory := do
  let recHits ← collectRecHits trajMeasurements recHitNums
  pure (env.newReferenceTrajectory referenceTsos recHits magField materialEffects propDir mass)

/-- The part of `construct` that combines the two single-direction results (source lines
92-126): hit list, parameters, derivative matrix and trajectory-position covariance. -/
def combineTrajectories (fwdTraj bwdTraj : ReferenceTrajectory)
    (refTsos : TrajectoryStateOnSurface) (s : DualKalmanTrajectory) :
    Except Failure DualKalmanTrajectory :=
  match bwdTraj.recHits with
  | [] => .error .outOfRange
  | _ :: bwdTail => do
    let s1 := { s with theRecHits := s.theRecHits ++ fwdTraj.recHits ++ bwdTail }
    let s2 := { s1 with theParameters := extractParameters refTsos }
    let nParam := s2.theParameters.nrow
    let nFwdMeas := u32 (nMeasPerHit * fwdTraj.numberOfHits)
    let nBwdMeas := u32 (nMeasPerHit * bwdTraj.numberOfHits)
    let d1 ← s2.theDerivatives.sub 1 1 fwdTraj.derivatives
    let block ← bwdTraj.derivatives.subBlock (toInt (u32 (nMeasPerHit + 1))) (toInt nBwdMeas)
      1 (toInt nParam)
    let d2 ← d1.sub (toInt (u32 (nFwdMeas + 1))) 1 block
    let s3 := { s2 with theDerivatives := d2 }
    if refTsos.hasError then do
      let parameterCov := asHepMatrix5 refTsos.localErrorMatrix
      let cov ← parameterCov.similarity s3.theDerivatives
      pure { s3 with theTrajectoryPositionCov := cov }
    else
      pure { s3 with
        theTrajectoryPositionCov := HepSymMatrix.ofInit s3.theDerivatives.nrow 1 }

/-- The member `construct` (source lines 58-132). -/
def construct (env : Collaborators) (trajMeasurements : List TrajectoryMeasurement)
    (refTsos : TrajectoryStateOnSurface) (forwardRecHitNums backwardRecHitNums : List Nat)
    (mass : ℚ) (materialEffects : MaterialEffects) (propDir : PropagationDirection)
    (magField : Nat) (residualMethod : Int) (s : DualKalmanTrajectory) :
    Except Failure (Bool × DualKalmanTrajectory) := do
  let fwdTraj ← constructOneDirection env trajMeasurements refTsos forwardRecHitNums mass
    materialEffects propDir magField
  let bwdTraj ← constructOneDirection env trajMeasurements refTsos backwardRecHitNums mass
    materialEffects (oppositeDirection propDir) magField
  if !fwdTraj.isValid || !bwdTraj.isValid then pure (false, s)
  else do
    let s4 ← combineTrajectories fwdTraj bwdTraj refTsos s
    let (ok, s5) ← fillKalmanPart env trajMeasurements forwardRecHitNums true 0 residualMethod s4
    if !ok then pure (false, s5)
    else
      fillKalmanPart env trajMeasurements backwardRecHitNums false
        (u32 forwardRecHitNums.length) residualMethod s5

/-- The constructor of `DualKalmanTrajectory` (source lines 33-47): the base class is set up
for five parameters and `size + size - 1` hits, then `construct` runs and its result becomes
the validity flag. -/
def newDualKalmanTrajectory (env : Collaborators) (trajMeasurements : List TrajectoryMeasurement)
    (referenceTsos : TrajectoryStateOnSurface) (forwardRecHitNums backwardRecHitNums : List Nat)
    (magField : Nat) (materialEffects : MaterialEffects) (propDir : PropagationDirection)
    (mass : ℚ) (residualMethod : Int) : Except Failure DualKalmanTrajectory := do
  let s0 := ReferenceTrajectoryBase 5
    (sizeSumMinusOne forwardRecHitNums.length backwardRecHitNums.length)
  let (ok, s) ← construct env trajMeasurements referenceTsos forwardRecHitNums
    backwardRecHitNums mass materialEffects propDir magField residualMethod s0
  pure { s with theValidityFlag := ok }

/-! ## Auxiliary definitions for the statements -/

/-- The state after the five assignments of a per-hit fill at slot `iHit` with local position
`p` and covariance `c`: the entries `2*iHit`, `2*iHit+1` of the measurement vector and the
stored entries of the block of the measurement covariance are replaced. -/
def writtenState (p : LocalPoint) (c : LocalError) (iHit : Nat) (s : DualKalmanTrajectory) :
    DualKalmanTrajectory :=
  { s with
    theMeasurements := ⟨s.theMeasurements.nrow, fun k =>
      if k = 2 * iHit + 1 then p.y else if k = 2 * iHit then p.x else s.theMeasurements.elem k⟩
    theMeasurementsCov := ⟨s.theMeasurementsCov.nrow, fun i j =>
      if i = 2 * iHit + 1 ∧ j = 2 * iHit + 1 then c.yy
      else if i = 2 * iHit + 1 ∧ j = 2 * iHit then c.xy
      else if i = 2 * iHit ∧ j = 2 * iHit then c.xx
      else s.theMeasurementsCov.elem i j⟩ }

/-- A symmetric `2 × 2` matrix with entries `xx`, `xy`, `yy` is non-negative-definite:
non-negative diagonal and non-negative determinant. -/
def NonNegDefinite (e : LocalError) : Prop :=
  0 ≤ e.xx ∧ 0 ≤ e.yy ∧ 0 ≤ e.xx * e.yy - e.xy * e.xy

instance (e : LocalError) : Decidable (NonNegDefinite e) := by
  unfold NonNegDefinite; infer_instance

/-! ## Concrete inputs -/

/-- A state with the given validity and position error `(e, 0, e)`; parameters `1 .. 5`,
diagonal `5 × 5` covariance with the entries `1 .. 5`. -/
def exampleTsos (valid : Bool) (e : ℚ) : TrajectoryStateOnSurface :=
  ⟨valid, true, fun i => (i.val : ℚ) + 1, fun i j => if i = j then (i.val : ℚ) + 1 else 0,
    ⟨e, 0, e⟩⟩

/-- A projection matrix that selects the parameters `3` and `4` (the local `x` and `y`). -/
def exampleProjection : HepMatrix := ⟨2, 5, fun i j => if j = i + 3 then 1 else 0⟩

/-- A hit at `(k, k + 1)` with local error `(4, 1, 4)`, without detector element. -/
def exampleHit (k : ℚ) : TransientTrackingRecHit :=
  ⟨⟨k, k + 1⟩, ⟨4, 1, 4⟩, none, exampleProjection⟩

/-- A hit at `(k, k + 1)` with local error `(4, 1, 4)` on a detector element that has an
alignment position error. -/
def exampleHitWithAPE (k : ℚ) : TransientTrackingRecHit :=
  ⟨⟨k, k + 1⟩, ⟨4, 1, 4⟩, some ⟨some ⟨[1, 0, 1, 0, 0, 1]⟩⟩, exampleProjection⟩

/-- An APE helper that adds `1` to both diagonal entries. -/
def exampleParError : LocalError → GeomDet → HepSymMatrix :=
  fun e _ => ⟨2, fun i j => if i = 0 ∧ j = 0 then e.xx + 1 else if i = 1 ∧ j = 1 then e.yy + 1
    else e.xy⟩

/-- A measurement of the hit `exampleHit k` whose three states are valid, with position
errors `1` (updated), `2` and `3` (predicted). -/
def exampleMeasurement (k : ℚ) : TrajectoryMeasurement :=
  ⟨exampleHit k, exampleTsos true 1, exampleTsos true 2, exampleTsos true 3⟩

/-- The containers for five hits and five parameters. -/
def exampleState : DualKalmanTrajectory := ReferenceTrajectoryBase 5 5

/-- Five measurements, of the hits `exampleHit 0`, ..., `exampleHit 4`. -/
def exampleMeasurements : List TrajectoryMeasurement :=
  [exampleMeasurement 0, exampleMeasurement 1, exampleMeasurement 2, exampleMeasurement 3,
   exampleMeasurement 4]

/-- A single-direction fit that keeps the hits it is given, reports the validity `fwdValid`
along the momentum and `bwdValid` otherwise, and has the entry `scale * (i + 10 * j)` in
row `i` and column `j` of its derivative matrix (two rows per hit, five columns). -/
def exampleFitter (fwdValid bwdValid : Bool) (scale : ℚ) :
    TrajectoryStateOnSurface → List TransientTrackingRecHit → Nat → MaterialEffects →
      PropagationDirection → ℚ → ReferenceTrajectory :=
  fun _ hits _ _ propDir _ =>
    ⟨if propDir = .alongMomentum then fwdValid else bwdValid, hits, hits.length,
      ⟨2 * hits.length, 5, fun i j => scale * ((i : ℚ) + 10 * j)⟩⟩

/-- Collaborators: the fit `exampleFitter`, a state combiner that returns the forward
predicted state, and the APE helper `exampleParError`. -/
def exampleEnv (fwdValid bwdValid : Bool) (scale : ℚ) : Collaborators :=
  ⟨exampleFitter fwdValid bwdValid scale, fun a _ => a, exampleParError⟩

/-- The forward hit numbers of the example: `h0, h1, h2`. -/
def exampleForward : List Nat := [0, 1, 2]

/-- The backward hit numbers of the example: `h0, h3, h4`. -/
def exampleBackward : List Nat := [0, 3, 4]

/-- The forward single-direction result of the example. -/
def exampleFwdTraj (fwdValid bwdValid : Bool) (scale : ℚ) : ReferenceTrajectory :=
  exampleFitter fwdValid bwdValid scale (exampleTsos true 1)
    [exampleHit 0, exampleHit 1, exampleHit 2] 0 .none .alongMomentum 1

/-- The backward single-direction result of the example. -/
def exampleBwdTraj (fwdValid bwdValid : Bool) (scale : ℚ) : ReferenceTrajectory :=
  exampleFitter fwdValid bwdValid scale (exampleTsos true 1)
    [exampleHit 0, exampleHit 3, exampleHit 4] 0 .none .oppositeToMomentum 1

/-- A reference state without covariance. -/
def exampleTsosNoError : TrajectoryStateOnSurface :=
  { exampleTsos true 1 with hasError := false }

/-- The containers of `s` have the sizes that the base-class constructor gives them for
`nPar` parameters and `nHits` hits (two entries per hit), and the hit list is still empty. -/
def SizedFor (s : DualKalmanTrajectory) (nPar nHits : Nat) : Prop :=
  s.theRecHits = [] ∧
  s.theMeasurements.nrow = 2 * nHits ∧
  s.theMeasurementsCov.nrow = 2 * nHits ∧
  s.theTrajectoryPositions.nrow = 2 * nHits ∧
  s.theDerivatives.nrow = 2 * nHits ∧
  s.theDerivatives.ncol = nPar

instance (s : DualKalmanTrajectory) (nPar nHits : Nat) : Decidable (SizedFor s nPar nHits) :=
  decidable_of_iff (s.theRecHits.isEmpty = true ∧
    s.theMeasurements.nrow = 2 * nHits ∧
    s.theMeasurementsCov.nrow = 2 * nHits ∧
    s.theTrajectoryPositions.nrow = 2 * nHits ∧
    s.theDerivatives.nrow = 2 * nHits ∧
    s.theDerivatives.ncol = nPar) (by unfold SizedFor; rw [List.isEmpty_iff])

/-- The single-direction result `t` is consistent for `n` hits: `n` hits in its list,
`numberOfHits() = n`, a derivative matrix with two rows per hit and five columns. -/
def ConsistentFor (t : ReferenceTrajectory) (n : Nat) : Prop :=
  t.recHits.length = n ∧ t.numberOfHits = n ∧
  t.derivatives.nrow = 2 * n ∧ t.derivatives.ncol = 5

instance (t : ReferenceTrajectory) (n : Nat) : Decidable (ConsistentFor t n) := by
  unfold ConsistentFor; infer_instance

/-- The per-hit routines can process the hit: its projection matrix has five columns and at
least two rows, and when its detector element has an alignment position error the matrix
of the APE helper has at least two rows. -/
def FillableHit (env : Collaborators) (hit : TransientTrackingRecHit) : Prop :=
  hit.projectionMatrix.ncol = 5 ∧ 2 ≤ hit.projectionMatrix.nrow ∧
  ∀ det, hit.det = some det → det.alignmentPositionError ≠ none →
    2 ≤ (env.parError hit.localPositionError det).nrow

/-- Every hit number of the list refers to a measurement of the container, and its hit can
be processed. -/
def FillableList (env : Collaborators) (trajMeasurements : List TrajectoryMeasurement)
    (recHitNums : List Nat) : Prop :=
  ∀ n ∈ recHitNums, ∃ tm, trajMeasurements[n]? = some tm ∧ FillableHit env tm.recHit

/-- The members that the fill passes leave alone agree in `s` and `s'`, and the containers
they write have kept their sizes. -/
def SameAssembly (s s' : DualKalmanTrajectory) : Prop :=
  s'.theRecHits = s.theRecHits ∧ s'.theParameters = s.theParameters ∧
  s'.theDerivatives = s.theDerivatives ∧
  s'.theTrajectoryPositionCov = s.theTrajectoryPositionCov ∧
  s'.theMeasurements.nrow = s.theMeasurements.nrow ∧
  s'.theMeasurementsCov.nrow = s.theMeasurementsCov.nrow ∧
  s'.theTrajectoryPositions.nrow = s.theTrajectoryPositions.nrow

/-- The hypotheses under which a call of `construct` on the state `s` runs to its end, with
`fwdTraj` and `bwdTraj` the two single-direction results: both results are consistent with
the number of hit numbers of their direction, the backward list is not empty, the
containers of `s` are sized for `size + size - 1` hits and five parameters, the sizes fit
an `int`, and every hit can be processed. -/
def WellFormedRun (env : Collaborators) (trajMeasurements : List TrajectoryMeasurement)
    (refTsos : TrajectoryStateOnSurface) (forwardRecHitNums backwardRecHitNums : List Nat)
    (mass : ℚ) (materialEffects : MaterialEffects) (propDir : PropagationDirection)
    (magField : Nat) (s : DualKalmanTrajectory) (fwdTraj bwdTraj : ReferenceTrajectory) : Prop :=
  constructOneDirection env trajMeasurements refTsos forwardRecHitNums mass materialEffects
    propDir magField = .ok fwdTraj ∧
  constructOneDirection env trajMeasurements refTsos backwardRecHitNums mass materialEffects
    (oppositeDirection propDir) magField = .ok bwdTraj ∧
  ConsistentFor fwdTraj forwardRecHitNums.length ∧
  ConsistentFor bwdTraj backwardRecHitNums.length ∧
  1 ≤ backwardRecHitNums.length ∧
  2 * (forwardRecHitNums.length + backwardRecHitNums.length) < 2147483648 ∧
  SizedFor s 5 (forwardRecHitNums.length + backwardRecHitNums.length - 1) ∧
  FillableList env trajMeasurements forwardRecHitNums ∧
  FillableList env trajMeasurements backwardRecHitNums

/-- The upper left `p × q` corner of a CLHEP matrix as a Mathlib matrix. -/
def HepMatrix.toMatrix (m : HepMatrix) (p q : Nat) : Matrix (Fin p) (Fin q) ℚ :=
  fun i j => m.elem i j

/-- The upper left `p × p` corner of a CLHEP symmetric matrix as a Mathlib matrix. -/
def HepSymMatrix.toMatrix (a : HepSymMatrix) (p : Nat) : Matrix (Fin p) (Fin p) ℚ :=
  fun i j => a.entry i j

/-- The state after `fillTrajectoryPositions` at slot `iHit`: the entries `2*iHit` and
`2*iHit+1` of the trajectory positions are the first two components of
`projection * (local parameters of tsos)`. -/
def positionedState (projection : HepMatrix) (tsos : TrajectoryStateOnSurface) (iHit : Nat)
    (s : DualKalmanTrajectory) : DualKalmanTrajectory :=
  { s with
    theTrajectoryPositions := ⟨s.theTrajectoryPositions.nrow, fun k =>
      if k = 2 * iHit + 1 then
        ∑ j in Finset.range 5, projection.elem 1 j * (asHepVector5 tsos.mixedFormatVector).elem j
      else if k = 2 * iHit then
        ∑ j in Finset.range 5, projection.elem 0 j * (asHepVector5 tsos.mixedFormatVector).elem j
      else s.theTrajectoryPositions.elem k⟩ }

/-- The measurement passes the PullBased processing: its updated state is valid, the hit
error (with APE) is defined and neither of its diagonal entries is smaller than that of the
position error of the updated state. -/
def PassesPullCheck (env : Collaborators) (tm : TrajectoryMeasurement) : Prop :=
  tm.updatedState.isValid = true ∧
  ∃ H, hitErrWithAPE env.parError tm.recHit = .ok H ∧
    ¬ (H.xx < tm.updatedState.positionError.xx ∨ H.yy < tm.updatedState.positionError.yy)

/-- The state after one iteration of the fill loop that runs to its end under the PullBased
method, for the measurement `tm` at the slot `iHit` and the hit error `H`: the updated state
is appended to the state list, the measurement and the covariance `H - S` are written, then
the trajectory position. -/
def pullStep (tm : TrajectoryMeasurement) (H : LocalError) (iHit : Nat)
    (s : DualKalmanTrajectory) : DualKalmanTrajectory :=
  positionedState tm.recHit.projectionMatrix tm.updatedState iHit
    (writtenState tm.recHit.localPosition
      ⟨H.xx - tm.updatedState.positionError.xx, H.xy - tm.updatedState.positionError.xy,
       H.yy - tm.updatedState.positionError.yy⟩ iHit
      { s with theTsosVec := s.theTsosVec ++ [tm.updatedState] })

/-- The iterations of the fill loop of `fillKalmanPart` as far as its header determines them
(`iMeas < recHitNums.size(); ++iMeas, ++iNextHit`): the hit number and the slot of each
iteration, for the hit numbers still to be processed and the slot of the first of them. -/
def fillSchedule : List Nat → Nat → List (Nat × Nat)
  | [], _ => []
  | n :: rest, iNextHit => (n, iNextHit) :: fillSchedule rest (u32 (iNextHit + 1))

/-- The body of the fill loop (source lines 179-194) for the hit number `n` and the slot
`iNextHit`: `false` stands for `return false`, `true` for the end of the body. -/
def processHit (env : Collaborators) (trajMeasurements : List TrajectoryMeasurement)
    (residualMethod : Int) (n iNextHit : Nat) (s : DualKalmanTrajectory) :
    Except Failure (Bool × DualKalmanTrajectory) :=
  match trajMeasurements[n]? with
  | none => .error .outOfRange
  | some trajMeasurement =>
    let tsos :=
      if residualMethod = 1 then
        env.tsosComb trajMeasurement.forwardPredictedState
          trajMeasurement.backwardPredictedState
      else trajMeasurement.updatedState
    if !tsos.isValid then pure (false, s)
    else do
      let s1 := { s with theTsosVec := s.theTsosVec ++ [tsos] }
      let (ok, s2) ←
        if residualMethod = 1 then fillMeasurementAndError1 trajMeasurement.recHit iNextHit tsos s1
        else fillMeasurementAndError2 env.parError trajMeasurement.recHit iNextHit tsos s1
      if !ok then pure (false, s2)
      else do
        let s3 ← fillTrajectoryPositions trajMeasurement.recHit.projectionMatrix tsos iNextHit s2
        pure (true, s3)

/-- The fill loop run over a list of (hit number, slot) pairs: the body is run for each pair
until it returns `false`. -/
def runSchedule (env : Collaborators) (trajMeasurements : List TrajectoryMeasurement)
    (residualMethod : Int) :
    List (Nat × Nat) → DualKalmanTrajectory → Except Failure (Bool × DualKalmanTrajectory)
  | [], s => pure (true, s)
  | (n, iNextHit) :: rest, s => do
    let (ok, s1) ← processHit env trajMeasurements residualMethod n iNextHit s
    if !ok then pure (false, s1)
    else runSchedule env trajMeasurements residualMethod rest s1

/-- The state after PullBased iterations that all run to their end, over a list of
(hit number, slot) pairs. -/
def pullSteps (env : Collaborators) (trajMeasurements : List TrajectoryMeasurement) :
    List (Nat × Nat) → DualKalmanTrajectory → DualKalmanTrajectory
  | [], s => s
  | (n, iHit) :: rest, s =>
    match trajMeasurements[n]? with
    | none => s
    | some tm =>
      match hitErrWithAPE env.parError tm.recHit with
      | .error _ => s
      | .ok H => pullSteps env trajMeasurements rest (pullStep tm H iHit s)

/-- The symmetric matrix is block diagonal with one `2 × 2` block per hit: every entry that
couples two different hit slots is zero. -/
def BlockDiagonal (a : HepSymMatrix) : Prop :=
  ∀ r c, r / 2 ≠ c / 2 → a.entry r c = 0

/-- One call of a per-hit fill routine: the method (`unbiased` for
`fillMeasurementAndError1`, otherwise `fillMeasurementAndError2`), the hit, the slot and
the state. -/
structure FillCall where
  unbiased : Bool
  hitPtr : TransientTrackingRecHit
  iHit : Nat
  tsos : TrajectoryStateOnSurface

/-- A sequence of calls of the per-hit fill routines, whatever they report. -/
def applyFills (parError : LocalError → GeomDet → HepSymMatrix) :
    List FillCall → DualKalmanTrajectory → Except Failure DualKalmanTrajectory
  | [], s => pure s
  | call :: rest, s => do
    let (_, s1) ←
      if call.unbiased then fillMeasurementAndError1 call.hitPtr call.iHit call.tsos s
      else fillMeasurementAndError2 parError call.hitPtr call.iHit call.tsos s
    applyFills parError rest s1

/-- A measurement of the hit `exampleHit k` whose updated state is valid but has the position
error `6`, larger than the hit error `4`. -/
def exampleTightMeasurement (k : ℚ) : TrajectoryMeasurement :=
  ⟨exampleHit k, exampleTsos true 6, exampleTsos true 2, exampleTsos true 3⟩

/-- The hit numbers and slots of the two fill passes of `construct` (source lines 129-131):
the forward list from slot `0`, then the backward list without its first hit number from
the slot `forwardRecHitNums.size()`. -/
def constructSchedule (forwardRecHitNums backwardRecHitNums : List Nat) : List (Nat × Nat) :=
  fillSchedule forwardRecHitNums 0 ++
    fillSchedule (backwardRecHitNums.drop 1) (u32 forwardRecHitNums.length)

/-- Every hit number of the schedule refers to a measurement whose hit can be processed. -/
def SchedFillable (env : Collaborators) (trajMeasurements : List TrajectoryMeasurement)
    (sched : List (Nat × Nat)) : Prop :=
  ∀ p ∈ sched, ∃ tm, trajMeasurements[p.1]? = some tm ∧ FillableHit env tm.recHit

/-- Every hit number of the schedule refers to a measurement that passes the PullBased
processing. -/
def SchedPasses (env : Collaborators) (trajMeasurements : List TrajectoryMeasurement)
    (sched : List (Nat × Nat)) : Prop :=
  ∀ p ∈ sched, ∃ tm, trajMeasurements[p.1]? = some tm ∧ PassesPullCheck env tm

/-- Every slot of the schedule lies inside the three containers that the fill passes write
(and twice the slot plus one is an `unsigned int`). -/
def SchedInRange (sched : List (Nat × Nat)) (s : DualKalmanTrajectory) : Prop :=
  ∀ p ∈ sched, 2 * p.2 + 1 < 4294967296 ∧ 2 * p.2 + 1 < s.theMeasurements.nrow ∧
    2 * p.2 + 1 < s.theMeasurementsCov.nrow ∧ 2 * p.2 + 1 < s.theTrajectoryPositions.nrow

/-- From `s` to `s'` only the slot `iHit` has been written: the assembled members and the
container sizes are kept, and so is every entry of the measurement vector and of the
trajectory positions outside `2*iHit`, `2*iHit+1` and every stored entry of the
measurement covariance outside the block of the slot. -/
def OnlySlot (iHit : Nat) (s s' : DualKalmanTrajectory) : Prop :=
  SameAssembly s s' ∧
  (∀ k, k / 2 ≠ iHit → s'.theMeasurements.elem k = s.theMeasurements.elem k) ∧
  (∀ k, k / 2 ≠ iHit → s'.theTrajectoryPositions.elem k = s.theTrajectoryPositions.elem k) ∧
  (∀ r c, ¬ (r / 2 = iHit ∧ c / 2 = iHit) →
    s'.theMeasurementsCov.elem r c = s.theMeasurementsCov.elem r c)

/-! ## IEEE 754 arithmetic

The members of `LocalError` and `LocalPoint` are `float` values and the CLHEP containers hold
`double` values. This section embeds the two per-hit fill routines once more over IEEE 754
values: `float` sums and differences are evaluated in single precision (binary32) with
rounding to nearest, ties to even, and the infinities and not-a-number take part in the
arithmetic and in the comparisons. An IEEE value is not-a-number, an infinity or a finite
number; the two zeros are identified (they compare equal and the routines do not divide). A
finite `double` is any rational number, a finite `float` is one that `roundFloat` leaves
unchanged; the conversion of a `float` to `double` is exact. -/

/-- An IEEE 754 value: not-a-number, plus or minus infinity, or a finite number. -/
inductive Ieee where
  | nan
  | inf (negative : Bool)
  | fin (value : ℚ)
  deriving DecidableEq

/-- The comparison `a < b` of IEEE values: false when an operand is not-a-number. -/
def Ieee.lt : Ieee → Ieee → Bool
  | .fin a, .fin b => decide (a < b)
  | .fin _, .inf negative => !negative
  | .inf negative, .fin _ => negative
  | .inf a, .inf b => a && !b
  | _, _ => false

/-- The comparison `a <= b` of IEEE values: false when an operand is not-a-number. -/
def Ieee.le : Ieee → Ieee → Bool
  | .fin a, .fin b => decide (a ≤ b)
  | .fin _, .inf negative => !negative
  | .inf negative, .fin _ => negative
  | .inf a, .inf b => a || !b
  | _, _ => false

/-- Rounding of a rational number to the nearest integer, ties to the even one. -/
def roundHalfEven (x : ℚ) : ℤ :=
  if x - ⌊x⌋ < 1 / 2 then ⌊x⌋
  else if 1 / 2 < x - ⌊x⌋ then ⌊x⌋ + 1
  else if ⌊x⌋ % 2 = 0 then ⌊x⌋ else ⌊x⌋ + 1

/-- The spacing of the `float` values around a magnitude `a`: `2 ^ (e - 23)` for
`2 ^ e ≤ a < 2 ^ (e + 1)` (24 significant bits), with `e` not below `-126` (subnormal
numbers). -/
def floatQuantum (a : ℚ) : ℚ := 2 ^ (max (Int.log 2 a) (-126) - 23)

/-- Rounding of a rational number to `float` (binary32), to nearest and ties to even: the
magnitude is rounded to a multiple of the spacing, and a result of `2 ^ 128` or more
overflows to an infinity. -/
def roundFloat (q : ℚ) : Ieee :=
  let m : ℚ := roundHalfEven (|q| / floatQuantum |q|) * floatQuantum |q|
  if 2 ^ 128 ≤ m then .inf (decide (q < 0))
  else .fin (if q < 0 then -m else m)

/-- The conversion of a `double` to `float`: a finite value is rounded, and becomes an
infinity when it lies outside the range of `float`. -/
def Ieee.toFloat : Ieee → Ieee
  | .nan => .nan
  | .inf negative => .inf negative
  | .fin q => roundFloat q

/-- The sum `a + b` of two `float` values, evaluated in single precision: the exact sum of
finite operands is rounded; infinities of opposite sign give not-a-number. -/
def floatAdd : Ieee → Ieee → Ieee
  | .fin a, .fin b => roundFloat (a + b)
  | .fin _, .inf negative => .inf negative
  | .inf negative, .fin _ => .inf negative
  | .inf a, .inf b => if a = b then .inf a else .nan
  | _, _ => .nan

/-- The difference `a - b` of two `float` values, evaluated in single precision: the exact
difference of finite operands is rounded; infinities of the same sign give not-a-number. -/
def floatSub : Ieee → Ieee → Ieee
  | .fin a, .fin b => roundFloat (a - b)
  | .fin _, .inf negative => .inf (!negative)
  | .inf negative, .fin _ => .inf negative
  | .inf a, .inf b => if a = b then .nan else .inf a
  | _, _ => .nan

/-- The class `LocalError` with its `float` members `xx`, `xy`, `yy`; the class is declared
outside the source file. -/
structure Fp.LocalError where
  xx : Ieee
  xy : Ieee
  yy : Ieee
  deriving DecidableEq

/-- The class `LocalPoint` with its `float` members (only `x` and `y` are read); the class is
declared outside the source file. -/
structure Fp.LocalPoint where
  x : Ieee
  y : Ieee
  deriving DecidableEq

/-- The class `HepVector` with `double` entries. -/
structure Fp.HepVector where
  nrow : Nat
  elem : Nat → Ieee

/-- The class `HepSymMatrix` with `double` entries; only the entries `elem r c` with `c ≤ r`
are stored. -/
structure Fp.HepSymMatrix where
  nrow : Nat
  elem : Nat → Nat → Ieee

/-- Write access `v[i] = x`. -/
def Fp.HepVector.set (v : Fp.HepVector) (i : Nat) (x : Ieee) : Except Failure Fp.HepVector :=
  if i < v.nrow then .ok { v with elem := fun k => if k = i then x else v.elem k }
  else .error .outOfRange

/-- The entry `(r, c)` of a symmetric matrix: the stored entry of the lower triangle. -/
def Fp.HepSymMatrix.entry (a : Fp.HepSymMatrix) (r c : Nat) : Ieee :=
  if c ≤ r then a.elem r c else a.elem c r

/-- Read access `a[r][c]`. -/
def Fp.HepSymMatrix.get (a : Fp.HepSymMatrix) (r c : Nat) : Except Failure Ieee :=
  if r < a.nrow ∧ c < a.nrow then .ok (a.entry r c) else .error .outOfRange

/-- Write access `a[r][c] = x`: writes the stored entry of the lower triangle. -/
def Fp.HepSymMatrix.set (a : Fp.HepSymMatrix) (r c : Nat) (x : Ieee) :
    Except Failure Fp.HepSymMatrix :=
  if r < a.nrow ∧ c < a.nrow then
    .ok { a with elem := fun i j =>
            if i = max r c ∧ j = min r c then x else a.elem i j }
  else .error .outOfRange

/-- The class `TrajectoryStateOnSurface`, as far as the per-hit fill routines read it:
`localError().positionError()`. -/
structure Fp.TrajectoryStateOnSurface where
  positionError : Fp.LocalError

/-- The class `TransientTrackingRecHit`, as far as the per-hit fill routines read it:
`localPosition()`, `localPositionError()` and `det()` (a pointer that may be null). -/
structure Fp.TransientTrackingRecHit where
  localPosition : Fp.LocalPoint
  localPositionError : Fp.LocalError
  det : Option GeomDet

/-- The data members that the per-hit fill routines write. -/
structure Fp.DualKalmanTrajectory where
  theMeasurements : Fp.HepVector
  theMeasurementsCov : Fp.HepSymMatrix

/-- The five assignments that end both per-hit fill routines (source lines 222-226 and
280-284); the conversion of a `float` to the `double` of the container is exact. -/
def Fp.writeMeasurementAndError (localMeasurement : Fp.LocalPoint)
    (localMeasurementCov : Fp.LocalError) (iHit : Nat) (s : Fp.DualKalmanTrajectory) :
    Except Failure Fp.DualKalmanTrajectory := do
  let i0 := u32 (nMeasPerHit * iHit)
  let i1 := u32 (u32 (nMeasPerHit * iHit) + 1)
  let m1 ← s.theMeasurements.set i0 localMeasurement.x
  let m2 ← m1.set i1 localMeasurement.y
  let c1 ← s.theMeasurementsCov.set i0 i0 localMeasurementCov.xx
  let c2 ← c1.set i0 i1 localMeasurementCov.xy
  let c3 ← c2.set i1 i1 localMeasurementCov.yy
  pure { s with theMeasurements := m2, theMeasurementsCov := c3 }

/-- The member `fillMeasurementAndError1` (source lines 201-229) over IEEE values: the three
sums of lines 218-220 are `float` sums; the function ends in `return false`. -/
def Fp.fillMeasurementAndError1 (hitPtr : Fp.TransientTrackingRecHit) (iHit : Nat)
    (tsos : Fp.TrajectoryStateOnSurface) (s : Fp.DualKalmanTrajectory) :
    Except Failure (Bool × Fp.DualKalmanTrajectory) := do
  let newHitPtr := hitPtr
  let localMeasurement := newHitPtr.localPosition
  let hitErr := newHitPtr.localPositionError
  let tsosErr := tsos.positionError
  let localMeasurementCov : Fp.LocalError :=
    ⟨floatAdd hitErr.xx tsosErr.xx, floatAdd hitErr.xy tsosErr.xy,
     floatAdd hitErr.yy tsosErr.yy⟩
  let s1 ← Fp.writeMeasurementAndError localMeasurement localMeasurementCov iHit s
  pure (false, s1)

/-- The hit error that `fillMeasurementAndError2` compares with the state error (source lines
245-262) over IEEE values: the `double` entries `[0][0]`, `[0][1]`, `[1][1]` of the matrix
that `parError` returns are converted to `float` by the constructor of `LocalError`. -/
def Fp.hitErrWithAPE (parError : Fp.LocalError → GeomDet → Fp.HepSymMatrix)
    (newHitPtr : Fp.TransientTrackingRecHit) : Except Failure Fp.LocalError :=
  let hitErrNoAPE := newHitPtr.localPositionError
  match newHitPtr.det with
  | some det =>
    match det.alignmentPositionError with
    | some _ => do
      let errMat := parError hitErrNoAPE det
      let e00 ← errMat.get 0 0
      let e01 ← errMat.get 0 1
      let e11 ← errMat.get 1 1
      pure ⟨e00.toFloat, e01.toFloat, e11.toFloat⟩
    | none => pure hitErrNoAPE
  | none => pure hitErrNoAPE

/-- The member `fillMeasurementAndError2` (source lines 232-287) over IEEE values: the test of
line 266 is the IEEE comparison, the three differences of lines 276-278 are `float`
differences. -/
def Fp.fillMeasurementAndError2 (parError : Fp.LocalError → GeomDet → Fp.HepSymMatrix)
    (hitPtr : Fp.TransientTrackingRecHit) (iHit : Nat)
    (tsos : Fp.TrajectoryStateOnSurface) (s : Fp.DualKalmanTrajectory) :
    Except Failure (Bool × Fp.DualKalmanTrajectory) := do
  let newHitPtr := hitPtr
  let localMeasurement := newHitPtr.localPosition
  let hitErr ← Fp.hitErrWithAPE parError newHitPtr
  let tsosErr := tsos.positionError
  if hitErr.xx.lt tsosErr.xx || hitErr.yy.lt tsosErr.yy then
    pure (false, s)
  else
    let localMeasurementCov : Fp.LocalError :=
      ⟨floatSub hitErr.xx tsosErr.xx, floatSub hitErr.xy tsosErr.xy,
       floatSub hitErr.yy tsosErr.yy⟩
    let s1 ← Fp.writeMeasurementAndError localMeasurement localMeasurementCov iHit s
    pure (true, s1)

/-- The exact value of a covariance whose three entries are finite. -/
def exactError : Fp.LocalError → Option LocalError
  | ⟨.fin a, .fin b, .fin c⟩ => some ⟨a, b, c⟩
  | _ => none

/-- The value is finite: neither an infinity nor not-a-number. -/
def Ieee.isFinite : Ieee → Bool
  | .fin _ => true
  | _ => false

/-- The value is a `float`: the conversion to `float` leaves it unchanged. -/
def Ieee.isFloat (v : Ieee) : Prop := v.toFloat = v

/-- The state after the five assignments of a per-hit fill at slot `iHit`. -/
def Fp.writtenState (p : Fp.LocalPoint) (c : Fp.LocalError) (iHit : Nat)
    (s : Fp.DualKalmanTrajectory) : Fp.DualKalmanTrajectory :=
  { theMeasurements := ⟨s.theMeasurements.nrow, fun k =>
      if k = 2 * iHit + 1 then p.y else if k = 2 * iHit then p.x else s.theMeasurements.elem k⟩
    theMeasurementsCov := ⟨s.theMeasurementsCov.nrow, fun i j =>
      if i = 2 * iHit + 1 ∧ j = 2 * iHit + 1 then c.yy
      else if i = 2 * iHit + 1 ∧ j = 2 * iHit then c.xy
      else if i = 2 * iHit ∧ j = 2 * iHit then c.xx
      else s.theMeasurementsCov.elem i j⟩ }

/-- Containers for `nHits` hits, filled with zeros. -/
def Fp.exampleState (nHits : Nat) : Fp.DualKalmanTrajectory :=
  ⟨⟨nMeasPerHit * nHits, fun _ => .fin 0⟩, ⟨nMeasPerHit * nHits, fun _ _ => .fin 0⟩⟩

/-- A hit with the local position error `(4, 1, 1/4)`. -/
def Fp.exampleRoundingHit : Fp.TransientTrackingRecHit :=
  ⟨⟨.fin 0, .fin 0⟩, ⟨.fin 4, .fin 1, .fin (1 / 4)⟩, none⟩

/-- A state with the position error `(15 / 2^26, 33 / 2^29, 73 / 2^32)`. -/
def Fp.exampleRoundingTsos : Fp.TrajectoryStateOnSurface :=
  ⟨⟨.fin (15 / 2 ^ 26), .fin (33 / 2 ^ 29), .fin (73 / 2 ^ 32)⟩⟩

/-- A hit with the local position error `(+inf, 0, 1)`. -/
def Fp.exampleInfiniteHit : Fp.TransientTrackingRecHit :=
  ⟨⟨.fin 0, .fin 0⟩, ⟨.inf false, .fin 0, .fin 1⟩, none⟩

/-- A state with the position error `(+inf, 0, 1)`. -/
def Fp.exampleInfiniteTsos : Fp.TrajectoryStateOnSurface :=
  ⟨⟨.inf false, .fin 0, .fin 1⟩⟩

/-- A hit with the local position `(7, 7)` and the local position error `(4, 1, 4)`. -/
def Fp.exampleHit : Fp.TransientTrackingRecHit :=
  ⟨⟨.fin 7, .fin 7⟩, ⟨.fin 4, .fin 1, .fin 4⟩, none⟩

/-- A state with the position error `(e, 0, e)`. -/
def Fp.exampleTsos (e : ℚ) : Fp.TrajectoryStateOnSurface :=
  ⟨⟨.fin e, .fin 0, .fin e⟩⟩

/-- An APE helper that is never called for a hit without detector element. -/
def Fp.exampleParError : Fp.LocalError → GeomDet → Fp.HepSymMatrix :=
  fun e _ => ⟨2, fun i j => if i = 0 then e.xx else if j = 0 then e.xy else e.yy⟩

/-- The three entries of a covariance are `float` values. -/
def Fp.LocalError.isFloat (e : Fp.LocalError) : Prop :=
  e.xx.isFloat ∧ e.xy.isFloat ∧ e.yy.isFloat

/-! ## Theorems -/

theorem u32_of_lt {n : Nat} (h : n < 4294967296) : u32 n = n := by
  unfold u32; omega

theorem toInt_of_lt {n : Nat} (h : n < 2147483648) : toInt n = (n : Int) := by
  unfold toInt; simp [h]

/-- The five assignments of a per-hit fill succeed on a slot inside the containers and give
`writtenState`. -/
theorem writeMeasurementAndError_eq (p : LocalPoint) (c : LocalError) (iHit : Nat)
    (s : DualKalmanTrajectory) (h32 : 2 * iHit + 1 < 4294967296)
    (hm : 2 * iHit + 1 < s.theMeasurements.nrow)
    (hc : 2 * iHit + 1 < s.theMeasurementsCov.nrow) :
    writeMeasurementAndError p c iHit s = .ok (writtenState p c iHit s) := by
  have e0 : u32 (nMeasPerHit * iHit) = 2 * iHit := by
    unfold nMeasPerHit; exact u32_of_lt (by omega)
  have e1 : u32 (2 * iHit + 1) = 2 * iHit + 1 := u32_of_lt h32
  have hm0 : 2 * iHit < s.theMeasurements.nrow := by omega
  have hc0 : 2 * iHit < s.theMeasurementsCov.nrow := by omega
  simp only [writeMeasurementAndError, e0, e1, HepVector.set, HepSymMatrix.set, bind, Except.bind,
    pure, Except.pure, hm, hc, hm0, hc0, and_self, if_true, writtenState]
  simp

/-- The entries of `writtenState` at the slot `iHit`. -/
theorem writtenState_entries (p : LocalPoint) (c : LocalError) (iHit : Nat)
    (s : DualKalmanTrajectory) :
    (writtenState p c iHit s).theMeasurements.elem (2 * iHit) = p.x ∧
    (writtenState p c iHit s).theMeasurements.elem (2 * iHit + 1) = p.y ∧
    (writtenState p c iHit s).theMeasurementsCov.entry (2 * iHit) (2 * iHit) = c.xx ∧
    (writtenState p c iHit s).theMeasurementsCov.entry (2 * iHit) (2 * iHit + 1) = c.xy ∧
    (writtenState p c iHit s).theMeasurementsCov.entry (2 * iHit + 1) (2 * iHit + 1) = c.yy := by
  simp [writtenState, HepSymMatrix.entry]

/-- The sum of two non-negative-definite symmetric `2 × 2` matrices is non-negative-definite. -/
theorem nonNegDefinite_add (a b : LocalError) (ha : NonNegDefinite a) (hb : NonNegDefinite b) :
    NonNegDefinite ⟨a.xx + b.xx, a.xy + b.xy, a.yy + b.yy⟩ := by
  obtain ⟨a1, a2, a3⟩ := ha
  obtain ⟨b1, b2, b3⟩ := hb
  refine ⟨by positivity, by positivity, ?_⟩
  show 0 ≤ (a.xx + b.xx) * (a.yy + b.yy) - (a.xy + b.xy) * (a.xy + b.xy)
  have hcross : 2 * (a.xy * b.xy) ≤ a.xx * b.yy + b.xx * a.yy := by
    by_contra hlt
    push_neg at hlt
    have hpos : 0 ≤ a.xx * b.yy + b.xx * a.yy := by positivity
    have hsq : (a.xx * b.yy + b.xx * a.yy) ^ 2 < (2 * (a.xy * b.xy)) ^ 2 := by
      exact pow_lt_pow_left₀ hlt hpos (by norm_num)
    have h1 : (a.xy * a.xy) * (b.xy * b.xy) ≤ (a.xx * a.yy) * (b.xx * b.yy) := by
      apply mul_le_mul (by linarith) (by linarith) (mul_self_nonneg _) (by positivity)
    nlinarith [sq_nonneg (a.xx * b.yy - b.xx * a.yy)]
  nlinarith

/-- The Unbiased per-hit fill in exact arithmetic. At a slot `iHit` inside the containers,
with `H` the local position error of the hit and `S` the position error of the (combined
predicted) state, the call returns after writing `H.xx + S.xx`, `H.xy + S.xy`, `H.yy + S.yy`
to the covariance entries `(2i,2i)`, `(2i,2i+1)`, `(2i+1,2i+1)`; when `H` and `S` are
non-negative-definite, so is the written block. -/
theorem fillMeasurementAndError1_sum (hitPtr : TransientTrackingRecHit) (iHit : Nat)
    (tsos : TrajectoryStateOnSurface) (s : DualKalmanTrajectory)
    (h32 : 2 * iHit + 1 < 4294967296)
    (hm : 2 * iHit + 1 < s.theMeasurements.nrow)
    (hc : 2 * iHit + 1 < s.theMeasurementsCov.nrow) :
    ∃ ok s', fillMeasurementAndError1 hitPtr iHit tsos s = .ok (ok, s') ∧
      s'.theMeasurementsCov.entry (2 * iHit) (2 * iHit) =
        hitPtr.localPositionError.xx + tsos.positionError.xx ∧
      s'.theMeasurementsCov.entry (2 * iHit) (2 * iHit + 1) =
        hitPtr.localPositionError.xy + tsos.positionError.xy ∧
      s'.theMeasurementsCov.entry (2 * iHit + 1) (2 * iHit + 1) =
        hitPtr.localPositionError.yy + tsos.positionError.yy ∧
      (NonNegDefinite hitPtr.localPositionError → NonNegDefinite tsos.positionError →
        NonNegDefinite ⟨s'.theMeasurementsCov.entry (2 * iHit) (2 * iHit),
          s'.theMeasurementsCov.entry (2 * iHit) (2 * iHit + 1),
          s'.theMeasurementsCov.entry (2 * iHit + 1) (2 * iHit + 1)⟩) := by
  refine ⟨false, writtenState hitPtr.localPosition
    ⟨hitPtr.localPositionError.xx + tsos.positionError.xx,
     hitPtr.localPositionError.xy + tsos.positionError.xy,
     hitPtr.localPositionError.yy + tsos.positionError.yy⟩ iHit s, ?_, ?_⟩
  · simp only [fillMeasurementAndError1, bind, Except.bind, pure, Except.pure,
      writeMeasurementAndError_eq _ _ iHit s h32 hm hc]
  · obtain ⟨-, -, e1, e2, e3⟩ := writtenState_entries hitPtr.localPosition
      ⟨hitPtr.localPositionError.xx + tsos.positionError.xx,
       hitPtr.localPositionError.xy + tsos.positionError.xy,
       hitPtr.localPositionError.yy + tsos.positionError.yy⟩ iHit s
    refine ⟨e1, e2, e3, fun hH hS => ?_⟩
    rw [e1, e2, e3]
    exact nonNegDefinite_add _ _ hH hS

theorem fillMeasurementAndError1_sum_witness :
    ∃ ok s', fillMeasurementAndError1 (exampleHit 7) 2 (exampleTsos true 3) exampleState =
        .ok (ok, s') ∧
      NonNegDefinite ⟨s'.theMeasurementsCov.entry (2 * 2) (2 * 2),
        s'.theMeasurementsCov.entry (2 * 2) (2 * 2 + 1),
        s'.theMeasurementsCov.entry (2 * 2 + 1) (2 * 2 + 1)⟩ :=
  let ⟨ok, s', h, _, _, _, hpsd⟩ :=
    fillMeasurementAndError1_sum (exampleHit 7) 2 (exampleTsos true 3) exampleState
      (by decide) (by decide) (by decide)
  ⟨ok, s', h, hpsd (by norm_num [NonNegDefinite, exampleHit])
    (by norm_num [NonNegDefinite, exampleTsos])⟩

theorem SameAssembly.refl (s : DualKalmanTrajectory) : SameAssembly s s :=
  ⟨rfl, rfl, rfl, rfl, rfl, rfl, rfl⟩

theorem SameAssembly.trans {s s' s'' : DualKalmanTrajectory} (h : SameAssembly s s')
    (h' : SameAssembly s' s'') : SameAssembly s s'' := by
  obtain ⟨a1, a2, a3, a4, a5, a6, a7⟩ := h
  obtain ⟨b1, b2, b3, b4, b5, b6, b7⟩ := h'
  exact ⟨b1.trans a1, b2.trans a2, b3.trans a3, b4.trans a4, b5.trans a5, b6.trans a6,
    b7.trans a7⟩

theorem writtenState_sameAssembly (p : LocalPoint) (c : LocalError) (iHit : Nat)
    (s : DualKalmanTrajectory) : SameAssembly s (writtenState p c iHit s) :=
  ⟨rfl, rfl, rfl, rfl, rfl, rfl, rfl⟩

/-- The state after `fillTrajectoryPositions` at slot `iHit`. -/
theorem fillTrajectoryPositions_eq (projection : HepMatrix) (tsos : TrajectoryStateOnSurface)
    (iHit : Nat) (s : DualKalmanTrajectory) (hcol : projection.ncol = 5)
    (hrow : 2 ≤ projection.nrow) (h32 : 2 * iHit + 1 < 4294967296)
    (hp : 2 * iHit + 1 < s.theTrajectoryPositions.nrow) :
    fillTrajectoryPositions projection tsos iHit s = .ok { s with
      theTrajectoryPositions := ⟨s.theTrajectoryPositions.nrow, fun k =>
        if k = 2 * iHit + 1 then
          ∑ j in Finset.range 5, projection.elem 1 j * (asHepVector5 tsos.mixedFormatVector).elem j
        else if k = 2 * iHit then
          ∑ j in Finset.range 5, projection.elem 0 j * (asHepVector5 tsos.mixedFormatVector).elem j
        else s.theTrajectoryPositions.elem k⟩ } := by
  have e0 : u32 (nMeasPerHit * iHit) = 2 * iHit := by
    unfold nMeasPerHit; exact u32_of_lt (by omega)
  have e1 : u32 (2 * iHit + 1) = 2 * iHit + 1 := u32_of_lt h32
  have hp0 : 2 * iHit < s.theTrajectoryPositions.nrow := by omega
  have h0 : 0 < projection.nrow := by omega
  have h1 : 1 < projection.nrow := by omega
  have h5 : (asHepVector5 tsos.mixedFormatVector).nrow = 5 := rfl
  simp only [fillTrajectoryPositions, HepMatrix.mulVec, h5, hcol, e0, e1, HepVector.get,
    HepVector.set, bind, Except.bind, pure, Except.pure, hp, hp0, h0, h1, if_true, ne_eq,
    not_true_eq_false, if_false]

/-- The hit error of the PullBased fill is defined for a hit that can be processed. -/
theorem hitErrWithAPE_ok (env : Collaborators) (hit : TransientTrackingRecHit)
    (h : FillableHit env hit) : ∃ H, hitErrWithAPE env.parError hit = .ok H := by
  obtain ⟨-, -, hape⟩ := h
  cases hd : hit.det with
  | none => exact ⟨_, by simp only [hitErrWithAPE, hd]; rfl⟩
  | some det =>
    cases ha : det.alignmentPositionError with
    | none => exact ⟨_, by simp only [hitErrWithAPE, hd, ha]; rfl⟩
    | some ape =>
      have h2 := hape det hd (by simp [ha])
      have h0 : 0 < (env.parError hit.localPositionError det).nrow := by omega
      have h1 : 1 < (env.parError hit.localPositionError det).nrow := by omega
      refine ⟨⟨(env.parError hit.localPositionError det).entry 0 0,
        (env.parError hit.localPositionError det).entry 0 1,
        (env.parError hit.localPositionError det).entry 1 1⟩, ?_⟩
      simp only [hitErrWithAPE, hd, ha, HepSymMatrix.get, bind, Except.bind, pure,
        Except.pure, h0, h1, and_self, if_true]

/-- One pass of the fill loop returns (it neither throws nor leaves the containers) when the
hits can be processed and the slots `iNextHit, ...` lie inside the containers; it leaves
the assembled members alone. -/
theorem fillKalmanLoop_returns (env : Collaborators)
    (trajMeasurements : List TrajectoryMeasurement) (residualMethod : Int) :
    ∀ (recHitNums : List Nat) (iNextHit : Nat) (s : DualKalmanTrajectory),
      FillableList env trajMeasurements recHitNums →
      2 * (iNextHit + recHitNums.length) ≤ 4294967296 →
      2 * (iNextHit + recHitNums.length) ≤ s.theMeasurements.nrow →
      2 * (iNextHit + recHitNums.length) ≤ s.theMeasurementsCov.nrow →
      2 * (iNextHit + recHitNums.length) ≤ s.theTrajectoryPositions.nrow →
      ∃ ok s', fillKalmanLoop env trajMeasurements residualMethod recHitNums iNextHit s
          = .ok (ok, s') ∧ SameAssembly s s' := by
  intro recHitNums
  induction recHitNums with
  | nil => intro i s _ _ _ _ _; exact ⟨true, s, rfl, SameAssembly.refl s⟩
  | cons n rest ih =>
    intro i s hfill h32 hm hc hp
    obtain ⟨tm, htm, hproj1, hproj2, hape⟩ := hfill n (List.mem_cons_self n rest)
    have hrest : FillableList env trajMeasurements rest :=
      fun k hk => hfill k (List.mem_cons_of_mem n hk)
    simp only [List.length_cons] at h32 hm hc hp
    simp only [fillKalmanLoop, htm]
    by_cases h1 : residualMethod = 1
    · -- Unbiased
      simp only [h1, ↓reduceIte]
      split_ifs with hinv
      · exact ⟨false, s, rfl, SameAssembly.refl s⟩
      · simp only [fillMeasurementAndError1, bind, Except.bind, pure, Except.pure]
        rw [writeMeasurementAndError_eq _ _ i _ (by omega) (by simpa using by omega)
          (by simpa using by omega)]
        exact ⟨false, _, rfl, writtenState_sameAssembly _ _ i _⟩
    · -- PullBased
      simp only [h1, ↓reduceIte]
      split_ifs with hinv
      · exact ⟨false, s, rfl, SameAssembly.refl s⟩
      · obtain ⟨H, hH⟩ := hitErrWithAPE_ok env tm.recHit ⟨hproj1, hproj2, hape⟩
        simp only [fillMeasurementAndError2, hH, bind, Except.bind, pure, Except.pure]
        split_ifs with hcmp
        · exact ⟨false, _, rfl, ⟨rfl, rfl, rfl, rfl, rfl, rfl, rfl⟩⟩
        · rw [writeMeasurementAndError_eq _ _ i _ (by omega) (by simpa using by omega)
            (by simpa using by omega)]
          simp only [Bool.not_true, Bool.false_eq_true, ↓reduceIte]
          rw [fillTrajectoryPositions_eq _ _ i _ hproj1 hproj2 (by omega)
            (by simpa [writtenState] using by omega)]
          have e1 : u32 (i + 1) = i + 1 := u32_of_lt (by omega)
          rw [e1]
          suffices hgen : ∀ S : DualKalmanTrajectory, SameAssembly s S →
              ∃ ok s', fillKalmanLoop env trajMeasurements residualMethod rest (i + 1) S
                = .ok (ok, s') ∧ SameAssembly s s' from
            hgen _ ⟨rfl, rfl, rfl, rfl, rfl, rfl, rfl⟩
          intro S hS
          obtain ⟨ok, s', hrun, hsame⟩ := ih (i + 1) S hrest (by omega)
            (by rw [hS.2.2.2.2.1]; omega) (by rw [hS.2.2.2.2.2.1]; omega)
            (by rw [hS.2.2.2.2.2.2]; omega)
          exact ⟨ok, s', hrun, SameAssembly.trans hS hsame⟩

/-- The combination step succeeds on consistent single-direction results and containers of
the matching size, and gives the hit list, the derivative blocks and the position
covariance described in the statement. -/
theorem combineTrajectories_ok (fwdTraj bwdTraj : ReferenceTrajectory)
    (refTsos : TrajectoryStateOnSurface) (s : DualKalmanTrajectory) (nf nb : Nat)
    (hfc : ConsistentFor fwdTraj nf) (hbc : ConsistentFor bwdTraj nb) (hnb : 1 ≤ nb)
    (hsmall : 2 * (nf + nb) < 2147483648) (hs : SizedFor s 5 (nf + nb - 1)) :
    ∃ s1, combineTrajectories fwdTraj bwdTraj refTsos s = .ok s1 ∧
      s1.theRecHits = fwdTraj.recHits ++ bwdTraj.recHits.tail ∧
      s1.theParameters = extractParameters refTsos ∧
      s1.theDerivatives.nrow = 2 * (nf + nb - 1) ∧ s1.theDerivatives.ncol = 5 ∧
      (∀ i j, i < 2 * nf → j < 5 →
        s1.theDerivatives.elem i j = fwdTraj.derivatives.elem i j) ∧
      (∀ k j, k < 2 * (nb - 1) → j < 5 →
        s1.theDerivatives.elem (2 * nf + k) j = bwdTraj.derivatives.elem (2 + k) j) ∧
      (refTsos.hasError = true →
        (asHepMatrix5 refTsos.localErrorMatrix).similarity s1.theDerivatives =
          .ok s1.theTrajectoryPositionCov) ∧
      (refTsos.hasError = false →
        s1.theTrajectoryPositionCov = HepSymMatrix.ofInit s1.theDerivatives.nrow 1) ∧
      s1.theMeasurements = s.theMeasurements ∧
      s1.theMeasurementsCov = s.theMeasurementsCov ∧
      s1.theTrajectoryPositions = s.theTrajectoryPositions := by
  obtain ⟨hf1, hf2, hf3, hf4⟩ := hfc
  obtain ⟨hb1, hb2, hb3, hb4⟩ := hbc
  obtain ⟨hs1, hs2, hs3, hs4, hs5, hs6⟩ := hs
  obtain ⟨b0, bwdTail, hbl⟩ : ∃ b0 bwdTail, bwdTraj.recHits = b0 :: bwdTail := by
    cases hl : bwdTraj.recHits with
    | nil => rw [hl] at hb1; simp at hb1; omega
    | cons b0 t => exact ⟨b0, t, rfl⟩
  have hA : toInt (u32 (nMeasPerHit + 1)) = 3 := by
    simp [nMeasPerHit, u32, toInt]
  have hB : toInt (u32 (nMeasPerHit * bwdTraj.numberOfHits)) = ((2 * nb : Nat) : Int) := by
    rw [hb2, nMeasPerHit, u32_of_lt (by omega), toInt_of_lt (by omega)]
  have hC : toInt (extractParameters refTsos).nrow = 5 := by
    simp [extractParameters, asHepVector5, toInt]
  have hD : toInt (u32 (u32 (nMeasPerHit * fwdTraj.numberOfHits) + 1))
      = ((2 * nf + 1 : Nat) : Int) := by
    have e : u32 (nMeasPerHit * fwdTraj.numberOfHits) = 2 * nf := by
      rw [hf2, nMeasPerHit]; exact u32_of_lt (by omega)
    rw [e, u32_of_lt (by omega), toInt_of_lt (by omega)]
  have c1 : ¬ ((1 : Int) < 1 ∨ (1 : Int) + fwdTraj.derivatives.nrow - 1 > s.theDerivatives.nrow ∨
      (1 : Int) < 1 ∨ (1 : Int) + fwdTraj.derivatives.ncol - 1 > s.theDerivatives.ncol) := by
    rw [hf3, hf4, hs5, hs6]; omega
  have c2 : ¬ (((2 * nb : Nat) : Int) - 3 + 1 < 0 ∨ (5 : Int) - 1 + 1 < 0) := by omega
  have c3 : ¬ (((2 * nb : Nat) : Int) > bwdTraj.derivatives.nrow ∨
      (5 : Int) > bwdTraj.derivatives.ncol) := by
    rw [hb3, hb4]; omega
  have c4 : ¬ ((3 : Int) < 1 ∨ (1 : Int) < 1) := by omega
  have t1 : (((2 * nb : Nat) : Int) - 3 + 1).toNat = 2 * nb - 2 := by omega
  have t2 : ((5 : Int) - 1 + 1).toNat = 5 := by omega
  have t3 : ((3 : Int) - 1).toNat = 2 := by omega
  have t4 : ((1 : Int) - 1).toNat = 0 := by omega
  have t5 : (((2 * nf + 1 : Nat) : Int) - 1).toNat = 2 * nf := by omega
  have c5 : ¬ (((2 * nf + 1 : Nat) : Int) < 1 ∨
      ((2 * nf + 1 : Nat) : Int) + ((2 * nb - 2 : Nat) : Int) - 1 > s.theDerivatives.nrow ∨
      (1 : Int) < 1 ∨ (1 : Int) + ((5 : Nat) : Int) - 1 > s.theDerivatives.ncol) := by
    rw [hs5, hs6]; omega
  simp only [combineTrajectories, hbl, hA, hB, hC, hD, HepMatrix.sub, HepMatrix.subBlock, c1, c2,
    c3, c4, c5, t1, t2, t3, t4, t5, if_false, bind, Except.bind, pure, Except.pure]
  have h5 : (asHepMatrix5 refTsos.localErrorMatrix).nrow = 5 := rfl
  have hfwdEntry : ∀ i j : Nat, i < 2 * nf → j < 5 →
      (if 2 * nf ≤ i ∧ i < 2 * nf + (2 * nb - 2) ∧ 0 ≤ j ∧ j < 0 + 5 then
        bwdTraj.derivatives.elem (2 + (i - 2 * nf)) (0 + (j - 0))
      else if 0 ≤ i ∧ i < 0 + fwdTraj.derivatives.nrow ∧ 0 ≤ j ∧
          j < 0 + fwdTraj.derivatives.ncol then
        fwdTraj.derivatives.elem (i - 0) (j - 0)
      else s.theDerivatives.elem i j) = fwdTraj.derivatives.elem i j := by
    intro i j hi hj
    rw [if_neg (by omega), if_pos (by rw [hf3, hf4]; omega)]
    simp
  have hbwdEntry : ∀ k j : Nat, k < 2 * (nb - 1) → j < 5 →
      (if 2 * nf ≤ 2 * nf + k ∧ 2 * nf + k < 2 * nf + (2 * nb - 2) ∧ 0 ≤ j ∧ j < 0 + 5 then
        bwdTraj.derivatives.elem (2 + (2 * nf + k - 2 * nf)) (0 + (j - 0))
      else if 0 ≤ 2 * nf + k ∧ 2 * nf + k < 0 + fwdTraj.derivatives.nrow ∧ 0 ≤ j ∧
          j < 0 + fwdTraj.derivatives.ncol then
        fwdTraj.derivatives.elem (2 * nf + k - 0) (j - 0)
      else s.theDerivatives.elem (2 * nf + k) j) = bwdTraj.derivatives.elem (2 + k) j := by
    intro k j hk hj
    rw [if_pos (by omega)]
    simp
  cases hE : refTsos.hasError with
  | true =>
    simp only [HepSymMatrix.similarity, hs6, h5, ne_eq, not_true_eq_false, if_false, if_true]
    exact ⟨_, rfl, by simp [hs1], rfl, hs5, rfl, hfwdEntry, hbwdEntry,
      fun _ => rfl, fun h => by simp at h, rfl, rfl, rfl⟩
  | false =>
    rw [if_neg (by simp)]
    exact ⟨_, rfl, by simp [hs1], rfl, hs5, hs6, hfwdEntry, hbwdEntry,
      fun h => by simp at h, fun _ => rfl, rfl, rfl, rfl⟩

/-- With a recognized selector `fillKalmanPart` is its loop. -/
theorem fillKalmanPart_eq_loop (env : Collaborators)
    (trajMeasurements : List TrajectoryMeasurement) (recHitNums : List Nat) (startFirst : Bool)
    (iNextHit : Nat) (residualMethod : Int) (s : DualKalmanTrajectory)
    (hm : residualMethod = 1 ∨ residualMethod = 2) :
    fillKalmanPart env trajMeasurements recHitNums startFirst iNextHit residualMethod s =
      fillKalmanLoop env trajMeasurements residualMethod
        (recHitNums.drop (if startFirst then 0 else 1)) iNextHit s := by
  have : ¬ (residualMethod ≠ 1 ∧ residualMethod ≠ 2) := by
    rcases hm with h | h <;> simp [h]
  simp only [fillKalmanPart, this, if_false]

/-- With an unrecognized selector `fillKalmanPart` throws at once. -/
theorem fillKalmanPart_badConfig (env : Collaborators)
    (trajMeasurements : List TrajectoryMeasurement) (recHitNums : List Nat) (startFirst : Bool)
    (iNextHit : Nat) (residualMethod : Int) (s : DualKalmanTrajectory)
    (hm : residualMethod ≠ 1 ∧ residualMethod ≠ 2) :
    fillKalmanPart env trajMeasurements recHitNums startFirst iNextHit residualMethod s =
      .error (.badConfig residualMethod) := by
  unfold fillKalmanPart
  rw [if_pos hm]

/-- Under `WellFormedRun`, for valid single-direction results and a recognized selector,
`construct` returns: the combination step succeeds with a state `s1`, and the two fill
passes leave the assembled members of `s1` alone. -/
theorem construct_returns (env : Collaborators) (trajMeasurements : List TrajectoryMeasurement)
    (refTsos : TrajectoryStateOnSurface) (forwardRecHitNums backwardRecHitNums : List Nat)
    (mass : ℚ) (materialEffects : MaterialEffects) (propDir : PropagationDirection)
    (magField : Nat) (residualMethod : Int) (s : DualKalmanTrajectory)
    (fwdTraj bwdTraj : ReferenceTrajectory)
    (hrun : WellFormedRun env trajMeasurements refTsos forwardRecHitNums backwardRecHitNums
      mass materialEffects propDir magField s fwdTraj bwdTraj)
    (hfv : fwdTraj.isValid = true) (hbv : bwdTraj.isValid = true)
    (hm : residualMethod = 1 ∨ residualMethod = 2) :
    ∃ s1 ok s', combineTrajectories fwdTraj bwdTraj refTsos s = .ok s1 ∧
      construct env trajMeasurements refTsos forwardRecHitNums backwardRecHitNums mass
        materialEffects propDir magField residualMethod s = .ok (ok, s') ∧
      SameAssembly s1 s' := by
  obtain ⟨hf, hb, hfc, hbc, hnb, hsmall, hs, hff, hfb⟩ := hrun
  obtain ⟨s1, hcomb, -, -, -, -, -, -, -, -, hm1, hm2, hm3⟩ :=
    combineTrajectories_ok fwdTraj bwdTraj refTsos s _ _ hfc hbc hnb hsmall hs
  obtain ⟨-, hs2, hs3, hs4, -, -⟩ := hs
  refine ⟨s1, ?_⟩
  simp only [construct, hf, hb, hfv, hbv, hcomb, bind, Except.bind, pure, Except.pure,
    Bool.not_true, Bool.or_self, Bool.false_eq_true, if_false]
  rw [fillKalmanPart_eq_loop _ _ _ _ _ _ _ hm]
  obtain ⟨ok1, s5, hrun1, hsame1⟩ := fillKalmanLoop_returns env trajMeasurements residualMethod
    forwardRecHitNums 0 s1 hff (by omega) (by rw [hm1, hs2]; omega) (by rw [hm2, hs3]; omega)
    (by rw [hm3, hs4]; omega)
  simp only [if_true, List.drop_zero, hrun1]
  cases ok1 with
  | false => exact ⟨false, s5, ⟨trivial, rfl, hsame1⟩⟩
  | true =>
    simp only [Bool.not_true, Bool.false_eq_true, if_false]
    rw [fillKalmanPart_eq_loop _ _ _ _ _ _ _ hm, u32_of_lt (by omega)]
    have hdrop : FillableList env trajMeasurements (backwardRecHitNums.drop 1) :=
      fun n hn => hfb n (List.mem_of_mem_drop hn)
    have hlen : (backwardRecHitNums.drop 1).length = backwardRecHitNums.length - 1 := by simp
    obtain ⟨ok2, s6, hrun2, hsame2⟩ := fillKalmanLoop_returns env trajMeasurements
      residualMethod (backwardRecHitNums.drop 1) forwardRecHitNums.length s5 hdrop
      (by rw [hlen]; omega) (by rw [hlen, hsame1.2.2.2.2.1, hm1, hs2]; omega)
      (by rw [hlen, hsame1.2.2.2.2.2.1, hm2, hs3]; omega)
      (by rw [hlen, hsame1.2.2.2.2.2.2, hm3, hs4]; omega)
    simp only [Bool.false_eq_true, if_false] at hrun2 ⊢
    exact ⟨ok2, s6, ⟨trivial, hrun2, SameAssembly.trans hsame1 hsame2⟩⟩

/-- The example run satisfies `WellFormedRun`, whatever the validity flags of the fit. -/
theorem example_wellFormedRun (fwdValid bwdValid : Bool) (scale : ℚ) :
    WellFormedRun (exampleEnv fwdValid bwdValid scale) exampleMeasurements (exampleTsos true 1)
      exampleForward exampleBackward 1 .none .alongMomentum 0 exampleState
      (exampleFwdTraj fwdValid bwdValid scale) (exampleBwdTraj fwdValid bwdValid scale) := by
  refine ⟨rfl, rfl, ⟨rfl, rfl, rfl, rfl⟩, ⟨rfl, rfl, rfl, rfl⟩, by decide, by decide, by decide,
    ?_, ?_⟩
  · intro n hn
    simp only [exampleForward, List.mem_cons, List.mem_singleton, List.not_mem_nil,
      or_false] at hn
    rcases hn with rfl | rfl | rfl <;>
      exact ⟨_, rfl, rfl, by decide, fun det hd => by cases hd⟩
  · intro n hn
    simp only [exampleBackward, List.mem_cons, List.mem_singleton, List.not_mem_nil,
      or_false] at hn
    rcases hn with rfl | rfl | rfl <;>
      exact ⟨_, rfl, rfl, by decide, fun det hd => by cases hd⟩

/-- The example run with a reference state without covariance satisfies `WellFormedRun`. -/
theorem example_wellFormedRun_noError (scale : ℚ) :
    WellFormedRun (exampleEnv true true scale) exampleMeasurements exampleTsosNoError
      exampleForward exampleBackward 1 .none .alongMomentum 0 exampleState
      (exampleFwdTraj true true scale) (exampleBwdTraj true true scale) := by
  obtain ⟨-, -, h3, h4, h5, h6, h7, h8, h9⟩ := example_wellFormedRun true true scale
  exact ⟨rfl, rfl, h3, h4, h5, h6, h7, h8, h9⟩

/-- C1: for valid single-direction results with a non-empty backward hit list (in a
well-formed run with a recognized selector), `construct` returns with the combined hit list
equal to the forward hits followed by the backward hits without the first one; its length
is `len(forward) + len(backward) - 1`. -/
theorem construct_recHits (env : Collaborators) (trajMeasurements : List TrajectoryMeasurement)
    (refTsos : TrajectoryStateOnSurface) (forwardRecHitNums backwardRecHitNums : List Nat)
    (mass : ℚ) (materialEffects : MaterialEffects) (propDir : PropagationDirection)
    (magField : Nat) (residualMethod : Int) (s : DualKalmanTrajectory)
    (fwdTraj bwdTraj : ReferenceTrajectory)
    (hrun : WellFormedRun env trajMeasurements refTsos forwardRecHitNums backwardRecHitNums
      mass materialEffects propDir magField s fwdTraj bwdTraj)
    (hfv : fwdTraj.isValid = true) (hbv : bwdTraj.isValid = true)
    (hm : residualMethod = 1 ∨ residualMethod = 2) :
    bwdTraj.recHits ≠ [] ∧
    ∃ ok s', construct env trajMeasurements refTsos forwardRecHitNums backwardRecHitNums mass
        materialEffects propDir magField residualMethod s = .ok (ok, s') ∧
      s'.theRecHits = fwdTraj.recHits ++ bwdTraj.recHits.tail ∧
      s'.theRecHits.length = fwdTraj.recHits.length + bwdTraj.recHits.length - 1 := by
  obtain ⟨s1, ok, s', hcomb, hcons, hsame⟩ := construct_returns env trajMeasurements refTsos
    forwardRecHitNums backwardRecHitNums mass materialEffects propDir magField residualMethod s
    fwdTraj bwdTraj hrun hfv hbv hm
  obtain ⟨-, -, hfc, hbc, hnb, hsmall, hs, -, -⟩ := hrun
  obtain ⟨s1', hcomb', hhits, -⟩ :=
    combineTrajectories_ok fwdTraj bwdTraj refTsos s _ _ hfc hbc hnb hsmall hs
  rw [hcomb] at hcomb'
  cases hcomb'
  have hne : bwdTraj.recHits ≠ [] := by
    intro h
    have := hbc.1
    rw [h] at this
    simp at this
    omega
  refine ⟨hne, ok, s', hcons, ?_, ?_⟩
  · rw [hsame.1, hhits]
  · rw [hsame.1, hhits, List.length_append, List.length_tail]
    have : 1 ≤ bwdTraj.recHits.length := by rw [hbc.1]; exact hnb
    omega

theorem construct_recHits_witness :
    ∃ ok s', construct (exampleEnv true true 1) exampleMeasurements (exampleTsos true 1)
        exampleForward exampleBackward 1 .none .alongMomentum 0 2 exampleState = .ok (ok, s') ∧
      s'.theRecHits = [exampleHit 0, exampleHit 1, exampleHit 2, exampleHit 3, exampleHit 4] ∧
      s'.theRecHits.length = 3 + 3 - 1 :=
  (construct_recHits (exampleEnv true true 1) exampleMeasurements (exampleTsos true 1)
    exampleForward exampleBackward 1 .none .alongMomentum 0 2 exampleState
    (exampleFwdTraj true true 1) (exampleBwdTraj true true 1)
    (example_wellFormedRun true true 1) rfl rfl (Or.inr rfl)).2

/-- C5: when the forward or the backward single-direction result is invalid, `construct`
returns `false` and the state it was called on: hit list, parameters, derivatives,
measurements, their covariance, trajectory positions and their covariance are unchanged.
This holds for every selector. -/
theorem construct_invalid_subResult (env : Collaborators)
    (trajMeasurements : List TrajectoryMeasurement)
    (refTsos : TrajectoryStateOnSurface) (forwardRecHitNums backwardRecHitNums : List Nat)
    (mass : ℚ) (materialEffects : MaterialEffects) (propDir : PropagationDirection)
    (magField : Nat) (residualMethod : Int) (s : DualKalmanTrajectory)
    (fwdTraj bwdTraj : ReferenceTrajectory)
    (hf : constructOneDirection env trajMeasurements refTsos forwardRecHitNums mass
      materialEffects propDir magField = .ok fwdTraj)
    (hb : constructOneDirection env trajMeasurements refTsos backwardRecHitNums mass
      materialEffects (oppositeDirection propDir) magField = .ok bwdTraj)
    (hinv : fwdTraj.isValid = false ∨ bwdTraj.isValid = false) :
    construct env trajMeasurements refTsos forwardRecHitNums backwardRecHitNums mass
      materialEffects propDir magField residualMethod s = .ok (false, s) := by
  have hcond : (!fwdTraj.isValid || !bwdTraj.isValid) = true := by
    rcases hinv with h | h <;> simp [h]
  simp only [construct, hf, hb, bind, Except.bind, pure, Except.pure, hcond, if_true]

theorem construct_invalid_subResult_witness :
    construct (exampleEnv true false 1) exampleMeasurements (exampleTsos true 1)
      exampleForward exampleBackward 1 .none .alongMomentum 0 2 exampleState =
        .ok (false, exampleState) :=
  construct_invalid_subResult (exampleEnv true false 1) exampleMeasurements (exampleTsos true 1)
    exampleForward exampleBackward 1 .none .alongMomentum 0 2 exampleState
    (exampleFwdTraj true false 1) (exampleBwdTraj true false 1) rfl rfl (Or.inr rfl)

/-- C6: in a well-formed run with valid single-direction results (`nf` forward and `nb ≥ 1`
backward hit numbers, two derivative rows per hit, five columns) `construct` returns with a
derivative matrix of `2*(nf+nb-1)` rows and five columns whose rows `0 .. 2*nf-1` are the
rows of the forward matrix and whose row `2*nf + k` is the row `2 + k` of the backward
matrix for `k < 2*(nb-1)`; every row belongs to exactly one of the two blocks. -/
theorem construct_derivatives (env : Collaborators)
    (trajMeasurements : List TrajectoryMeasurement)
    (refTsos : TrajectoryStateOnSurface) (forwardRecHitNums backwardRecHitNums : List Nat)
    (mass : ℚ) (materialEffects : MaterialEffects) (propDir : PropagationDirection)
    (magField : Nat) (residualMethod : Int) (s : DualKalmanTrajectory)
    (fwdTraj bwdTraj : ReferenceTrajectory)
    (hrun : WellFormedRun env trajMeasurements refTsos forwardRecHitNums backwardRecHitNums
      mass materialEffects propDir magField s fwdTraj bwdTraj)
    (hfv : fwdTraj.isValid = true) (hbv : bwdTraj.isValid = true)
    (hm : residualMethod = 1 ∨ residualMethod = 2) :
    ∃ ok s', construct env trajMeasurements refTsos forwardRecHitNums backwardRecHitNums mass
        materialEffects propDir magField residualMethod s = .ok (ok, s') ∧
      s'.theDerivatives.nrow =
        2 * (forwardRecHitNums.length + backwardRecHitNums.length - 1) ∧
      s'.theDerivatives.ncol = 5 ∧
      (∀ i j, i < 2 * forwardRecHitNums.length → j < 5 →
        s'.theDerivatives.elem i j = fwdTraj.derivatives.elem i j) ∧
      (∀ k j, k < 2 * (backwardRecHitNums.length - 1) → j < 5 →
        s'.theDerivatives.elem (2 * forwardRecHitNums.length + k) j =
          bwdTraj.derivatives.elem (2 + k) j) ∧
      (∀ i, i < s'.theDerivatives.nrow →
        (i < 2 * forwardRecHitNums.length ↔
          ¬ ∃ k, k < 2 * (backwardRecHitNums.length - 1) ∧
            i = 2 * forwardRecHitNums.length + k)) := by
  obtain ⟨s1, ok, s', hcomb, hcons, hsame⟩ := construct_returns env trajMeasurements refTsos
    forwardRecHitNums backwardRecHitNums mass materialEffects propDir magField residualMethod s
    fwdTraj bwdTraj hrun hfv hbv hm
  obtain ⟨-, -, hfc, hbc, hnb, hsmall, hs, -, -⟩ := hrun
  obtain ⟨s1', hcomb', -, -, hrow, hcol, hfwd, hbwd, -⟩ :=
    combineTrajectories_ok fwdTraj bwdTraj refTsos s _ _ hfc hbc hnb hsmall hs
  rw [hcomb] at hcomb'
  cases hcomb'
  have hD : s'.theDerivatives = s1.theDerivatives := hsame.2.2.1
  refine ⟨ok, s', hcons, by rw [hD, hrow], by rw [hD, hcol], by rw [hD]; exact hfwd,
    by rw [hD]; exact hbwd, ?_⟩
  intro i hi
  rw [hD, hrow] at hi
  constructor
  · rintro h ⟨k, -, hk⟩
    omega
  · intro h
    by_contra hge
    exact h ⟨i - 2 * forwardRecHitNums.length, by omega, by omega⟩

theorem construct_derivatives_witness :
    ∃ ok s', construct (exampleEnv true true 1) exampleMeasurements (exampleTsos true 1)
        exampleForward exampleBackward 1 .none .alongMomentum 0 2 exampleState = .ok (ok, s') ∧
      s'.theDerivatives.nrow = 2 * (3 + 3 - 1) ∧
      s'.theDerivatives.ncol = 5 ∧
      (∀ i j, i < 2 * 3 → j < 5 →
        s'.theDerivatives.elem i j = (exampleFwdTraj true true 1).derivatives.elem i j) ∧
      (∀ k j, k < 2 * (3 - 1) → j < 5 →
        s'.theDerivatives.elem (2 * 3 + k) j =
          (exampleBwdTraj true true 1).derivatives.elem (2 + k) j) ∧
      (∀ i, i < s'.theDerivatives.nrow →
        (i < 2 * 3 ↔ ¬ ∃ k, k < 2 * (3 - 1) ∧ i = 2 * 3 + k)) :=
  construct_derivatives (exampleEnv true true 1) exampleMeasurements (exampleTsos true 1)
    exampleForward exampleBackward 1 .none .alongMomentum 0 2 exampleState
    (exampleFwdTraj true true 1) (exampleBwdTraj true true 1)
    (example_wellFormedRun true true 1) rfl rfl (Or.inr rfl)

/-- C8: for a reference state without covariance, two well-formed runs on the same hit
numbers whose single-direction results are valid but may differ in their derivative
matrices both return, with the same trajectory-position covariance: the unit matrix of
dimension `rows(D) = 2*(nf+nb-1)`. -/
theorem construct_positionCov_noError (env env' : Collaborators)
    (trajMeasurements : List TrajectoryMeasurement)
    (refTsos : TrajectoryStateOnSurface) (forwardRecHitNums backwardRecHitNums : List Nat)
    (mass : ℚ) (materialEffects : MaterialEffects) (propDir : PropagationDirection)
    (magField : Nat) (residualMethod : Int) (s : DualKalmanTrajectory)
    (fwdTraj bwdTraj fwdTraj' bwdTraj' : ReferenceTrajectory)
    (hrun : WellFormedRun env trajMeasurements refTsos forwardRecHitNums backwardRecHitNums
      mass materialEffects propDir magField s fwdTraj bwdTraj)
    (hrun' : WellFormedRun env' trajMeasurements refTsos forwardRecHitNums backwardRecHitNums
      mass materialEffects propDir magField s fwdTraj' bwdTraj')
    (hfv : fwdTraj.isValid = true) (hbv : bwdTraj.isValid = true)
    (hfv' : fwdTraj'.isValid = true) (hbv' : bwdTraj'.isValid = true)
    (hm : residualMethod = 1 ∨ residualMethod = 2)
    (hne : refTsos.hasError = false) :
    ∃ ok s1 ok' s2,
      construct env trajMeasurements refTsos forwardRecHitNums backwardRecHitNums mass
        materialEffects propDir magField residualMethod s = .ok (ok, s1) ∧
      construct env' trajMeasurements refTsos forwardRecHitNums backwardRecHitNums mass
        materialEffects propDir magField residualMethod s = .ok (ok', s2) ∧
      s1.theTrajectoryPositionCov = s2.theTrajectoryPositionCov ∧
      s1.theTrajectoryPositionCov.nrow = s1.theDerivatives.nrow ∧
      s1.theDerivatives.nrow =
        2 * (forwardRecHitNums.length + backwardRecHitNums.length - 1) ∧
      (∀ i j, s1.theTrajectoryPositionCov.entry i j = if i = j then 1 else 0) := by
  obtain ⟨a1, ok, s1, hcomb, hcons, hsame⟩ := construct_returns env trajMeasurements refTsos
    forwardRecHitNums backwardRecHitNums mass materialEffects propDir magField residualMethod s
    fwdTraj bwdTraj hrun hfv hbv hm
  obtain ⟨a2, ok', s2, hcomb2, hcons2, hsame2⟩ := construct_returns env' trajMeasurements
    refTsos forwardRecHitNums backwardRecHitNums mass materialEffects propDir magField
    residualMethod s fwdTraj' bwdTraj' hrun' hfv' hbv' hm
  obtain ⟨-, -, hfc, hbc, hnb, hsmall, hs, -, -⟩ := hrun
  obtain ⟨-, -, hfc', hbc', -, -, -, -, -⟩ := hrun'
  obtain ⟨b1, hb1, -, -, hrow, -, -, -, -, hid, -⟩ :=
    combineTrajectories_ok fwdTraj bwdTraj refTsos s _ _ hfc hbc hnb hsmall hs
  obtain ⟨b2, hb2, -, -, hrow2, -, -, -, -, hid2, -⟩ :=
    combineTrajectories_ok fwdTraj' bwdTraj' refTsos s _ _ hfc' hbc' hnb hsmall hs
  rw [hcomb] at hb1
  rw [hcomb2] at hb2
  cases hb1
  cases hb2
  have hc1 : s1.theTrajectoryPositionCov = HepSymMatrix.ofInit
      (2 * (forwardRecHitNums.length + backwardRecHitNums.length - 1)) 1 := by
    rw [hsame.2.2.2.1, hid hne, hrow]
  have hc2 : s2.theTrajectoryPositionCov = HepSymMatrix.ofInit
      (2 * (forwardRecHitNums.length + backwardRecHitNums.length - 1)) 1 := by
    rw [hsame2.2.2.2.1, hid2 hne, hrow2]
  refine ⟨ok, s1, ok', s2, hcons, hcons2, by rw [hc1, hc2], ?_, by rw [hsame.2.2.1, hrow], ?_⟩
  · rw [hc1, hsame.2.2.1, hrow]; rfl
  · intro i j
    rw [hc1]
    simp only [HepSymMatrix.entry, HepSymMatrix.ofInit, true_and]
    split_ifs <;> first | rfl | omega

theorem construct_positionCov_noError_witness :
    ∃ ok s1 ok' s2,
      construct (exampleEnv true true 1) exampleMeasurements exampleTsosNoError
        exampleForward exampleBackward 1 .none .alongMomentum 0 2 exampleState = .ok (ok, s1) ∧
      construct (exampleEnv true true 7) exampleMeasurements exampleTsosNoError
        exampleForward exampleBackward 1 .none .alongMomentum 0 2 exampleState = .ok (ok', s2) ∧
      s1.theTrajectoryPositionCov = s2.theTrajectoryPositionCov ∧
      s1.theTrajectoryPositionCov.nrow = s1.theDerivatives.nrow ∧
      s1.theDerivatives.nrow = 2 * (3 + 3 - 1) ∧
      (∀ i j, s1.theTrajectoryPositionCov.entry i j = if i = j then 1 else 0) :=
  construct_positionCov_noError (exampleEnv true true 1) (exampleEnv true true 7)
    exampleMeasurements exampleTsosNoError exampleForward exampleBackward 1 .none
    .alongMomentum 0 2 exampleState
    (exampleFwdTraj true true 1) (exampleBwdTraj true true 1)
    (exampleFwdTraj true true 7) (exampleBwdTraj true true 7)
    (example_wellFormedRun_noError 1) (example_wellFormedRun_noError 7) rfl rfl rfl rfl
    (Or.inr rfl) rfl

/-- The entries of a CLHEP symmetric matrix are symmetric. -/
theorem HepSymMatrix.entry_comm (a : HepSymMatrix) (r c : Nat) : a.entry r c = a.entry c r := by
  unfold HepSymMatrix.entry
  by_cases h1 : c ≤ r <;> by_cases h2 : r ≤ c
  · have : r = c := le_antisymm h2 h1
    subst this; rfl
  · rw [if_pos h1, if_neg h2]
  · rw [if_neg h1, if_pos h2]
  · omega

/-- The CLHEP similarity transform is the matrix product `m1 * a * m1ᵀ`. -/
theorem HepSymMatrix.similarity_toMatrix (a r : HepSymMatrix) (m1 : HepMatrix) (q : Nat)
    (ha : a.nrow = q) (hm : m1.ncol = q) (h : a.similarity m1 = .ok r) (p : Nat) :
    r.nrow = m1.nrow ∧
    r.toMatrix p = m1.toMatrix p q * a.toMatrix q * (m1.toMatrix p q).transpose := by
  have hcond : ¬ (m1.ncol ≠ a.nrow) := by rw [ha, hm]; simp
  simp only [HepSymMatrix.similarity, hcond, if_false, Except.ok.injEq] at h
  subst h
  refine ⟨rfl, ?_⟩
  ext i j
  have hprod : ∀ x y : Fin p,
      (m1.toMatrix p q * a.toMatrix q * (m1.toMatrix p q).transpose) x y =
        ∑ k in Finset.range q,
          (∑ l in Finset.range q, m1.elem x l * a.entry l k) * m1.elem y k := by
    intro x y
    simp only [Matrix.mul_apply, Matrix.transpose_apply, HepMatrix.toMatrix,
      HepSymMatrix.toMatrix]
    rw [Finset.sum_range (fun k => (∑ l in Finset.range q, m1.elem x l * a.entry l k) *
      m1.elem y k)]
    refine Finset.sum_congr rfl (fun k _ => ?_)
    rw [Finset.sum_range (fun l => m1.elem x l * a.entry l k)]
  rw [hprod]
  by_cases hle : (j : Nat) ≤ i
  · exact (if_pos hle).trans (by rw [ha, hm])
  · refine (if_neg hle).trans ?_
    rw [ha, hm]
    simp only [Finset.sum_mul]
    rw [Finset.sum_comm]
    refine Finset.sum_congr rfl (fun k _ => ?_)
    refine Finset.sum_congr rfl (fun l _ => ?_)
    rw [a.entry_comm k l]
    ring

/-- C7: for a reference state with a (symmetric) covariance `C`, a well-formed run with valid
single-direction results returns with the trajectory-position covariance `D * C * Dᵀ`, where
`D` is the combined derivative matrix (forward block, then the backward block without its
first two rows); the result is a symmetric square matrix of dimension `rows(D)`. -/
theorem construct_positionCov_similarity (env : Collaborators)
    (trajMeasurements : List TrajectoryMeasurement)
    (refTsos : TrajectoryStateOnSurface) (forwardRecHitNums backwardRecHitNums : List Nat)
    (mass : ℚ) (materialEffects : MaterialEffects) (propDir : PropagationDirection)
    (magField : Nat) (residualMethod : Int) (s : DualKalmanTrajectory)
    (fwdTraj bwdTraj : ReferenceTrajectory)
    (hrun : WellFormedRun env trajMeasurements refTsos forwardRecHitNums backwardRecHitNums
      mass materialEffects propDir magField s fwdTraj bwdTraj)
    (hfv : fwdTraj.isValid = true) (hbv : bwdTraj.isValid = true)
    (hm : residualMethod = 1 ∨ residualMethod = 2)
    (he : refTsos.hasError = true)
    (hsym : ∀ i j, refTsos.localErrorMatrix i j = refTsos.localErrorMatrix j i) :
    ∃ ok s', construct env trajMeasurements refTsos forwardRecHitNums backwardRecHitNums mass
        materialEffects propDir magField residualMethod s = .ok (ok, s') ∧
      s'.theTrajectoryPositionCov.nrow = s'.theDerivatives.nrow ∧
      s'.theTrajectoryPositionCov.toMatrix s'.theDerivatives.nrow =
        s'.theDerivatives.toMatrix s'.theDerivatives.nrow 5 *
          Matrix.of refTsos.localErrorMatrix *
          (s'.theDerivatives.toMatrix s'.theDerivatives.nrow 5).transpose ∧
      (s'.theTrajectoryPositionCov.toMatrix s'.theDerivatives.nrow).IsSymm ∧
      (∀ i j, i < 2 * forwardRecHitNums.length → j < 5 →
        s'.theDerivatives.elem i j = fwdTraj.derivatives.elem i j) ∧
      (∀ k j, k < 2 * (backwardRecHitNums.length - 1) → j < 5 →
        s'.theDerivatives.elem (2 * forwardRecHitNums.length + k) j =
          bwdTraj.derivatives.elem (2 + k) j) := by
  obtain ⟨s1, ok, s', hcomb, hcons, hsame⟩ := construct_returns env trajMeasurements refTsos
    forwardRecHitNums backwardRecHitNums mass materialEffects propDir magField residualMethod s
    fwdTraj bwdTraj hrun hfv hbv hm
  obtain ⟨-, -, hfc, hbc, hnb, hsmall, hs, -, -⟩ := hrun
  obtain ⟨s1', hcomb', -, -, hrow, hcol, hfwd, hbwd, hsim, -⟩ :=
    combineTrajectories_ok fwdTraj bwdTraj refTsos s _ _ hfc hbc hnb hsmall hs
  rw [hcomb] at hcomb'
  cases hcomb'
  have hD : s'.theDerivatives = s1.theDerivatives := hsame.2.2.1
  have hC : s'.theTrajectoryPositionCov = s1.theTrajectoryPositionCov := hsame.2.2.2.1
  obtain ⟨hn, hmat⟩ := HepSymMatrix.similarity_toMatrix (asHepMatrix5 refTsos.localErrorMatrix)
    s1.theTrajectoryPositionCov s1.theDerivatives 5 rfl hcol (hsim he) s1.theDerivatives.nrow
  have hCm : (asHepMatrix5 refTsos.localErrorMatrix).toMatrix 5 =
      Matrix.of refTsos.localErrorMatrix := by
    ext i j
    simp only [HepSymMatrix.toMatrix, HepSymMatrix.entry, asHepMatrix5, Matrix.of_apply]
    have hi := i.isLt
    have hj := j.isLt
    split_ifs with h1 h2 h3
    · rfl
    · omega
    · exact hsym j i
    · omega
  rw [hCm] at hmat
  refine ⟨ok, s', hcons, by rw [hC, hD, hn], by rw [hC, hD]; exact hmat, ?_,
    by rw [hD]; exact hfwd, by rw [hD]; exact hbwd⟩
  ext i j
  simp only [Matrix.transpose_apply, HepSymMatrix.toMatrix]
  exact HepSymMatrix.entry_comm _ _ _

theorem construct_positionCov_similarity_witness :
    ∃ ok s', construct (exampleEnv true true 1) exampleMeasurements (exampleTsos true 1)
        exampleForward exampleBackward 1 .none .alongMomentum 0 2 exampleState = .ok (ok, s') ∧
      s'.theTrajectoryPositionCov.nrow = s'.theDerivatives.nrow ∧
      s'.theTrajectoryPositionCov.toMatrix s'.theDerivatives.nrow =
        s'.theDerivatives.toMatrix s'.theDerivatives.nrow 5 *
          Matrix.of (exampleTsos true 1).localErrorMatrix *
          (s'.theDerivatives.toMatrix s'.theDerivatives.nrow 5).transpose :=
  let ⟨ok, s', h1, h2, h3, _⟩ :=
    construct_positionCov_similarity (exampleEnv true true 1) exampleMeasurements
      (exampleTsos true 1) exampleForward exampleBackward 1 .none .alongMomentum 0 2
      exampleState (exampleFwdTraj true true 1) (exampleBwdTraj true true 1)
      (example_wellFormedRun true true 1) rfl rfl (Or.inr rfl) rfl
      (fun i j => by
        simp only [exampleTsos]
        by_cases h : i = j
        · subst h; rfl
        · rw [if_neg h, if_neg (fun h' => h h'.symm)])
  ⟨ok, s', h1, h2, h3⟩

/-- C2, counterexample: with the unrecognized selector `3` and an invalid backward
single-direction result, `construct` raises nothing: it returns `false`. -/
theorem construct_badSelector_counterexample :
    ((3 : Int) ≠ 1 ∧ (3 : Int) ≠ 2) ∧
    (exampleBwdTraj true false 1).isValid = false ∧
    construct (exampleEnv true false 1) exampleMeasurements (exampleTsos true 1)
      exampleForward exampleBackward 1 .none .alongMomentum 0 3 exampleState =
        .ok (false, exampleState) :=
  ⟨by decide, rfl, rfl⟩

/-- C2, amended: when the selector is neither `1` nor `2` and both single-direction results
are valid (in a well-formed run), `construct` raises the configuration error. It is raised
at the entry of the first fill pass, before any per-hit fill, and after the two
single-direction results have been built and combined into the state `s1`. -/
theorem construct_badSelector (env : Collaborators)
    (trajMeasurements : List TrajectoryMeasurement)
    (refTsos : TrajectoryStateOnSurface) (forwardRecHitNums backwardRecHitNums : List Nat)
    (mass : ℚ) (materialEffects : MaterialEffects) (propDir : PropagationDirection)
    (magField : Nat) (residualMethod : Int) (s : DualKalmanTrajectory)
    (fwdTraj bwdTraj : ReferenceTrajectory)
    (hrun : WellFormedRun env trajMeasurements refTsos forwardRecHitNums backwardRecHitNums
      mass materialEffects propDir magField s fwdTraj bwdTraj)
    (hfv : fwdTraj.isValid = true) (hbv : bwdTraj.isValid = true)
    (hm : residualMethod ≠ 1 ∧ residualMethod ≠ 2) :
    construct env trajMeasurements refTsos forwardRecHitNums backwardRecHitNums mass
      materialEffects propDir magField residualMethod s = .error (.badConfig residualMethod) ∧
    ∃ s1, combineTrajectories fwdTraj bwdTraj refTsos s = .ok s1 ∧
      s1.theRecHits = fwdTraj.recHits ++ bwdTraj.recHits.tail ∧
      fillKalmanPart env trajMeasurements forwardRecHitNums true 0 residualMethod s1 =
        .error (.badConfig residualMethod) := by
  obtain ⟨hf, hb, hfc, hbc, hnb, hsmall, hs, -, -⟩ := hrun
  obtain ⟨s1, hcomb, hhits, -⟩ :=
    combineTrajectories_ok fwdTraj bwdTraj refTsos s _ _ hfc hbc hnb hsmall hs
  have hthrow := fillKalmanPart_badConfig env trajMeasurements forwardRecHitNums true 0
    residualMethod s1 hm
  refine ⟨?_, s1, hcomb, hhits, hthrow⟩
  simp only [construct, hf, hb, hfv, hbv, hcomb, hthrow, bind, Except.bind, pure, Except.pure,
    Bool.not_true, Bool.or_self, Bool.false_eq_true, if_false]

theorem construct_badSelector_witness :
    construct (exampleEnv true true 1) exampleMeasurements (exampleTsos true 1)
      exampleForward exampleBackward 1 .none .alongMomentum 0 3 exampleState =
        .error (.badConfig 3) :=
  (construct_badSelector (exampleEnv true true 1) exampleMeasurements (exampleTsos true 1)
    exampleForward exampleBackward 1 .none .alongMomentum 0 3 exampleState
    (exampleFwdTraj true true 1) (exampleBwdTraj true true 1)
    (example_wellFormedRun true true 1) rfl rfl (by decide)).1

/-- C10, the code at the failing input: selector `1`, both single-direction results valid,
the combined predicted state of every measurement valid; `construct` returns `false`. -/
theorem construct_unbiased_returns_false :
    (exampleFwdTraj true true 1).isValid = true ∧
    (exampleBwdTraj true true 1).isValid = true ∧
    (∀ tm ∈ exampleMeasurements,
      ((exampleEnv true true 1).tsosComb tm.forwardPredictedState
        tm.backwardPredictedState).isValid = true) ∧
    ∃ s', construct (exampleEnv true true 1) exampleMeasurements (exampleTsos true 1)
      exampleForward exampleBackward 1 .none .alongMomentum 0 1 exampleState =
        .ok (false, s') := by
  refine ⟨rfl, rfl, ?_, _, rfl⟩
  intro tm htm
  simp only [exampleMeasurements, List.mem_cons, List.mem_singleton, List.not_mem_nil,
    or_false] at htm
  rcases htm with rfl | rfl | rfl | rfl | rfl <;> rfl

/-- The state after `fillTrajectoryPositions`, by name. -/
theorem fillTrajectoryPositions_positioned (projection : HepMatrix)
    (tsos : TrajectoryStateOnSurface) (iHit : Nat) (s : DualKalmanTrajectory)
    (hcol : projection.ncol = 5) (hrow : 2 ≤ projection.nrow)
    (h32 : 2 * iHit + 1 < 4294967296)
    (hp : 2 * iHit + 1 < s.theTrajectoryPositions.nrow) :
    fillTrajectoryPositions projection tsos iHit s =
      .ok (positionedState projection tsos iHit s) :=
  fillTrajectoryPositions_eq projection tsos iHit s hcol hrow h32 hp

/-- Whatever `fillMeasurementAndError1` is called on, a result it returns is `false`. -/
theorem fillMeasurementAndError1_false (hitPtr : TransientTrackingRecHit) (iHit : Nat)
    (tsos : TrajectoryStateOnSurface) (s : DualKalmanTrajectory) (ok : Bool)
    (s' : DualKalmanTrajectory)
    (h : fillMeasurementAndError1 hitPtr iHit tsos s = .ok (ok, s')) : ok = false := by
  simp only [fillMeasurementAndError1, bind, Except.bind, pure, Except.pure] at h
  split at h
  · cases h
  · cases h
    rfl

/-- The fill loop and the loop over its schedule are the same function. -/
theorem fillKalmanLoop_eq_runSchedule (env : Collaborators)
    (trajMeasurements : List TrajectoryMeasurement) (residualMethod : Int) :
    ∀ (recHitNums : List Nat) (iNextHit : Nat) (s : DualKalmanTrajectory),
      fillKalmanLoop env trajMeasurements residualMethod recHitNums iNextHit s =
        runSchedule env trajMeasurements residualMethod (fillSchedule recHitNums iNextHit) s := by
  intro recHitNums
  induction recHitNums with
  | nil => intro i s; rfl
  | cons n rest ih =>
    intro i s
    simp only [fillKalmanLoop, fillSchedule, runSchedule, processHit]
    cases htm : trajMeasurements[n]? with
    | none => rfl
    | some tm =>
      simp only [bind, Except.bind, pure, Except.pure]
      generalize (if residualMethod = 1 then
        env.tsosComb tm.forwardPredictedState tm.backwardPredictedState
        else tm.updatedState) = tsos
      cases hv : tsos.isValid with
      | false => rfl
      | true =>
        simp only [Bool.not_true, Bool.false_eq_true, if_false]
        by_cases h1 : residualMethod = 1
        · rw [if_pos h1, if_pos h1]
          generalize fillMeasurementAndError1 tm.recHit i tsos _ = filled
          cases filled with
          | error e => rfl
          | ok r =>
            obtain ⟨ok, s2⟩ := r
            cases ok with
            | false => rfl
            | true =>
              simp only [Bool.not_true, Bool.false_eq_true, if_false]
              cases fillTrajectoryPositions tm.recHit.projectionMatrix tsos i s2 with
              | error e => rfl
              | ok s3 => exact ih _ _
        · rw [if_neg h1, if_neg h1]
          generalize fillMeasurementAndError2 env.parError tm.recHit i tsos _ = filled
          cases filled with
          | error e => rfl
          | ok r =>
            obtain ⟨ok, s2⟩ := r
            cases ok with
            | false => rfl
            | true =>
              simp only [Bool.not_true, Bool.false_eq_true, if_false]
              cases fillTrajectoryPositions tm.recHit.projectionMatrix tsos i s2 with
              | error e => rfl
              | ok s3 => exact ih _ _

/-- A write access that returns was inside the vector and keeps its size. -/
theorem HepVector.set_ok {v v' : HepVector} {i : Nat} {x : ℚ} (h : v.set i x = .ok v') :
    i < v.nrow ∧ v'.nrow = v.nrow := by
  unfold HepVector.set at h
  split_ifs at h with hi
  · cases h; exact ⟨hi, rfl⟩

/-- A read access that returns was inside the vector. -/
theorem HepVector.get_ok {v : HepVector} {i : Nat} {x : ℚ} (h : v.get i = .ok x) :
    i < v.nrow := by
  unfold HepVector.get at h
  split_ifs at h with hi
  · exact hi

/-- A write access that returns was inside the symmetric matrix and keeps its size. -/
theorem hepSymMatrix_set_ok {a a' : HepSymMatrix} {r c : Nat} {x : ℚ}
    (h : a.set r c x = .ok a') : r < a.nrow ∧ c < a.nrow ∧ a'.nrow = a.nrow := by
  unfold HepSymMatrix.set at h
  split_ifs at h with hi
  · cases h; exact ⟨hi.1, hi.2, rfl⟩

/-- A result of the five assignments of a per-hit fill is `writtenState`, and the slot lies
inside the two containers. -/
theorem writeMeasurementAndError_of_ok (p : LocalPoint) (c : LocalError) (iHit : Nat)
    (s s' : DualKalmanTrajectory) (h32 : 2 * iHit + 1 < 4294967296)
    (h : writeMeasurementAndError p c iHit s = .ok s') :
    s' = writtenState p c iHit s ∧ 2 * iHit + 1 < s.theMeasurements.nrow ∧
      2 * iHit + 1 < s.theMeasurementsCov.nrow := by
  have e0 : u32 (nMeasPerHit * iHit) = 2 * iHit := by
    unfold nMeasPerHit; exact u32_of_lt (by omega)
  have e1 : u32 (2 * iHit + 1) = 2 * iHit + 1 := u32_of_lt h32
  have hin : 2 * iHit + 1 < s.theMeasurements.nrow ∧
      2 * iHit + 1 < s.theMeasurementsCov.nrow := by
    simp only [writeMeasurementAndError, e0, e1, bind, Except.bind, pure, Except.pure] at h
    cases hA : s.theMeasurements.set (2 * iHit) p.x with
    | error e => simp [hA] at h
    | ok m1 =>
      simp only [hA] at h
      cases hB : m1.set (2 * iHit + 1) p.y with
      | error e => simp [hB] at h
      | ok m2 =>
        simp only [hB] at h
        cases hC : s.theMeasurementsCov.set (2 * iHit) (2 * iHit) c.xx with
        | error e => simp [hC] at h
        | ok c1 =>
          simp only [hC] at h
          cases hD : c1.set (2 * iHit) (2 * iHit + 1) c.xy with
          | error e => simp [hD] at h
          | ok c2 =>
            have h1 := HepVector.set_ok hA
            have h2 := HepVector.set_ok hB
            have h3 := hepSymMatrix_set_ok hC
            have h4 := hepSymMatrix_set_ok hD
            exact ⟨by omega, by omega⟩
  rw [writeMeasurementAndError_eq p c iHit s h32 hin.1 hin.2] at h
  cases h
  exact ⟨rfl, hin.1, hin.2⟩

/-- A result of `fillTrajectoryPositions` is `positionedState`. -/
theorem fillTrajectoryPositions_of_ok (projection : HepMatrix) (tsos : TrajectoryStateOnSurface)
    (iHit : Nat) (s s' : DualKalmanTrajectory) (h32 : 2 * iHit + 1 < 4294967296)
    (h : fillTrajectoryPositions projection tsos iHit s = .ok s') :
    s' = positionedState projection tsos iHit s := by
  have e0 : u32 (nMeasPerHit * iHit) = 2 * iHit := by
    unfold nMeasPerHit; exact u32_of_lt (by omega)
  have e1 : u32 (2 * iHit + 1) = 2 * iHit + 1 := u32_of_lt h32
  have h5 : (asHepVector5 tsos.mixedFormatVector).nrow = 5 := rfl
  have hin : projection.ncol = 5 ∧ 2 ≤ projection.nrow ∧
      2 * iHit + 1 < s.theTrajectoryPositions.nrow := by
    simp only [fillTrajectoryPositions, e0, e1, bind, Except.bind, pure, Except.pure] at h
    cases hA : projection.mulVec (asHepVector5 tsos.mixedFormatVector) with
    | error e => simp [hA] at h
    | ok lp =>
      simp only [hA] at h
      have hmul : projection.ncol = 5 ∧ lp.nrow = projection.nrow := by
        unfold HepMatrix.mulVec at hA
        split_ifs at hA with hne
        · cases hA
          exact ⟨by rw [h5] at hne; exact not_not.mp hne, rfl⟩
      cases hB : lp.get 0 with
      | error e => simp [hB] at h
      | ok x0 =>
        simp only [hB] at h
        cases hC : s.theTrajectoryPositions.set (2 * iHit) x0 with
        | error e => simp [hC] at h
        | ok p1 =>
          simp only [hC] at h
          cases hD : lp.get 1 with
          | error e => simp [hD] at h
          | ok x1 =>
            simp only [hD] at h
            cases hE : p1.set (2 * iHit + 1) x1 with
            | error e => simp [hE] at h
            | ok p2 =>
              have h1 := HepVector.get_ok hD
              have h2 := HepVector.set_ok hC
              have h3 := HepVector.set_ok hE
              exact ⟨hmul.1, by omega, by omega⟩
  rw [fillTrajectoryPositions_positioned projection tsos iHit s hin.1 hin.2.1 h32 hin.2.2] at h
  cases h
  rfl

/-- One iteration under the PullBased method, for a measurement whose hit can be processed
at a slot inside the containers: it runs to its end with the state `pullStep` when the
measurement passes, and returns `false` otherwise. -/
theorem processHit_pull (env : Collaborators) (trajMeasurements : List TrajectoryMeasurement)
    (n iHit : Nat) (s : DualKalmanTrajectory) (tm : TrajectoryMeasurement)
    (htm : trajMeasurements[n]? = some tm) (hfill : FillableHit env tm.recHit)
    (h32 : 2 * iHit + 1 < 4294967296) (hm : 2 * iHit + 1 < s.theMeasurements.nrow)
    (hc : 2 * iHit + 1 < s.theMeasurementsCov.nrow)
    (hp : 2 * iHit + 1 < s.theTrajectoryPositions.nrow) :
    ∃ H, hitErrWithAPE env.parError tm.recHit = .ok H ∧
      (PassesPullCheck env tm →
        processHit env trajMeasurements 2 n iHit s = .ok (true, pullStep tm H iHit s)) ∧
      (¬ PassesPullCheck env tm →
        ∃ s', processHit env trajMeasurements 2 n iHit s = .ok (false, s') ∧
          SameAssembly s s') := by
  obtain ⟨H, hH⟩ := hitErrWithAPE_ok env tm.recHit hfill
  obtain ⟨hproj1, hproj2, -⟩ := hfill
  refine ⟨H, hH, ?_, ?_⟩
  · rintro ⟨hv, H', hH', hcmp⟩
    rw [hH] at hH'
    cases hH'
    simp only [processHit, htm, show ¬ ((2 : Int) = 1) by decide, if_false, hv, Bool.not_true,
      Bool.false_eq_true, fillMeasurementAndError2, hH, hcmp, bind, Except.bind, pure,
      Except.pure]
    rw [writeMeasurementAndError_eq _ _ iHit _ h32 (by simpa using hm) (by simpa using hc)]
    simp only [Bool.not_true, Bool.false_eq_true, if_false]
    rw [fillTrajectoryPositions_positioned _ _ iHit _ hproj1 hproj2 h32
      (by simpa [writtenState] using hp)]
    rfl
  · intro hnot
    simp only [processHit, htm, show ¬ ((2 : Int) = 1) by decide, if_false]
    cases hv : tm.updatedState.isValid with
    | false => exact ⟨s, rfl, SameAssembly.refl s⟩
    | true =>
      have hcmp : H.xx < tm.updatedState.positionError.xx ∨
          H.yy < tm.updatedState.positionError.yy := by
        by_contra hno
        exact hnot ⟨hv, H, hH, hno⟩
      simp only [Bool.not_true, Bool.false_eq_true, if_false, fillMeasurementAndError2, hH, hcmp,
        if_true, bind, Except.bind, pure, Except.pure]
      exact ⟨_, rfl, ⟨rfl, rfl, rfl, rfl, rfl, rfl, rfl⟩⟩

/-- The state `pullStep` keeps the assembled members and the container sizes. -/
theorem pullStep_sameAssembly (tm : TrajectoryMeasurement) (H : LocalError) (iHit : Nat)
    (s : DualKalmanTrajectory) : SameAssembly s (pullStep tm H iHit s) :=
  ⟨rfl, rfl, rfl, rfl, rfl, rfl, rfl⟩

/-- The PullBased loop over a schedule whose hits can be processed at slots inside the
containers returns; it returns `true` exactly when every measurement passes, and then the
state is `pullSteps`. -/
theorem runSchedule_pull (env : Collaborators) (trajMeasurements : List TrajectoryMeasurement) :
    ∀ (sched : List (Nat × Nat)) (s : DualKalmanTrajectory),
      SchedFillable env trajMeasurements sched → SchedInRange sched s →
      ∃ ok s', runSchedule env trajMeasurements 2 sched s = .ok (ok, s') ∧
        SameAssembly s s' ∧
        (ok = true ↔ SchedPasses env trajMeasurements sched) ∧
        (ok = true → s' = pullSteps env trajMeasurements sched s) := by
  intro sched
  induction sched with
  | nil =>
    intro s _ _
    exact ⟨true, s, rfl, SameAssembly.refl s, ⟨fun _ p hp => (by cases hp), fun _ => rfl⟩,
      fun _ => rfl⟩
  | cons p rest ih =>
    intro s hfill hin
    obtain ⟨n, iHit⟩ := p
    obtain ⟨tm, htm, hfh⟩ := hfill (n, iHit) (List.mem_cons_self _ _)
    obtain ⟨h32, hm, hc, hp⟩ := hin (n, iHit) (List.mem_cons_self _ _)
    obtain ⟨H, hH, hpass, hfail⟩ :=
      processHit_pull env trajMeasurements n iHit s tm htm hfh h32 hm hc hp
    by_cases hps : PassesPullCheck env tm
    · have hrest_in : SchedInRange rest (pullStep tm H iHit s) :=
        fun q hq => hin q (List.mem_cons_of_mem _ hq)
      obtain ⟨ok, s', hrun, hsame, hiff, hst⟩ := ih (pullStep tm H iHit s)
        (fun q hq => hfill q (List.mem_cons_of_mem _ hq)) hrest_in
      refine ⟨ok, s', ?_, SameAssembly.trans (pullStep_sameAssembly tm H iHit s) hsame, ?_, ?_⟩
      · simp only [runSchedule, hpass hps, bind, Except.bind, Bool.not_true,
          Bool.false_eq_true, if_false]
        exact hrun
      · rw [hiff]
        constructor
        · intro hall q hq
          rcases List.mem_cons.mp hq with rfl | hq
          · exact ⟨tm, htm, hps⟩
          · exact hall q hq
        · intro hall q hq
          exact hall q (List.mem_cons_of_mem _ hq)
      · intro hok
        rw [hst hok]
        simp only [pullSteps, htm, hH]
    · obtain ⟨s', hrun, hsame⟩ := hfail hps
      refine ⟨false, s', ?_, hsame, ?_, ?_⟩
      · simp only [runSchedule, hrun, bind, Except.bind, pure, Except.pure, Bool.not_false,
          if_true]
      · constructor
        · intro h; cases h
        · intro hall
          exfalso
          obtain ⟨tm', htm', hps'⟩ := hall (n, iHit) (List.mem_cons_self _ _)
          rw [htm] at htm'
          cases htm'
          exact hps hps'
      · intro h; cases h

/-- The loop over two schedules in a row: the second is run when the first returned `true`. -/
theorem runSchedule_append (env : Collaborators) (trajMeasurements : List TrajectoryMeasurement)
    (residualMethod : Int) (b : List (Nat × Nat)) :
    ∀ (a : List (Nat × Nat)) (s : DualKalmanTrajectory),
      runSchedule env trajMeasurements residualMethod (a ++ b) s =
        (runSchedule env trajMeasurements residualMethod a s >>= fun r =>
          if !r.1 then pure (false, r.2)
          else runSchedule env trajMeasurements residualMethod b r.2) := by
  intro a
  induction a with
  | nil => intro s; rfl
  | cons p rest ih =>
    intro s
    obtain ⟨n, iHit⟩ := p
    simp only [List.cons_append, runSchedule, bind, Except.bind, pure, Except.pure]
    cases processHit env trajMeasurements residualMethod n iHit s with
    | error e => rfl
    | ok r =>
      obtain ⟨ok, s1⟩ := r
      cases ok with
      | false => rfl
      | true =>
        simp only [Bool.not_true, Bool.false_eq_true, if_false]
        exact ih s1

/-- The hit numbers of a schedule. -/
theorem fillSchedule_fst : ∀ (recHitNums : List Nat) (iNextHit : Nat),
    (fillSchedule recHitNums iNextHit).map Prod.fst = recHitNums := by
  intro recHitNums
  induction recHitNums with
  | nil => intro i; rfl
  | cons n rest ih => intro i; simp only [fillSchedule, List.map_cons, ih]

/-- The slots of a schedule are consecutive. -/
theorem fillSchedule_snd : ∀ (recHitNums : List Nat) (iNextHit : Nat),
    iNextHit + recHitNums.length < 4294967296 →
    (fillSchedule recHitNums iNextHit).map Prod.snd =
      List.range' iNextHit recHitNums.length := by
  intro recHitNums
  induction recHitNums with
  | nil => intro i _; rfl
  | cons n rest ih =>
    intro i hi
    simp only [List.length_cons] at hi
    have e : u32 (i + 1) = i + 1 := u32_of_lt (by omega)
    simp only [fillSchedule, List.map_cons, List.length_cons, e, List.range'_succ]
    rw [ih (i + 1) (by omega)]

/-- The hit numbers of the two fill passes: the forward list, then the backward list without
its first hit number. -/
theorem constructSchedule_fst (forwardRecHitNums backwardRecHitNums : List Nat) :
    (constructSchedule forwardRecHitNums backwardRecHitNums).map Prod.fst =
      forwardRecHitNums ++ backwardRecHitNums.tail := by
  simp only [constructSchedule, List.map_append, fillSchedule_fst, List.drop_one]

/-- The slots of the two fill passes are `0, 1, ..., nf + nb - 2`, in this order. -/
theorem constructSchedule_snd (forwardRecHitNums backwardRecHitNums : List Nat)
    (hnb : 1 ≤ backwardRecHitNums.length)
    (hsmall : 2 * (forwardRecHitNums.length + backwardRecHitNums.length) < 2147483648) :
    (constructSchedule forwardRecHitNums backwardRecHitNums).map Prod.snd =
      List.range (forwardRecHitNums.length + backwardRecHitNums.length - 1) := by
  have e : u32 forwardRecHitNums.length = forwardRecHitNums.length := u32_of_lt (by omega)
  have hl : (backwardRecHitNums.drop 1).length = backwardRecHitNums.length - 1 := by simp
  simp only [constructSchedule, List.map_append, e]
  rw [fillSchedule_snd _ _ (by omega), fillSchedule_snd _ _ (by rw [hl]; omega), hl,
    List.range_eq_range']
  have : forwardRecHitNums.length + backwardRecHitNums.length - 1 =
      forwardRecHitNums.length + (backwardRecHitNums.length - 1) := by omega
  rw [this]
  have h := List.range'_append 0 forwardRecHitNums.length (backwardRecHitNums.length - 1) 1
  simp only [Nat.zero_add, Nat.one_mul] at h
  rw [h, Nat.add_comm]

/-- For valid single-direction results, a recognized selector and a combination step that
gives `s1`, `construct` is the fill loop over `constructSchedule` run on `s1`. -/
theorem construct_eq_runSchedule (env : Collaborators)
    (trajMeasurements : List TrajectoryMeasurement)
    (refTsos : TrajectoryStateOnSurface) (forwardRecHitNums backwardRecHitNums : List Nat)
    (mass : ℚ) (materialEffects : MaterialEffects) (propDir : PropagationDirection)
    (magField : Nat) (residualMethod : Int) (s s1 : DualKalmanTrajectory)
    (fwdTraj bwdTraj : ReferenceTrajectory)
    (hf : constructOneDirection env trajMeasurements refTsos forwardRecHitNums mass
      materialEffects propDir magField = .ok fwdTraj)
    (hb : constructOneDirection env trajMeasurements refTsos backwardRecHitNums mass
      materialEffects (oppositeDirection propDir) magField = .ok bwdTraj)
    (hfv : fwdTraj.isValid = true) (hbv : bwdTraj.isValid = true)
    (hcomb : combineTrajectories fwdTraj bwdTraj refTsos s = .ok s1)
    (hm : residualMethod = 1 ∨ residualMethod = 2) :
    construct env trajMeasurements refTsos forwardRecHitNums backwardRecHitNums mass
      materialEffects propDir magField residualMethod s =
        runSchedule env trajMeasurements residualMethod
          (constructSchedule forwardRecHitNums backwardRecHitNums) s1 := by
  simp only [construct, hf, hb, hfv, hbv, hcomb, bind, Except.bind, pure, Except.pure,
    Bool.not_true, Bool.or_self, Bool.false_eq_true, if_false]
  rw [fillKalmanPart_eq_loop _ _ _ _ _ _ _ hm, fillKalmanLoop_eq_runSchedule, constructSchedule,
    runSchedule_append]
  simp only [if_true, List.drop_zero, bind, Except.bind, pure, Except.pure]
  cases runSchedule env trajMeasurements residualMethod (fillSchedule forwardRecHitNums 0) s1 with
  | error e => rfl
  | ok r =>
    obtain ⟨ok, s5⟩ := r
    cases ok with
    | false => rfl
    | true =>
      simp only [Bool.not_true, Bool.false_eq_true, if_false]
      rw [fillKalmanPart_eq_loop _ _ _ _ _ _ _ hm, fillKalmanLoop_eq_runSchedule]
      rfl

/-- Under the Unbiased method an iteration of the fill loop that returns has returned
`false`. -/
theorem processHit_unbiased_false (env : Collaborators)
    (trajMeasurements : List TrajectoryMeasurement) (n iHit : Nat) (s s' : DualKalmanTrajectory)
    (ok : Bool) (h : processHit env trajMeasurements 1 n iHit s = .ok (ok, s')) :
    ok = false := by
  simp only [processHit, if_true] at h
  cases htm : trajMeasurements[n]? with
  | none => simp [htm] at h
  | some tm =>
    simp only [htm, bind, Except.bind, pure, Except.pure] at h
    cases hv : (env.tsosComb tm.forwardPredictedState tm.backwardPredictedState).isValid with
    | false =>
      simp only [hv, Bool.not_false, if_true] at h
      cases h
      rfl
    | true =>
      simp only [hv, Bool.not_true, Bool.false_eq_true, if_false] at h
      cases hfill : fillMeasurementAndError1 tm.recHit iHit
          (env.tsosComb tm.forwardPredictedState tm.backwardPredictedState)
          { s with theTsosVec := s.theTsosVec ++
            [env.tsosComb tm.forwardPredictedState tm.backwardPredictedState] } with
      | error e => simp [hfill] at h
      | ok r =>
        obtain ⟨ok1, s2⟩ := r
        have hfalse := fillMeasurementAndError1_false _ _ _ _ _ _ hfill
        subst hfalse
        simp only [hfill, Bool.not_false, if_true] at h
        cases h
        rfl

/-- C11: under the Unbiased method the per-hit fill routine reports failure whenever it
returns, also after it has written the measurement and the covariance of the hit; so for
selector `1`, valid single-direction results and a non-empty forward list (in a well-formed
run) `construct` returns `false`. -/
theorem unbiased_fill_reports_failure (env : Collaborators)
    (trajMeasurements : List TrajectoryMeasurement)
    (refTsos : TrajectoryStateOnSurface) (forwardRecHitNums backwardRecHitNums : List Nat)
    (mass : ℚ) (materialEffects : MaterialEffects) (propDir : PropagationDirection)
    (magField : Nat) (s : DualKalmanTrajectory) (fwdTraj bwdTraj : ReferenceTrajectory)
    (hrun : WellFormedRun env trajMeasurements refTsos forwardRecHitNums backwardRecHitNums
      mass materialEffects propDir magField s fwdTraj bwdTraj)
    (hfv : fwdTraj.isValid = true) (hbv : bwdTraj.isValid = true)
    (hne : forwardRecHitNums ≠ []) :
    (∀ hitPtr iHit tsos st ok st',
      fillMeasurementAndError1 hitPtr iHit tsos st = .ok (ok, st') → ok = false) ∧
    (∀ hitPtr iHit tsos st, 2 * iHit + 1 < 4294967296 →
      2 * iHit + 1 < st.theMeasurements.nrow → 2 * iHit + 1 < st.theMeasurementsCov.nrow →
      fillMeasurementAndError1 hitPtr iHit tsos st =
        .ok (false, writtenState hitPtr.localPosition
          ⟨hitPtr.localPositionError.xx + tsos.positionError.xx,
           hitPtr.localPositionError.xy + tsos.positionError.xy,
           hitPtr.localPositionError.yy + tsos.positionError.yy⟩ iHit st)) ∧
    ∃ s', construct env trajMeasurements refTsos forwardRecHitNums backwardRecHitNums mass
      materialEffects propDir magField 1 s = .ok (false, s') := by
  refine ⟨fun hitPtr iHit tsos st ok st' h =>
    fillMeasurementAndError1_false hitPtr iHit tsos st ok st' h, ?_, ?_⟩
  · intro hitPtr iHit tsos st h32 hm hc
    simp only [fillMeasurementAndError1, bind, Except.bind, pure, Except.pure,
      writeMeasurementAndError_eq _ _ iHit st h32 hm hc]
  · obtain ⟨s1, ok, s', hcomb, hcons, -⟩ := construct_returns env trajMeasurements refTsos
      forwardRecHitNums backwardRecHitNums mass materialEffects propDir magField 1 s
      fwdTraj bwdTraj hrun hfv hbv (Or.inl rfl)
    obtain ⟨hf, hb, -⟩ := hrun
    have hsched := construct_eq_runSchedule env trajMeasurements refTsos forwardRecHitNums
      backwardRecHitNums mass materialEffects propDir magField 1 s s1 fwdTraj bwdTraj hf hb
      hfv hbv hcomb (Or.inl rfl)
    rw [hsched] at hcons
    obtain ⟨n, rest, rfl⟩ : ∃ n rest, forwardRecHitNums = n :: rest := by
      cases forwardRecHitNums with
      | nil => exact absurd rfl hne
      | cons n rest => exact ⟨n, rest, rfl⟩
    refine ⟨s', ?_⟩
    rw [hsched]
    simp only [constructSchedule, fillSchedule, List.cons_append, runSchedule, bind,
      Except.bind, pure, Except.pure] at hcons ⊢
    cases hproc : processHit env trajMeasurements 1 n 0 s1 with
    | error e => simp [hproc] at hcons
    | ok r =>
      obtain ⟨ok1, s2⟩ := r
      have hfalse := processHit_unbiased_false _ _ _ _ _ _ _ hproc
      subst hfalse
      simp only [hproc, Bool.not_false, if_true] at hcons ⊢
      cases hcons
      rfl

theorem unbiased_fill_reports_failure_witness :
    ∃ s', construct (exampleEnv true true 1) exampleMeasurements (exampleTsos true 1)
      exampleForward exampleBackward 1 .none .alongMomentum 0 1 exampleState = .ok (false, s') :=
  (unbiased_fill_reports_failure (exampleEnv true true 1) exampleMeasurements
    (exampleTsos true 1) exampleForward exampleBackward 1 .none .alongMomentum 0 exampleState
    (exampleFwdTraj true true 1) (exampleBwdTraj true true 1)
    (example_wellFormedRun true true 1) rfl rfl (by decide)).2.2

/-- A result of `fillMeasurementAndError2`: either `false` with the state unchanged, because
a diagonal entry of the hit error is smaller than that of the state error, or `true` with
`writtenState` of the difference. -/
theorem fillMeasurementAndError2_of_ok (parError : LocalError → GeomDet → HepSymMatrix)
    (hitPtr : TransientTrackingRecHit) (iHit : Nat) (tsos : TrajectoryStateOnSurface)
    (s s' : DualKalmanTrajectory) (ok : Bool) (h32 : 2 * iHit + 1 < 4294967296)
    (h : fillMeasurementAndError2 parError hitPtr iHit tsos s = .ok (ok, s')) :
    ∃ H, hitErrWithAPE parError hitPtr = .ok H ∧
      ((ok = false ∧ s' = s ∧
          (H.xx < tsos.positionError.xx ∨ H.yy < tsos.positionError.yy)) ∨
        (ok = true ∧ ¬ (H.xx < tsos.positionError.xx ∨ H.yy < tsos.positionError.yy) ∧
          s' = writtenState hitPtr.localPosition
            ⟨H.xx - tsos.positionError.xx, H.xy - tsos.positionError.xy,
             H.yy - tsos.positionError.yy⟩ iHit s)) := by
  simp only [fillMeasurementAndError2, bind, Except.bind, pure, Except.pure] at h
  cases hH : hitErrWithAPE parError hitPtr with
  | error e => simp [hH] at h
  | ok H =>
    simp only [hH] at h
    refine ⟨H, rfl, ?_⟩
    by_cases hcmp : H.xx < tsos.positionError.xx ∨ H.yy < tsos.positionError.yy
    · rw [if_pos hcmp] at h
      cases h
      exact Or.inl ⟨rfl, rfl, hcmp⟩
    · rw [if_neg hcmp] at h
      cases hw : writeMeasurementAndError hitPtr.localPosition
          ⟨H.xx - tsos.positionError.xx, H.xy - tsos.positionError.xy,
           H.yy - tsos.positionError.yy⟩ iHit s with
      | error e => simp [hw] at h
      | ok s1 =>
        simp only [hw] at h
        cases h
        exact Or.inr ⟨rfl, hcmp, (writeMeasurementAndError_of_ok _ _ iHit s _ h32 hw).1⟩

/-- The PullBased fill at a slot inside the containers, when neither diagonal entry of the
hit error `H` is smaller than that of the state error: `true` and `writtenState`. -/
theorem fillMeasurementAndError2_eq (parError : LocalError → GeomDet → HepSymMatrix)
    (hitPtr : TransientTrackingRecHit) (iHit : Nat) (tsos : TrajectoryStateOnSurface)
    (s : DualKalmanTrajectory) (H : LocalError)
    (hH : hitErrWithAPE parError hitPtr = .ok H)
    (h32 : 2 * iHit + 1 < 4294967296)
    (hm : 2 * iHit + 1 < s.theMeasurements.nrow)
    (hc : 2 * iHit + 1 < s.theMeasurementsCov.nrow)
    (hno : ¬ (H.xx < tsos.positionError.xx ∨ H.yy < tsos.positionError.yy)) :
    fillMeasurementAndError2 parError hitPtr iHit tsos s =
      .ok (true, writtenState hitPtr.localPosition
        ⟨H.xx - tsos.positionError.xx, H.xy - tsos.positionError.xy,
         H.yy - tsos.positionError.yy⟩ iHit s) := by
  simp only [fillMeasurementAndError2, hH, bind, Except.bind, pure, Except.pure, hno, if_false,
    writeMeasurementAndError_eq _ _ iHit s h32 hm hc]

/-- The PullBased per-hit fill in exact arithmetic: whenever `fillMeasurementAndError2`
reports success at the slot `iHit`, the two diagonal entries of the covariance block it has
written are non-negative. -/
theorem fillMeasurementAndError2_diagonal_nonneg
    (parError : LocalError → GeomDet → HepSymMatrix)
    (hitPtr : TransientTrackingRecHit) (iHit : Nat) (tsos : TrajectoryStateOnSurface)
    (s s' : DualKalmanTrajectory) (h32 : 2 * iHit + 1 < 4294967296)
    (h : fillMeasurementAndError2 parError hitPtr iHit tsos s = .ok (true, s')) :
    0 ≤ s'.theMeasurementsCov.entry (2 * iHit) (2 * iHit) ∧
    0 ≤ s'.theMeasurementsCov.entry (2 * iHit + 1) (2 * iHit + 1) := by
  obtain ⟨H, -, hcase⟩ := fillMeasurementAndError2_of_ok parError hitPtr iHit tsos s s' true h32 h
  rcases hcase with ⟨hfalse, -⟩ | ⟨-, hcmp, rfl⟩
  · cases hfalse
  · obtain ⟨-, -, e1, -, e3⟩ := writtenState_entries hitPtr.localPosition
      ⟨H.xx - tsos.positionError.xx, H.xy - tsos.positionError.xy,
       H.yy - tsos.positionError.yy⟩ iHit s
    rw [e1, e3]
    push_neg at hcmp
    exact ⟨sub_nonneg.mpr hcmp.1, sub_nonneg.mpr hcmp.2⟩

theorem fillMeasurementAndError2_diagonal_nonneg_witness :
    0 ≤ (writtenState (exampleHitWithAPE 7).localPosition ⟨4 + 1 - 2, 1 - 0, 4 + 1 - 2⟩ 1
      exampleState).theMeasurementsCov.entry (2 * 1) (2 * 1) ∧
    0 ≤ (writtenState (exampleHitWithAPE 7).localPosition ⟨4 + 1 - 2, 1 - 0, 4 + 1 - 2⟩ 1
      exampleState).theMeasurementsCov.entry (2 * 1 + 1) (2 * 1 + 1) :=
  fillMeasurementAndError2_diagonal_nonneg exampleParError (exampleHitWithAPE 7) 1
    (exampleTsos true 2) exampleState _ (by decide)
    (fillMeasurementAndError2_eq exampleParError (exampleHitWithAPE 7) 1 (exampleTsos true 2)
      exampleState ⟨4 + 1, 1, 4 + 1⟩ rfl (by decide) (by decide) (by decide)
      (by norm_num [exampleTsos]))

/-- C18: success of the PullBased fill does not make the written block non-negative-definite.
For the hit error `H = (4, 1, 4)` and the state error `S = (4, 0, 4)`, both
non-negative-definite and with `H.xx ≥ S.xx`, `H.yy ≥ S.yy`, the call returns `true` and
writes the block `H - S = (0, 1, 0)`, whose determinant is `-1`. -/
theorem fillMeasurementAndError2_block_not_nonNegDefinite :
    NonNegDefinite (exampleHit 0).localPositionError ∧
    NonNegDefinite (exampleTsos true 4).positionError ∧
    hitErrWithAPE exampleParError (exampleHit 0) = .ok (exampleHit 0).localPositionError ∧
    (exampleHit 0).localPositionError.xx ≥ (exampleTsos true 4).positionError.xx ∧
    (exampleHit 0).localPositionError.yy ≥ (exampleTsos true 4).positionError.yy ∧
    ∃ s', fillMeasurementAndError2 exampleParError (exampleHit 0) 0 (exampleTsos true 4)
        exampleState = .ok (true, s') ∧
      s'.theMeasurementsCov.entry 0 0 * s'.theMeasurementsCov.entry 1 1 -
        s'.theMeasurementsCov.entry 0 1 * s'.theMeasurementsCov.entry 0 1 < 0 ∧
      ¬ NonNegDefinite ⟨s'.theMeasurementsCov.entry 0 0, s'.theMeasurementsCov.entry 0 1,
        s'.theMeasurementsCov.entry 1 1⟩ := by
  have hdet : (writtenState (exampleHit 0).localPosition
        ⟨(4 : ℚ) - 4, 1 - 0, 4 - 4⟩ 0 exampleState).theMeasurementsCov.entry 0 0 *
      (writtenState (exampleHit 0).localPosition
        ⟨(4 : ℚ) - 4, 1 - 0, 4 - 4⟩ 0 exampleState).theMeasurementsCov.entry 1 1 -
      (writtenState (exampleHit 0).localPosition
        ⟨(4 : ℚ) - 4, 1 - 0, 4 - 4⟩ 0 exampleState).theMeasurementsCov.entry 0 1 *
      (writtenState (exampleHit 0).localPosition
        ⟨(4 : ℚ) - 4, 1 - 0, 4 - 4⟩ 0 exampleState).theMeasurementsCov.entry 0 1 < 0 := by
    obtain ⟨-, -, e1, e2, e3⟩ := writtenState_entries (exampleHit 0).localPosition
      ⟨(4 : ℚ) - 4, 1 - 0, 4 - 4⟩ 0 exampleState
    simp only [Nat.mul_zero, Nat.zero_add] at e1 e2 e3
    rw [e1, e2, e3]
    norm_num
  refine ⟨by norm_num [NonNegDefinite, exampleHit], by norm_num [NonNegDefinite, exampleTsos],
    rfl, by norm_num [exampleHit, exampleTsos], by norm_num [exampleHit, exampleTsos],
    writtenState (exampleHit 0).localPosition ⟨(4 : ℚ) - 4, 1 - 0, 4 - 4⟩ 0 exampleState,
    fillMeasurementAndError2_eq exampleParError (exampleHit 0) 0 (exampleTsos true 4)
      exampleState ⟨4, 1, 4⟩ rfl (by decide) (by decide) (by decide)
      (by norm_num [exampleTsos]), hdet, ?_⟩
  intro hnn
  exact absurd hnn.2.2 (not_le.mpr hdet)

/-- In a well-formed run the schedule of the two fill passes refers to hits that can be
processed, at slots inside the containers of the combined state. -/
theorem constructSchedule_wellFormed (env : Collaborators)
    (trajMeasurements : List TrajectoryMeasurement)
    (refTsos : TrajectoryStateOnSurface) (forwardRecHitNums backwardRecHitNums : List Nat)
    (mass : ℚ) (materialEffects : MaterialEffects) (propDir : PropagationDirection)
    (magField : Nat) (s s1 : DualKalmanTrajectory) (fwdTraj bwdTraj : ReferenceTrajectory)
    (hrun : WellFormedRun env trajMeasurements refTsos forwardRecHitNums backwardRecHitNums
      mass materialEffects propDir magField s fwdTraj bwdTraj)
    (hcomb : combineTrajectories fwdTraj bwdTraj refTsos s = .ok s1) :
    SchedFillable env trajMeasurements (constructSchedule forwardRecHitNums backwardRecHitNums) ∧
    SchedInRange (constructSchedule forwardRecHitNums backwardRecHitNums) s1 := by
  obtain ⟨-, -, hfc, hbc, hnb, hsmall, hs, hff, hfb⟩ := hrun
  obtain ⟨s1', hcomb', -, -, -, -, -, -, -, -, hm1, hm2, hm3⟩ :=
    combineTrajectories_ok fwdTraj bwdTraj refTsos s _ _ hfc hbc hnb hsmall hs
  rw [hcomb] at hcomb'
  cases hcomb'
  obtain ⟨-, hs2, hs3, hs4, -, -⟩ := hs
  constructor
  · intro p hp
    have hmem : p.1 ∈ forwardRecHitNums ++ backwardRecHitNums.tail := by
      rw [← constructSchedule_fst]
      exact List.mem_map_of_mem Prod.fst hp
    rcases List.mem_append.mp hmem with h | h
    · exact hff p.1 h
    · exact hfb p.1 (List.mem_of_mem_tail h)
  · intro p hp
    have hmem : p.2 ∈ List.range
        (forwardRecHitNums.length + backwardRecHitNums.length - 1) := by
      rw [← constructSchedule_snd _ _ hnb hsmall]
      exact List.mem_map_of_mem Prod.snd hp
    have hlt := List.mem_range.mp hmem
    rw [hm1, hm2, hm3, hs2, hs3, hs4]
    exact ⟨by omega, by omega, by omega, by omega⟩

/-- The measurements of a schedule pass exactly when those of its hit numbers do. -/
theorem schedPasses_iff (env : Collaborators) (trajMeasurements : List TrajectoryMeasurement)
    (sched : List (Nat × Nat)) :
    SchedPasses env trajMeasurements sched ↔
      ∀ n ∈ sched.map Prod.fst, ∃ tm, trajMeasurements[n]? = some tm ∧
        PassesPullCheck env tm := by
  constructor
  · intro h n hn
    obtain ⟨p, hp, rfl⟩ := List.mem_map.mp hn
    exact h p hp
  · intro h p hp
    exact h p.1 (List.mem_map_of_mem Prod.fst hp)

theorem onlySlot_refl (iHit : Nat) (s : DualKalmanTrajectory) : OnlySlot iHit s s :=
  ⟨SameAssembly.refl s, fun _ _ => rfl, fun _ _ => rfl, fun _ _ _ => rfl⟩

theorem onlySlot_trans {iHit : Nat} {s s' s'' : DualKalmanTrajectory}
    (h : OnlySlot iHit s s') (h' : OnlySlot iHit s' s'') : OnlySlot iHit s s'' :=
  ⟨SameAssembly.trans h.1 h'.1, fun k hk => (h'.2.1 k hk).trans (h.2.1 k hk),
    fun k hk => (h'.2.2.1 k hk).trans (h.2.2.1 k hk),
    fun r c hrc => (h'.2.2.2 r c hrc).trans (h.2.2.2 r c hrc)⟩

/-- The entries of the symmetric covariance outside the block of the slot are kept. -/
theorem OnlySlot.entry {iHit : Nat} {s s' : DualKalmanTrajectory} (h : OnlySlot iHit s s')
    (r c : Nat) (hrc : ¬ (r / 2 = iHit ∧ c / 2 = iHit)) :
    s'.theMeasurementsCov.entry r c = s.theMeasurementsCov.entry r c := by
  unfold HepSymMatrix.entry
  split_ifs
  · exact h.2.2.2 r c hrc
  · exact h.2.2.2 c r (fun hh => hrc ⟨hh.2, hh.1⟩)

theorem writtenState_onlySlot (p : LocalPoint) (c : LocalError) (iHit : Nat)
    (s : DualKalmanTrajectory) : OnlySlot iHit s (writtenState p c iHit s) := by
  refine ⟨writtenState_sameAssembly p c iHit s, ?_, fun _ _ => rfl, ?_⟩
  · intro k hk
    simp only [writtenState]
    rw [if_neg (by omega), if_neg (by omega)]
  · intro r c' hrc
    simp only [writtenState]
    rw [if_neg (by omega), if_neg (by omega), if_neg (by omega)]

theorem positionedState_onlySlot (projection : HepMatrix) (tsos : TrajectoryStateOnSurface)
    (iHit : Nat) (s : DualKalmanTrajectory) :
    OnlySlot iHit s (positionedState projection tsos iHit s) := by
  refine ⟨⟨rfl, rfl, rfl, rfl, rfl, rfl, rfl⟩, fun _ _ => rfl, ?_, fun _ _ _ => rfl⟩
  intro k hk
  simp only [positionedState]
  rw [if_neg (by omega), if_neg (by omega)]

/-- The state `pullStep` differs from the state before only in the slot. -/
theorem pullStep_onlySlot (tm : TrajectoryMeasurement) (H : LocalError) (iHit : Nat)
    (s : DualKalmanTrajectory) : OnlySlot iHit s (pullStep tm H iHit s) :=
  onlySlot_trans
    (onlySlot_trans
      (show OnlySlot iHit s { s with theTsosVec := s.theTsosVec ++ [tm.updatedState] } from
        ⟨⟨rfl, rfl, rfl, rfl, rfl, rfl, rfl⟩, fun _ _ => rfl, fun _ _ => rfl,
          fun _ _ _ => rfl⟩)
      (writtenState_onlySlot _ _ iHit _))
    (positionedState_onlySlot _ _ iHit _)

/-- A result of `fillMeasurementAndError1` is `false` with `writtenState` of the sum. -/
theorem fillMeasurementAndError1_of_ok (hitPtr : TransientTrackingRecHit) (iHit : Nat)
    (tsos : TrajectoryStateOnSurface) (s s' : DualKalmanTrajectory) (ok : Bool)
    (h32 : 2 * iHit + 1 < 4294967296)
    (h : fillMeasurementAndError1 hitPtr iHit tsos s = .ok (ok, s')) :
    ok = false ∧ s' = writtenState hitPtr.localPosition
      ⟨hitPtr.localPositionError.xx + tsos.positionError.xx,
       hitPtr.localPositionError.xy + tsos.positionError.xy,
       hitPtr.localPositionError.yy + tsos.positionError.yy⟩ iHit s := by
  simp only [fillMeasurementAndError1, bind, Except.bind, pure, Except.pure] at h
  cases hw : writeMeasurementAndError hitPtr.localPosition
      ⟨hitPtr.localPositionError.xx + tsos.positionError.xx,
       hitPtr.localPositionError.xy + tsos.positionError.xy,
       hitPtr.localPositionError.yy + tsos.positionError.yy⟩ iHit s with
  | error e => simp [hw] at h
  | ok s1 =>
    simp only [hw] at h
    cases h
    exact ⟨rfl, (writeMeasurementAndError_of_ok _ _ iHit s _ h32 hw).1⟩

/-- A per-hit fill of either method that returns has written only its slot. -/
theorem fill_onlySlot (parError : LocalError → GeomDet → HepSymMatrix) (call : FillCall)
    (s s' : DualKalmanTrajectory) (ok : Bool) (h32 : 2 * call.iHit + 1 < 4294967296)
    (h : (if call.unbiased then fillMeasurementAndError1 call.hitPtr call.iHit call.tsos s
      else fillMeasurementAndError2 parError call.hitPtr call.iHit call.tsos s) =
        .ok (ok, s')) :
    OnlySlot call.iHit s s' := by
  cases hu : call.unbiased with
  | true =>
    rw [hu, if_pos rfl] at h
    obtain ⟨-, rfl⟩ := fillMeasurementAndError1_of_ok _ _ _ _ _ _ h32 h
    exact writtenState_onlySlot _ _ _ _
  | false =>
    rw [hu, if_neg (by simp)] at h
    obtain ⟨H, -, hcase⟩ := fillMeasurementAndError2_of_ok _ _ _ _ _ _ _ h32 h
    rcases hcase with ⟨-, rfl, -⟩ | ⟨-, -, rfl⟩
    · exact onlySlot_refl _ _
    · exact writtenState_onlySlot _ _ _ _

/-- C15: a sequence of per-hit fills (of either method, at slots `iHit` with `2*iHit+1` an
`unsigned int`) that returns has changed only entries `2*iHit`, `2*iHit+1` of the
measurement vector and entries of the blocks of its slots in the measurement covariance;
every entry that couples two different hit slots is unchanged, so a block-diagonal
covariance, in particular the zero matrix, stays block diagonal. -/
theorem fills_blockDiagonal (parError : LocalError → GeomDet → HepSymMatrix) :
    ∀ (calls : List FillCall) (s s' : DualKalmanTrajectory),
      (∀ call ∈ calls, 2 * call.iHit + 1 < 4294967296) →
      applyFills parError calls s = .ok s' →
      (∀ k, (∀ call ∈ calls, k ≠ 2 * call.iHit ∧ k ≠ 2 * call.iHit + 1) →
        s'.theMeasurements.elem k = s.theMeasurements.elem k) ∧
      (∀ r c, (∀ call ∈ calls, ¬ ((r = 2 * call.iHit ∨ r = 2 * call.iHit + 1) ∧
          (c = 2 * call.iHit ∨ c = 2 * call.iHit + 1))) →
        s'.theMeasurementsCov.entry r c = s.theMeasurementsCov.entry r c) ∧
      (∀ r c, r / 2 ≠ c / 2 →
        s'.theMeasurementsCov.entry r c = s.theMeasurementsCov.entry r c) ∧
      (BlockDiagonal s.theMeasurementsCov → BlockDiagonal s'.theMeasurementsCov) ∧
      (∀ n, s.theMeasurementsCov = HepSymMatrix.ofInit n 0 →
        BlockDiagonal s'.theMeasurementsCov) := by
  intro calls
  induction calls with
  | nil =>
    intro s s' _ h
    cases h
    refine ⟨fun _ _ => rfl, fun _ _ _ => rfl, fun _ _ _ => rfl, fun h => h, ?_⟩
    intro n hn r c _
    rw [hn]
    simp [HepSymMatrix.entry, HepSymMatrix.ofInit]
  | cons call rest ih =>
    intro s s' hslots h
    have hstep : ∃ ok s1, (if call.unbiased then
        fillMeasurementAndError1 call.hitPtr call.iHit call.tsos s
        else fillMeasurementAndError2 parError call.hitPtr call.iHit call.tsos s) =
          .ok (ok, s1) ∧ applyFills parError rest s1 = .ok s' := by
      simp only [applyFills, bind, Except.bind] at h
      cases hu : call.unbiased with
      | true =>
        simp only [hu, if_true] at h ⊢
        cases hfill : fillMeasurementAndError1 call.hitPtr call.iHit call.tsos s with
        | error e => simp [hfill] at h
        | ok r1 => simp only [hfill] at h; exact ⟨r1.1, r1.2, rfl, h⟩
      | false =>
        simp only [hu, Bool.false_eq_true, if_false] at h ⊢
        cases hfill : fillMeasurementAndError2 parError call.hitPtr call.iHit call.tsos s with
        | error e => simp [hfill] at h
        | ok r1 => simp only [hfill] at h; exact ⟨r1.1, r1.2, rfl, h⟩
    obtain ⟨ok, s1, hfill, h⟩ := hstep
    have hone := fill_onlySlot parError call s s1 ok
      (hslots call (List.mem_cons_self _ _)) hfill
    obtain ⟨hmeas, hcov, hcross, -, -⟩ :=
      ih s1 s' (fun c hc => hslots c (List.mem_cons_of_mem _ hc)) h
    have hcross' : ∀ r c, r / 2 ≠ c / 2 →
        s'.theMeasurementsCov.entry r c = s.theMeasurementsCov.entry r c := by
      intro r c hrc
      rw [hcross r c hrc]
      exact hone.entry r c (fun hh => hrc (hh.1.trans hh.2.symm))
    refine ⟨?_, ?_, hcross', ?_, ?_⟩
    · intro k hk
      rw [hmeas k (fun c hc => hk c (List.mem_cons_of_mem _ hc))]
      have := hk call (List.mem_cons_self _ _)
      exact hone.2.1 k (by omega)
    · intro r c hrc
      rw [hcov r c (fun c' hc' => hrc c' (List.mem_cons_of_mem _ hc'))]
      have := hrc call (List.mem_cons_self _ _)
      exact hone.entry r c (fun hh => this ⟨by omega, by omega⟩)
    · intro hbd r c hrc
      rw [hcross' r c hrc]
      exact hbd r c hrc
    · intro n hn r c hrc
      rw [hcross' r c hrc, hn]
      simp [HepSymMatrix.entry, HepSymMatrix.ofInit]

/-- The Unbiased fill at a slot inside the containers: `false` and `writtenState`. -/
theorem fillMeasurementAndError1_eq (hitPtr : TransientTrackingRecHit) (iHit : Nat)
    (tsos : TrajectoryStateOnSurface) (s : DualKalmanTrajectory)
    (h32 : 2 * iHit + 1 < 4294967296)
    (hm : 2 * iHit + 1 < s.theMeasurements.nrow)
    (hc : 2 * iHit + 1 < s.theMeasurementsCov.nrow) :
    fillMeasurementAndError1 hitPtr iHit tsos s =
      .ok (false, writtenState hitPtr.localPosition
        ⟨hitPtr.localPositionError.xx + tsos.positionError.xx,
         hitPtr.localPositionError.xy + tsos.positionError.xy,
         hitPtr.localPositionError.yy + tsos.positionError.yy⟩ iHit s) := by
  simp only [fillMeasurementAndError1, bind, Except.bind, pure, Except.pure,
    writeMeasurementAndError_eq _ _ iHit s h32 hm hc]

/-- Two fills in a row on the example containers: an Unbiased one at slot `2`, then a
PullBased one at slot `1`. -/
theorem example_applyFills :
    applyFills exampleParError
      [⟨true, exampleHit 7, 2, exampleTsos true 3⟩,
       ⟨false, exampleHitWithAPE 7, 1, exampleTsos true 2⟩] exampleState =
      .ok (writtenState (exampleHitWithAPE 7).localPosition ⟨4 + 1 - 2, 1 - 0, 4 + 1 - 2⟩ 1
        (writtenState (exampleHit 7).localPosition ⟨4 + 3, 1 + 0, 4 + 3⟩ 2 exampleState)) := by
  have h1 := fillMeasurementAndError1_eq (exampleHit 7) 2 (exampleTsos true 3) exampleState
    (by decide) (by decide) (by decide)
  have h2 := fillMeasurementAndError2_eq exampleParError (exampleHitWithAPE 7) 1
    (exampleTsos true 2)
    (writtenState (exampleHit 7).localPosition ⟨4 + 3, 1 + 0, 4 + 3⟩ 2 exampleState)
    ⟨4 + 1, 1, 4 + 1⟩ rfl (by decide) (by decide) (by decide) (by norm_num [exampleTsos])
  simp only [applyFills, bind, Except.bind, pure, Except.pure, if_true, Bool.false_eq_true,
    if_false]
  rw [h1]
  simp only []
  erw [h2]
  rfl

theorem fills_blockDiagonal_witness :
    BlockDiagonal (writtenState (exampleHitWithAPE 7).localPosition
      ⟨4 + 1 - 2, 1 - 0, 4 + 1 - 2⟩ 1
      (writtenState (exampleHit 7).localPosition ⟨4 + 3, 1 + 0, 4 + 3⟩ 2
        exampleState)).theMeasurementsCov :=
  (fills_blockDiagonal exampleParError _ exampleState _
    (fun call hcall => by
      simp only [List.mem_cons, List.mem_singleton, List.not_mem_nil, or_false] at hcall
      rcases hcall with rfl | rfl <;> decide)
    example_applyFills).2.2.2.2 _ rfl

/-- An iteration of the fill loop that returns has written only its slot. -/
theorem processHit_onlySlot (env : Collaborators) (trajMeasurements : List TrajectoryMeasurement)
    (residualMethod : Int) (n iHit : Nat) (s s' : DualKalmanTrajectory) (ok : Bool)
    (h32 : 2 * iHit + 1 < 4294967296)
    (h : processHit env trajMeasurements residualMethod n iHit s = .ok (ok, s')) :
    OnlySlot iHit s s' := by
  unfold processHit at h
  cases htm : trajMeasurements[n]? with
  | none => simp [htm] at h
  | some tm =>
    simp only [htm, bind, Except.bind, pure, Except.pure] at h
    generalize (if residualMethod = 1 then
      env.tsosComb tm.forwardPredictedState tm.backwardPredictedState
      else tm.updatedState) = tsos at h
    cases hv : tsos.isValid with
    | false =>
      simp only [hv, Bool.not_false, if_true] at h
      cases h
      exact onlySlot_refl _ _
    | true =>
      simp only [hv, Bool.not_true, Bool.false_eq_true, if_false] at h
      have hpush : OnlySlot iHit s { s with theTsosVec := s.theTsosVec ++ [tsos] } :=
        ⟨⟨rfl, rfl, rfl, rfl, rfl, rfl, rfl⟩, fun _ _ => rfl, fun _ _ => rfl,
          fun _ _ _ => rfl⟩
      by_cases h1 : residualMethod = 1
      · rw [if_pos h1] at h
        cases hfill : fillMeasurementAndError1 tm.recHit iHit tsos
            { s with theTsosVec := s.theTsosVec ++ [tsos] } with
        | error e => simp [hfill] at h
        | ok r =>
          obtain ⟨ok1, s2⟩ := r
          obtain ⟨hfalse, hst⟩ := fillMeasurementAndError1_of_ok _ _ _ _ _ _ h32 hfill
          subst hfalse
          simp only [hfill, Bool.not_false, if_true] at h
          cases h
          rw [hst]
          exact onlySlot_trans hpush (writtenState_onlySlot _ _ _ _)
      · rw [if_neg h1] at h
        cases hfill : fillMeasurementAndError2 env.parError tm.recHit iHit tsos
            { s with theTsosVec := s.theTsosVec ++ [tsos] } with
        | error e => simp [hfill] at h
        | ok r =>
          obtain ⟨ok1, s2⟩ := r
          obtain ⟨H, -, hcase⟩ := fillMeasurementAndError2_of_ok _ _ _ _ _ _ _ h32 hfill
          simp only [hfill] at h
          rcases hcase with ⟨hfalse, hst, -⟩ | ⟨htrue, -, hst⟩
          · subst hfalse
            simp only [Bool.not_false, if_true] at h
            cases h
            rw [hst]
            exact hpush
          · subst htrue
            simp only [Bool.not_true, Bool.false_eq_true, if_false] at h
            cases hpos : fillTrajectoryPositions tm.recHit.projectionMatrix tsos iHit s2 with
            | error e => simp [hpos] at h
            | ok s3 =>
              simp only [hpos] at h
              cases h
              rw [fillTrajectoryPositions_of_ok _ _ _ _ _ h32 hpos, hst]
              exact onlySlot_trans (onlySlot_trans hpush (writtenState_onlySlot _ _ _ _))
                (positionedState_onlySlot _ _ _ _)

/-- A run of the fill loop over a schedule keeps the measurement and trajectory-position
entries of every slot that is not in the schedule. -/
theorem runSchedule_frame (env : Collaborators) (trajMeasurements : List TrajectoryMeasurement)
    (residualMethod : Int) :
    ∀ (sched : List (Nat × Nat)) (s s' : DualKalmanTrajectory) (ok : Bool),
      (∀ p ∈ sched, 2 * p.2 + 1 < 4294967296) →
      runSchedule env trajMeasurements residualMethod sched s = .ok (ok, s') →
      ∀ k, (∀ p ∈ sched, k / 2 ≠ p.2) →
        s'.theMeasurements.elem k = s.theMeasurements.elem k ∧
        s'.theTrajectoryPositions.elem k = s.theTrajectoryPositions.elem k := by
  intro sched
  induction sched with
  | nil =>
    intro s s' ok _ h k _
    cases h
    exact ⟨rfl, rfl⟩
  | cons p rest ih =>
    intro s s' ok h32 h k hk
    obtain ⟨n, iHit⟩ := p
    simp only [runSchedule, bind, Except.bind, pure, Except.pure] at h
    cases hproc : processHit env trajMeasurements residualMethod n iHit s with
    | error e => simp [hproc] at h
    | ok r =>
      obtain ⟨ok1, s1⟩ := r
      have hone := processHit_onlySlot env trajMeasurements residualMethod n iHit s s1 ok1
        (h32 (n, iHit) (List.mem_cons_self _ _)) hproc
      have hk0 : k / 2 ≠ iHit := hk (n, iHit) (List.mem_cons_self _ _)
      simp only [hproc] at h
      cases ok1 with
      | false =>
        simp only [Bool.not_false, if_true] at h
        cases h
        exact ⟨hone.2.1 k hk0, hone.2.2.1 k hk0⟩
      | true =>
        simp only [Bool.not_true, Bool.false_eq_true, if_false] at h
        obtain ⟨h1, h2⟩ := ih s1 s' ok (fun q hq => h32 q (List.mem_cons_of_mem _ hq)) h k
          (fun q hq => hk q (List.mem_cons_of_mem _ hq))
        exact ⟨h1.trans (hone.2.1 k hk0), h2.trans (hone.2.2.1 k hk0)⟩

/-- The state `pullSteps` keeps the measurement and trajectory-position entries of every slot
that is not in the schedule. -/
theorem pullSteps_frame (env : Collaborators) (trajMeasurements : List TrajectoryMeasurement) :
    ∀ (sched : List (Nat × Nat)) (s : DualKalmanTrajectory) (k : Nat),
      (∀ p ∈ sched, k / 2 ≠ p.2) →
      (pullSteps env trajMeasurements sched s).theMeasurements.elem k =
          s.theMeasurements.elem k ∧
      (pullSteps env trajMeasurements sched s).theTrajectoryPositions.elem k =
          s.theTrajectoryPositions.elem k := by
  intro sched
  induction sched with
  | nil => intro s k _; exact ⟨rfl, rfl⟩
  | cons p rest ih =>
    intro s k hk
    obtain ⟨n, iHit⟩ := p
    cases htm : trajMeasurements[n]? with
    | none => simp [pullSteps, htm]
    | some tm =>
      cases hH : hitErrWithAPE env.parError tm.recHit with
      | error e => simp [pullSteps, htm, hH]
      | ok H =>
        simp only [pullSteps, htm, hH]
        have hk0 : k / 2 ≠ iHit := hk (n, iHit) (List.mem_cons_self _ _)
        have hone := pullStep_onlySlot tm H iHit s
        obtain ⟨h1, h2⟩ := ih (pullStep tm H iHit s) k
          (fun q hq => hk q (List.mem_cons_of_mem _ hq))
        exact ⟨h1.trans (hone.2.1 k hk0), h2.trans (hone.2.2.1 k hk0)⟩

/-- The entries that `pullStep` writes at its slot. -/
theorem pullStep_entries (tm : TrajectoryMeasurement) (H : LocalError) (iHit : Nat)
    (s : DualKalmanTrajectory) :
    (pullStep tm H iHit s).theMeasurements.elem (2 * iHit) = tm.recHit.localPosition.x ∧
    (pullStep tm H iHit s).theMeasurements.elem (2 * iHit + 1) = tm.recHit.localPosition.y ∧
    (pullStep tm H iHit s).theTrajectoryPositions.elem (2 * iHit) =
      ∑ j in Finset.range 5, tm.recHit.projectionMatrix.elem 0 j *
        (asHepVector5 tm.updatedState.mixedFormatVector).elem j ∧
    (pullStep tm H iHit s).theTrajectoryPositions.elem (2 * iHit + 1) =
      ∑ j in Finset.range 5, tm.recHit.projectionMatrix.elem 1 j *
        (asHepVector5 tm.updatedState.mixedFormatVector).elem j := by
  simp [pullStep, positionedState, writtenState]

/-- In the state `pullSteps` of a schedule with distinct slots whose measurements all pass,
the slot of each pair holds the local position of the hit of its measurement and the
projected position of its updated state. -/
theorem pullSteps_slot (env : Collaborators) (trajMeasurements : List TrajectoryMeasurement) :
    ∀ (sched : List (Nat × Nat)) (s : DualKalmanTrajectory),
      (sched.map Prod.snd).Nodup → SchedPasses env trajMeasurements sched →
      ∀ p ∈ sched, ∀ tm, trajMeasurements[p.1]? = some tm →
        (pullSteps env trajMeasurements sched s).theMeasurements.elem (2 * p.2) =
          tm.recHit.localPosition.x ∧
        (pullSteps env trajMeasurements sched s).theMeasurements.elem (2 * p.2 + 1) =
          tm.recHit.localPosition.y ∧
        (pullSteps env trajMeasurements sched s).theTrajectoryPositions.elem (2 * p.2) =
          ∑ j in Finset.range 5, tm.recHit.projectionMatrix.elem 0 j *
            (asHepVector5 tm.updatedState.mixedFormatVector).elem j ∧
        (pullSteps env trajMeasurements sched s).theTrajectoryPositions.elem (2 * p.2 + 1) =
          ∑ j in Finset.range 5, tm.recHit.projectionMatrix.elem 1 j *
            (asHepVector5 tm.updatedState.mixedFormatVector).elem j := by
  intro sched
  induction sched with
  | nil => intro s _ _ p hp; cases hp
  | cons q rest ih =>
    intro s hnd hpass p hp tm htm
    obtain ⟨n, iHit⟩ := q
    simp only [List.map_cons, List.nodup_cons] at hnd
    obtain ⟨tmq, htmq, -, Hq, hHq, -⟩ := hpass (n, iHit) (List.mem_cons_self _ _)
    have hrest : SchedPasses env trajMeasurements rest :=
      fun r hr => hpass r (List.mem_cons_of_mem _ hr)
    simp only [pullSteps, htmq, hHq]
    rcases List.mem_cons.mp hp with rfl | hp'
    · simp only [] at htm
      rw [htmq] at htm
      cases htm
      have hnot : ∀ r ∈ rest, iHit ≠ r.2 :=
        fun r hr heq => hnd.1 (heq ▸ List.mem_map_of_mem Prod.snd hr)
      obtain ⟨a1, a2⟩ := pullSteps_frame env trajMeasurements rest (pullStep tm Hq iHit s)
        (2 * iHit) (fun r hr => by have := hnot r hr; omega)
      obtain ⟨b1, b2⟩ := pullSteps_frame env trajMeasurements rest (pullStep tm Hq iHit s)
        (2 * iHit + 1) (fun r hr => by have := hnot r hr; omega)
      obtain ⟨e1, e2, e3, e4⟩ := pullStep_entries tm Hq iHit s
      exact ⟨a1.trans e1, b1.trans e2, a2.trans e3, b2.trans e4⟩
    · exact ih (pullStep tmq Hq iHit s) hnd.2 hrest p hp' tm htm

/-- A schedule with the hit numbers `L` and the slots `0, 1, ...` pairs the hit number at
position `i` with the slot `i`. -/
theorem mem_sched_of_get (sched : List (Nat × Nat)) (L : List Nat) (N : Nat)
    (h1 : sched.map Prod.fst = L) (h2 : sched.map Prod.snd = List.range N) (i n : Nat)
    (h : L[i]? = some n) : (n, i) ∈ sched := by
  have hlen : i < sched.length := by
    have := (List.getElem?_eq_some_iff.mp h).1
    rw [← h1, List.length_map] at this
    exact this
  have hfst : (sched[i]).1 = n := by
    have : (sched.map Prod.fst)[i]? = some n := by rw [h1]; exact h
    rw [List.getElem?_map, List.getElem?_eq_getElem hlen] at this
    simpa using this
  have hN : i < N := by
    have : (sched.map Prod.snd).length = N := by rw [h2, List.length_range]
    rw [List.length_map] at this
    omega
  have hsnd : (sched[i]).2 = i := by
    have : (sched.map Prod.snd)[i]? = some i := by
      rw [h2]; exact List.getElem?_range hN
    rw [List.getElem?_map, List.getElem?_eq_getElem hlen] at this
    simpa using this
  have : sched[i] = (n, i) := Prod.ext hfst hsnd
  rw [← this]
  exact List.getElem_mem hlen

/-- The hits that the single-direction `construct` collects: the hit at position `i` is the
hit of the measurement with the hit number at position `i`. -/
theorem collectRecHits_get (trajMeasurements : List TrajectoryMeasurement) :
    ∀ (recHitNums : List Nat) (hits : List TransientTrackingRecHit),
      collectRecHits trajMeasurements recHitNums = .ok hits →
      ∀ (i n : Nat), recHitNums[i]? = some n →
        ∃ tm, trajMeasurements[n]? = some tm ∧ hits[i]? = some tm.recHit := by
  intro recHitNums
  induction recHitNums with
  | nil => intro hits _ i n h; simp at h
  | cons m rest ih =>
    intro hits hc i n h
    simp only [collectRecHits] at hc
    cases htm : trajMeasurements[m]? with
    | none => simp [htm] at hc
    | some tm =>
      simp only [htm, bind, Except.bind, pure, Except.pure] at hc
      cases hr : collectRecHits trajMeasurements rest with
      | error e => simp [hr] at hc
      | ok restHits =>
        simp only [hr] at hc
        cases hc
        cases i with
        | zero =>
          simp only [List.getElem?_cons_zero, Option.some.injEq] at h
          subst h
          exact ⟨tm, htm, List.getElem?_cons_zero⟩
        | succ j =>
          simp only [List.getElem?_cons_succ] at h ⊢
          exact ih restHits hr j n h

/-- The backward pass does not read the first hit number of its list. -/
theorem fillKalmanPart_skips_first (env : Collaborators)
    (trajMeasurements : List TrajectoryMeasurement) (recHitNums : List Nat) (b iNextHit : Nat)
    (residualMethod : Int) (s : DualKalmanTrajectory) :
    fillKalmanPart env trajMeasurements (b :: recHitNums.tail) false iNextHit residualMethod s =
      fillKalmanPart env trajMeasurements recHitNums false iNextHit residualMethod s := by
  cases recHitNums with
  | nil => simp [fillKalmanPart]
  | cons b0 rest => simp [fillKalmanPart]

/-- The hit number at position `i` of the forward list followed by the backward list
without its first hit number. -/
theorem getElem?_forward_backward (F B : List Nat) (i : Nat) :
    (F ++ B.tail)[i]? = if i < F.length then F[i]? else B[i - F.length + 1]? := by
  split_ifs with h
  · exact List.getElem?_append_left h
  · rw [List.getElem?_append_right (by omega), ← List.drop_one, List.getElem?_drop,
      Nat.add_comm]

/-- C13: for selector `2`, valid single-direction results and measurements that all pass (in
a well-formed run), `construct` returns `true` with the state of the iterations over
`constructSchedule`, whose hit numbers are the forward list followed by the backward list
without its first hit number and whose slots are `0, 1, ..., nf+nb-2`, each once. Slot `i`
of the measurement vector holds the local position of the hit of
`trajMeasurements[F[i]]` for `i < nf` and of `trajMeasurements[B[i-nf+1]]` for
`nf ≤ i < nf+nb-1`; the backward pass does not read `B[0]`; and when the single-direction
results keep the collected hits in order, slot `i` holds the position of the hit at
position `i` of the combined hit list. -/
theorem construct_pull_slots (env : Collaborators)
    (trajMeasurements : List TrajectoryMeasurement)
    (refTsos : TrajectoryStateOnSurface) (forwardRecHitNums backwardRecHitNums : List Nat)
    (mass : ℚ) (materialEffects : MaterialEffects) (propDir : PropagationDirection)
    (magField : Nat) (s : DualKalmanTrajectory) (fwdTraj bwdTraj : ReferenceTrajectory)
    (hrun : WellFormedRun env trajMeasurements refTsos forwardRecHitNums backwardRecHitNums
      mass materialEffects propDir magField s fwdTraj bwdTraj)
    (hfv : fwdTraj.isValid = true) (hbv : bwdTraj.isValid = true)
    (hpass : ∀ n ∈ forwardRecHitNums ++ backwardRecHitNums.tail,
      ∃ tm, trajMeasurements[n]? = some tm ∧ PassesPullCheck env tm) :
    ∃ s1 s', combineTrajectories fwdTraj bwdTraj refTsos s = .ok s1 ∧
      construct env trajMeasurements refTsos forwardRecHitNums backwardRecHitNums mass
        materialEffects propDir magField 2 s = .ok (true, s') ∧
      s' = pullSteps env trajMeasurements
        (constructSchedule forwardRecHitNums backwardRecHitNums) s1 ∧
      (constructSchedule forwardRecHitNums backwardRecHitNums).map Prod.fst =
        forwardRecHitNums ++ backwardRecHitNums.tail ∧
      (constructSchedule forwardRecHitNums backwardRecHitNums).map Prod.snd =
        List.range (forwardRecHitNums.length + backwardRecHitNums.length - 1) ∧
      (∀ (i n : Nat), forwardRecHitNums[i]? = some n →
        ∃ tm, trajMeasurements[n]? = some tm ∧
          s'.theMeasurements.elem (2 * i) = tm.recHit.localPosition.x ∧
          s'.theMeasurements.elem (2 * i + 1) = tm.recHit.localPosition.y) ∧
      (∀ (i n : Nat), forwardRecHitNums.length ≤ i →
        backwardRecHitNums[i - forwardRecHitNums.length + 1]? = some n →
        ∃ tm, trajMeasurements[n]? = some tm ∧
          s'.theMeasurements.elem (2 * i) = tm.recHit.localPosition.x ∧
          s'.theMeasurements.elem (2 * i + 1) = tm.recHit.localPosition.y) ∧
      (∀ (b iNextHit : Nat) (st : DualKalmanTrajectory),
        fillKalmanPart env trajMeasurements (b :: backwardRecHitNums.tail) false iNextHit 2 st =
          fillKalmanPart env trajMeasurements backwardRecHitNums false iNextHit 2 st) ∧
      (collectRecHits trajMeasurements forwardRecHitNums = .ok fwdTraj.recHits →
        collectRecHits trajMeasurements backwardRecHitNums = .ok bwdTraj.recHits →
        ∀ i, i < forwardRecHitNums.length + backwardRecHitNums.length - 1 →
          ∃ hit, s'.theRecHits[i]? = some hit ∧
            s'.theMeasurements.elem (2 * i) = hit.localPosition.x ∧
            s'.theMeasurements.elem (2 * i + 1) = hit.localPosition.y) := by
  have hrun' := hrun
  obtain ⟨hf, hb, hfc, hbc, hnb, hsmall, hs, hff, hfb⟩ := hrun
  obtain ⟨s1, hcomb, hhits, -⟩ :=
    combineTrajectories_ok fwdTraj bwdTraj refTsos s _ _ hfc hbc hnb hsmall hs
  obtain ⟨hsf, hsi⟩ := constructSchedule_wellFormed env trajMeasurements refTsos
    forwardRecHitNums backwardRecHitNums mass materialEffects propDir magField s s1
    fwdTraj bwdTraj hrun' hcomb
  have hfst := constructSchedule_fst forwardRecHitNums backwardRecHitNums
  have hsnd := constructSchedule_snd forwardRecHitNums backwardRecHitNums hnb hsmall
  have hsp : SchedPasses env trajMeasurements
      (constructSchedule forwardRecHitNums backwardRecHitNums) := by
    rw [schedPasses_iff, hfst]; exact hpass
  obtain ⟨ok, s', hrunS, hsame, hiff, hst⟩ := runSchedule_pull env trajMeasurements _ s1 hsf hsi
  have hok : ok = true := hiff.mpr hsp
  subst hok
  have hs' := hst rfl
  have hnd : ((constructSchedule forwardRecHitNums backwardRecHitNums).map Prod.snd).Nodup := by
    rw [hsnd]; exact List.nodup_range _
  -- the content of the slot of the hit number at position `i` of the schedule
  have hslot : ∀ (i n : Nat), (forwardRecHitNums ++ backwardRecHitNums.tail)[i]? = some n →
      ∃ tm, trajMeasurements[n]? = some tm ∧
        s'.theMeasurements.elem (2 * i) = tm.recHit.localPosition.x ∧
        s'.theMeasurements.elem (2 * i + 1) = tm.recHit.localPosition.y := by
    intro i n hi
    have hmem := mem_sched_of_get _ _ _ hfst hsnd i n hi
    obtain ⟨tm, htm, -⟩ := hsp (n, i) hmem
    obtain ⟨e1, e2, -, -⟩ := pullSteps_slot env trajMeasurements _ s1 hnd hsp (n, i) hmem tm htm
    rw [hs']
    exact ⟨tm, htm, e1, e2⟩
  refine ⟨s1, s', hcomb, ?_, hs', hfst, hsnd, ?_, ?_, ?_, ?_⟩
  · rw [construct_eq_runSchedule env trajMeasurements refTsos forwardRecHitNums
      backwardRecHitNums mass materialEffects propDir magField 2 s s1 fwdTraj bwdTraj hf hb
      hfv hbv hcomb (Or.inr rfl)]
    exact hrunS
  · intro i n hi
    apply hslot i n
    have hlt := (List.getElem?_eq_some_iff.mp hi).1
    rw [getElem?_forward_backward, if_pos hlt]
    exact hi
  · intro i n hge hi
    apply hslot i n
    rw [getElem?_forward_backward, if_neg (by omega)]
    exact hi
  · intro b iNextHit st
    exact fillKalmanPart_skips_first env trajMeasurements backwardRecHitNums b iNextHit 2 st
  · intro hcf hcb i hi
    have hlenF : fwdTraj.recHits.length = forwardRecHitNums.length := hfc.1
    by_cases hlt : i < forwardRecHitNums.length
    · obtain ⟨n, hn⟩ : ∃ n, forwardRecHitNums[i]? = some n :=
        ⟨forwardRecHitNums[i], List.getElem?_eq_getElem hlt⟩
      obtain ⟨tm, htm, hhit⟩ := collectRecHits_get trajMeasurements _ _ hcf i n hn
      obtain ⟨tm', htm', e1, e2⟩ := hslot i n (by
        rw [getElem?_forward_backward, if_pos hlt]; exact hn)
      rw [htm] at htm'
      cases htm'
      refine ⟨tm.recHit, ?_, e1, e2⟩
      rw [hsame.1, hhits, List.getElem?_append_left (by omega)]
      exact hhit
    · have hj : i - forwardRecHitNums.length + 1 < backwardRecHitNums.length := by omega
      obtain ⟨n, hn⟩ : ∃ n, backwardRecHitNums[i - forwardRecHitNums.length + 1]? = some n :=
        ⟨backwardRecHitNums[i - forwardRecHitNums.length + 1], List.getElem?_eq_getElem hj⟩
      obtain ⟨tm, htm, hhit⟩ := collectRecHits_get trajMeasurements _ _ hcb _ n hn
      obtain ⟨tm', htm', e1, e2⟩ := hslot i n (by
        rw [getElem?_forward_backward, if_neg hlt]; exact hn)
      rw [htm] at htm'
      cases htm'
      refine ⟨tm.recHit, ?_, e1, e2⟩
      rw [hsame.1, hhits, List.getElem?_append_right (by omega), ← List.drop_one,
        List.getElem?_drop, hlenF, Nat.add_comm]
      exact hhit

/-- Every measurement of the example passes the PullBased processing. -/
theorem example_passes (fwdValid bwdValid : Bool) (scale : ℚ) :
    ∀ n ∈ exampleForward ++ exampleBackward.tail,
      ∃ tm, exampleMeasurements[n]? = some tm ∧
        PassesPullCheck (exampleEnv fwdValid bwdValid scale) tm := by
  intro n hn
  simp only [exampleForward, exampleBackward, List.tail_cons, List.cons_append,
    List.nil_append, List.mem_cons, List.mem_singleton, List.not_mem_nil, or_false] at hn
  rcases hn with rfl | rfl | rfl | rfl | rfl <;>
    exact ⟨_, rfl, rfl, ⟨4, 1, 4⟩, rfl, by
      norm_num [exampleMeasurements, exampleMeasurement, exampleTsos]⟩

theorem construct_pull_slots_witness :
    ∃ s', construct (exampleEnv true true 1) exampleMeasurements (exampleTsos true 1)
        exampleForward exampleBackward 1 .none .alongMomentum 0 2 exampleState =
          .ok (true, s') ∧
      s'.theMeasurements.elem (2 * 1) = (exampleHit 1).localPosition.x ∧
      s'.theMeasurements.elem (2 * 1 + 1) = (exampleHit 1).localPosition.y ∧
      s'.theMeasurements.elem (2 * 3) = (exampleHit 3).localPosition.x ∧
      s'.theMeasurements.elem (2 * 3 + 1) = (exampleHit 3).localPosition.y := by
  obtain ⟨_, s', _, hc, _, _, _, hfwd, hbwd, _⟩ :=
    construct_pull_slots (exampleEnv true true 1) exampleMeasurements (exampleTsos true 1)
      exampleForward exampleBackward 1 .none .alongMomentum 0 exampleState
      (exampleFwdTraj true true 1) (exampleBwdTraj true true 1)
      (example_wellFormedRun true true 1) rfl rfl (example_passes true true 1)
  obtain ⟨tm1, h1, x1, y1⟩ := hfwd 1 1 rfl
  obtain ⟨tm3, h3, x3, y3⟩ := hbwd 3 3 (by decide) rfl
  have e1 : exampleMeasurement 1 = tm1 := Option.some.inj h1
  have e3 : exampleMeasurement 3 = tm3 := Option.some.inj h3
  subst e1 e3
  exact ⟨s', hc, x1, y1, x3, y3⟩

/-- C16: in a well-formed run (containers sized for `nf + nb - 1` hits, `nf ≥ 1`, `nb ≥ 1`)
with valid single-direction results and a recognized selector, `construct` is the fill loop
over the slots `0, 1, ..., nf+nb-2`; every slot `iHit` of the two passes satisfies
`2*iHit + 1 < 2*(nf+nb-1)`, the size of the three containers, the largest one is
`nf+nb-2`, an iteration writes only its slot, and `construct` returns (no access leaves a
container). -/
theorem fill_passes_in_range (env : Collaborators)
    (trajMeasurements : List TrajectoryMeasurement)
    (refTsos : TrajectoryStateOnSurface) (forwardRecHitNums backwardRecHitNums : List Nat)
    (mass : ℚ) (materialEffects : MaterialEffects) (propDir : PropagationDirection)
    (magField : Nat) (residualMethod : Int) (s : DualKalmanTrajectory)
    (fwdTraj bwdTraj : ReferenceTrajectory)
    (hrun : WellFormedRun env trajMeasurements refTsos forwardRecHitNums backwardRecHitNums
      mass materialEffects propDir magField s fwdTraj bwdTraj)
    (hfv : fwdTraj.isValid = true) (hbv : bwdTraj.isValid = true)
    (hm : residualMethod = 1 ∨ residualMethod = 2)
    (hnf : 1 ≤ forwardRecHitNums.length) :
    (constructSchedule forwardRecHitNums backwardRecHitNums).map Prod.snd =
      List.range (forwardRecHitNums.length + backwardRecHitNums.length - 1) ∧
    (∀ p ∈ constructSchedule forwardRecHitNums backwardRecHitNums,
      2 * p.2 + 1 < 2 * (forwardRecHitNums.length + backwardRecHitNums.length - 1) ∧
      p.2 ≤ forwardRecHitNums.length + backwardRecHitNums.length - 2) ∧
    forwardRecHitNums.length + backwardRecHitNums.length - 2 ∈
      (constructSchedule forwardRecHitNums backwardRecHitNums).map Prod.snd ∧
    (∀ n iHit st ok st', 2 * iHit + 1 < 4294967296 →
      processHit env trajMeasurements residualMethod n iHit st = .ok (ok, st') →
      OnlySlot iHit st st') ∧
    ∃ s1 ok s', combineTrajectories fwdTraj bwdTraj refTsos s = .ok s1 ∧
      s1.theMeasurements.nrow =
        2 * (forwardRecHitNums.length + backwardRecHitNums.length - 1) ∧
      s1.theMeasurementsCov.nrow =
        2 * (forwardRecHitNums.length + backwardRecHitNums.length - 1) ∧
      s1.theTrajectoryPositions.nrow =
        2 * (forwardRecHitNums.length + backwardRecHitNums.length - 1) ∧
      construct env trajMeasurements refTsos forwardRecHitNums backwardRecHitNums mass
        materialEffects propDir magField residualMethod s =
          runSchedule env trajMeasurements residualMethod
            (constructSchedule forwardRecHitNums backwardRecHitNums) s1 ∧
      construct env trajMeasurements refTsos forwardRecHitNums backwardRecHitNums mass
        materialEffects propDir magField residualMethod s = .ok (ok, s') := by
  obtain ⟨s1, ok, s', hcomb, hcons, -⟩ := construct_returns env trajMeasurements refTsos
    forwardRecHitNums backwardRecHitNums mass materialEffects propDir magField residualMethod s
    fwdTraj bwdTraj hrun hfv hbv hm
  obtain ⟨hf, hb, hfc, hbc, hnb, hsmall, hs, -, -⟩ := hrun
  obtain ⟨s1', hcomb', -, -, -, -, -, -, -, -, hm1, hm2, hm3⟩ :=
    combineTrajectories_ok fwdTraj bwdTraj refTsos s _ _ hfc hbc hnb hsmall hs
  rw [hcomb] at hcomb'
  cases hcomb'
  obtain ⟨-, hs2, hs3, hs4, -, -⟩ := hs
  have hsnd := constructSchedule_snd forwardRecHitNums backwardRecHitNums hnb hsmall
  refine ⟨hsnd, ?_, ?_, ?_, s1, ok, s', hcomb, by rw [hm1, hs2], by rw [hm2, hs3],
    by rw [hm3, hs4], ?_, hcons⟩
  · intro p hp
    have hmem : p.2 ∈ List.range
        (forwardRecHitNums.length + backwardRecHitNums.length - 1) := by
      rw [← hsnd]; exact List.mem_map_of_mem Prod.snd hp
    have hlt := List.mem_range.mp hmem
    exact ⟨by omega, by omega⟩
  · rw [hsnd, List.mem_range]; omega
  · intro n iHit st ok' st' h32 hproc
    exact processHit_onlySlot env trajMeasurements residualMethod n iHit st st' ok' h32 hproc
  · exact construct_eq_runSchedule env trajMeasurements refTsos forwardRecHitNums
      backwardRecHitNums mass materialEffects propDir magField residualMethod s s1 fwdTraj
      bwdTraj hf hb hfv hbv hcomb hm

theorem fill_passes_in_range_witness :
    (constructSchedule exampleForward exampleBackward).map Prod.snd = List.range (3 + 3 - 1) ∧
    (∀ p ∈ constructSchedule exampleForward exampleBackward,
      2 * p.2 + 1 < 2 * (3 + 3 - 1) ∧ p.2 ≤ 3 + 3 - 2) ∧
    3 + 3 - 2 ∈ (constructSchedule exampleForward exampleBackward).map Prod.snd :=
  let h := fill_passes_in_range (exampleEnv true true 1) exampleMeasurements
    (exampleTsos true 1) exampleForward exampleBackward 1 .none .alongMomentum 0 2 exampleState
    (exampleFwdTraj true true 1) (exampleBwdTraj true true 1)
    (example_wellFormedRun true true 1) rfl rfl (Or.inr rfl) (by decide)
  ⟨h.1, h.2.1, h.2.2.1⟩

/-- The schedule of a list in two parts. -/
theorem fillSchedule_append : ∀ (a b : List Nat) (iNextHit : Nat),
    iNextHit + a.length < 4294967296 →
    fillSchedule (a ++ b) iNextHit =
      fillSchedule a iNextHit ++ fillSchedule b (iNextHit + a.length) := by
  intro a
  induction a with
  | nil => intro b i _; rfl
  | cons n rest ih =>
    intro b i hi
    simp only [List.length_cons] at hi
    have e : u32 (i + 1) = i + 1 := u32_of_lt (by omega)
    simp only [List.cons_append, fillSchedule, e, List.length_cons]
    have hrec := ih b (i + 1) (by omega)
    have : i + 1 + rest.length = i + (rest.length + 1) := by omega
    rw [this] at hrec
    exact congrArg _ hrec

/-- The schedule of a list of hits that can be processed, from a slot such that all its
slots lie inside the containers: the hits of the schedule can be processed, its slots lie
inside the containers and between `iNextHit` and `iNextHit + length`. -/
theorem fillSchedule_wellFormed (env : Collaborators)
    (trajMeasurements : List TrajectoryMeasurement) (recHitNums : List Nat) (iNextHit : Nat)
    (s : DualKalmanTrajectory) (hfill : FillableList env trajMeasurements recHitNums)
    (h32 : 2 * (iNextHit + recHitNums.length) ≤ 4294967296)
    (hm : 2 * (iNextHit + recHitNums.length) ≤ s.theMeasurements.nrow)
    (hc : 2 * (iNextHit + recHitNums.length) ≤ s.theMeasurementsCov.nrow)
    (hp : 2 * (iNextHit + recHitNums.length) ≤ s.theTrajectoryPositions.nrow) :
    SchedFillable env trajMeasurements (fillSchedule recHitNums iNextHit) ∧
    SchedInRange (fillSchedule recHitNums iNextHit) s ∧
    ∀ p ∈ fillSchedule recHitNums iNextHit,
      iNextHit ≤ p.2 ∧ p.2 < iNextHit + recHitNums.length := by
  have hslots : ∀ p ∈ fillSchedule recHitNums iNextHit,
      iNextHit ≤ p.2 ∧ p.2 < iNextHit + recHitNums.length := by
    intro p hp'
    have hmem : p.2 ∈ List.range' iNextHit recHitNums.length := by
      rw [← fillSchedule_snd recHitNums iNextHit (by omega)]
      exact List.mem_map_of_mem Prod.snd hp'
    have := List.mem_range'_1.mp hmem
    exact this
  refine ⟨?_, ?_, hslots⟩
  · intro p hp'
    have hmem : p.1 ∈ recHitNums := by
      rw [← fillSchedule_fst recHitNums iNextHit]
      exact List.mem_map_of_mem Prod.fst hp'
    exact hfill p.1 hmem
  · intro p hp'
    have := hslots p hp'
    exact ⟨by omega, by omega, by omega, by omega⟩

/-- The projected position of the example states at the example hits: the parameters `3`
and `4`, that is `4` and `5`. -/
theorem example_projection (valid : Bool) (e : ℚ) :
    (∑ j in Finset.range 5, exampleProjection.elem 0 j *
      (asHepVector5 (exampleTsos valid e).mixedFormatVector).elem j) = 4 ∧
    (∑ j in Finset.range 5, exampleProjection.elem 1 j *
      (asHepVector5 (exampleTsos valid e).mixedFormatVector).elem j) = 5 := by
  constructor <;>
    simp [Finset.sum_range_succ, exampleProjection, asHepVector5, exampleTsos] <;> norm_num

/-- C12, counterexample: a hit with a valid state that `fillKalmanPart` processes at slot `0`
without setting the trajectory position. Under selector `1` (valid combined state) and
under selector `2` (valid updated state whose position error exceeds the hit error) the
call returns `false` and entry `0` of the trajectory positions is still `0`, while the
first component of `projection * parameters` is `4`. -/
theorem fillKalmanPart_positions_counterexample :
    (((exampleEnv true true 1).tsosComb (exampleMeasurement 0).forwardPredictedState
        (exampleMeasurement 0).backwardPredictedState).isValid = true ∧
      (∑ j in Finset.range 5, (exampleMeasurement 0).recHit.projectionMatrix.elem 0 j *
        (asHepVector5 ((exampleEnv true true 1).tsosComb
          (exampleMeasurement 0).forwardPredictedState
          (exampleMeasurement 0).backwardPredictedState).mixedFormatVector).elem j) = 4 ∧
      ∃ s', fillKalmanPart (exampleEnv true true 1) [exampleMeasurement 0] [0] true 0 1
          exampleState = .ok (false, s') ∧
        s'.theTrajectoryPositions.elem (2 * 0) = 0) ∧
    ((exampleTightMeasurement 0).updatedState.isValid = true ∧
      (∑ j in Finset.range 5, (exampleTightMeasurement 0).recHit.projectionMatrix.elem 0 j *
        (asHepVector5 (exampleTightMeasurement 0).updatedState.mixedFormatVector).elem j) = 4 ∧
      ∃ s', fillKalmanPart (exampleEnv true true 1) [exampleTightMeasurement 0] [0] true 0 2
          exampleState = .ok (false, s') ∧
        s'.theTrajectoryPositions.elem (2 * 0) = 0) :=
  ⟨⟨rfl, (example_projection true 2).1, _, rfl, rfl⟩,
   ⟨rfl, (example_projection true 6).1, _, rfl, rfl⟩⟩

/-- C12, amended: under selector `2`, a hit of the list that `fillKalmanPart` reaches (every
measurement before it passes) and whose measurement passes itself (valid updated state,
covariance check) has, when the call returns, the first two components of
`projection * (local parameters of the updated state)` in the trajectory-position entries
`2i`, `2i+1` of its slot `i`. The routine `fillTrajectoryPositions` that writes them has no
method argument: for every state it writes these two components. -/
theorem fillKalmanPart_pull_positions (env : Collaborators)
    (trajMeasurements : List TrajectoryMeasurement) (pre rest : List Nat) (n iNextHit : Nat)
    (s : DualKalmanTrajectory) (tm : TrajectoryMeasurement)
    (hfill : FillableList env trajMeasurements (pre ++ n :: rest))
    (h32 : 2 * (iNextHit + (pre ++ n :: rest).length) ≤ 4294967296)
    (hm : 2 * (iNextHit + (pre ++ n :: rest).length) ≤ s.theMeasurements.nrow)
    (hc : 2 * (iNextHit + (pre ++ n :: rest).length) ≤ s.theMeasurementsCov.nrow)
    (hp : 2 * (iNextHit + (pre ++ n :: rest).length) ≤ s.theTrajectoryPositions.nrow)
    (hpre : ∀ k ∈ pre, ∃ tm', trajMeasurements[k]? = some tm' ∧ PassesPullCheck env tm')
    (htm : trajMeasurements[n]? = some tm) (hpass : PassesPullCheck env tm) :
    (∃ ok s', fillKalmanPart env trajMeasurements (pre ++ n :: rest) true iNextHit 2 s =
        .ok (ok, s') ∧
      s'.theTrajectoryPositions.elem (2 * (iNextHit + pre.length)) =
        ∑ j in Finset.range 5, tm.recHit.projectionMatrix.elem 0 j *
          (asHepVector5 tm.updatedState.mixedFormatVector).elem j ∧
      s'.theTrajectoryPositions.elem (2 * (iNextHit + pre.length) + 1) =
        ∑ j in Finset.range 5, tm.recHit.projectionMatrix.elem 1 j *
          (asHepVector5 tm.updatedState.mixedFormatVector).elem j) ∧
    (∀ (tsos : TrajectoryStateOnSurface) (iHit : Nat) (st : DualKalmanTrajectory),
      2 * iHit + 1 < 4294967296 → 2 * iHit + 1 < st.theTrajectoryPositions.nrow →
      ∃ st', fillTrajectoryPositions tm.recHit.projectionMatrix tsos iHit st = .ok st' ∧
        st'.theTrajectoryPositions.elem (2 * iHit) =
          ∑ j in Finset.range 5, tm.recHit.projectionMatrix.elem 0 j *
            (asHepVector5 tsos.mixedFormatVector).elem j ∧
        st'.theTrajectoryPositions.elem (2 * iHit + 1) =
          ∑ j in Finset.range 5, tm.recHit.projectionMatrix.elem 1 j *
            (asHepVector5 tsos.mixedFormatVector).elem j) := by
  have hlen : (pre ++ n :: rest).length = pre.length + 1 + rest.length := by
    simp only [List.length_append, List.length_cons]; omega
  rw [hlen] at h32 hm hc hp
  obtain ⟨tm0, htm0, hfh⟩ := hfill n (by simp)
  rw [htm] at htm0
  cases htm0
  constructor
  · -- the list in two parts: up to the hit, and after it
    have hsplit : fillSchedule (pre ++ n :: rest) iNextHit =
        fillSchedule (pre ++ [n]) iNextHit ++
          fillSchedule rest (iNextHit + (pre ++ [n]).length) := by
      have := fillSchedule_append (pre ++ [n]) rest iNextHit (by
        simp only [List.length_append, List.length_singleton]; omega)
      simpa using this
    have hA : fillSchedule (pre ++ [n]) iNextHit =
        fillSchedule pre iNextHit ++ [(n, iNextHit + pre.length)] := by
      rw [fillSchedule_append pre [n] iNextHit (by omega)]
      rfl
    have hfillA : FillableList env trajMeasurements (pre ++ [n]) := by
      intro k hk
      exact hfill k (by
        rcases List.mem_append.mp hk with h | h
        · exact List.mem_append.mpr (Or.inl h)
        · exact List.mem_append.mpr (Or.inr (List.mem_cons.mpr
            (Or.inl (List.mem_singleton.mp h)))))
    have hlenA : (pre ++ [n]).length = pre.length + 1 := by simp
    obtain ⟨hsfA, hsiA, hslotsA⟩ := fillSchedule_wellFormed env trajMeasurements (pre ++ [n])
      iNextHit s hfillA (by rw [hlenA]; omega) (by rw [hlenA]; omega) (by rw [hlenA]; omega)
      (by rw [hlenA]; omega)
    have hpassA : SchedPasses env trajMeasurements (fillSchedule (pre ++ [n]) iNextHit) := by
      rw [schedPasses_iff, fillSchedule_fst]
      intro k hk
      rcases List.mem_append.mp hk with h | h
      · exact hpre k h
      · rw [List.mem_singleton.mp h]; exact ⟨tm, htm, hpass⟩
    obtain ⟨okA, sA, hrunA, hsameA, hiffA, hstA⟩ :=
      runSchedule_pull env trajMeasurements _ s hsfA hsiA
    have hokA : okA = true := hiffA.mpr hpassA
    subst hokA
    have hsA := hstA rfl
    have hndA : ((fillSchedule (pre ++ [n]) iNextHit).map Prod.snd).Nodup := by
      rw [fillSchedule_snd _ _ (by rw [hlenA]; omega)]
      exact List.nodup_range' _ _
    have hmemA : (n, iNextHit + pre.length) ∈ fillSchedule (pre ++ [n]) iNextHit := by
      rw [hA]; simp
    obtain ⟨-, -, e3, e4⟩ := pullSteps_slot env trajMeasurements _ s hndA hpassA
      (n, iNextHit + pre.length) hmemA tm htm
    rw [← hsA] at e3 e4
    -- the hits after it
    have hfillB : FillableList env trajMeasurements rest :=
      fun k hk => hfill k (List.mem_append.mpr (Or.inr (List.mem_cons_of_mem _ hk)))
    obtain ⟨hsfB, hsiB, hslotsB⟩ := fillSchedule_wellFormed env trajMeasurements rest
      (iNextHit + (pre ++ [n]).length) sA hfillB (by rw [hlenA]; omega)
      (by rw [hlenA, hsameA.2.2.2.2.1]; omega) (by rw [hlenA, hsameA.2.2.2.2.2.1]; omega)
      (by rw [hlenA, hsameA.2.2.2.2.2.2]; omega)
    obtain ⟨okB, sB, hrunB, -, -, -⟩ := runSchedule_pull env trajMeasurements _ sA hsfB hsiB
    have hframe := runSchedule_frame env trajMeasurements 2 _ sA sB okB
      (fun p hp' => (hsiB p hp').1) hrunB
    have hkeep0 := (hframe (2 * (iNextHit + pre.length)) (fun p hp' => by
      have := (hslotsB p hp').1
      rw [hlenA] at this
      omega)).2
    have hkeep1 := (hframe (2 * (iNextHit + pre.length) + 1) (fun p hp' => by
      have := (hslotsB p hp').1
      rw [hlenA] at this
      omega)).2
    refine ⟨okB, sB, ?_, hkeep0.trans e3, hkeep1.trans e4⟩
    rw [fillKalmanPart_eq_loop _ _ _ _ _ _ _ (Or.inr rfl), fillKalmanLoop_eq_runSchedule]
    simp only [if_true, List.drop_zero]
    rw [hsplit, runSchedule_append, hrunA]
    exact hrunB
  · intro tsos iHit st h32' hp'
    refine ⟨positionedState tm.recHit.projectionMatrix tsos iHit st,
      fillTrajectoryPositions_positioned _ _ iHit st hfh.1 hfh.2.1 h32' hp', ?_, ?_⟩
    · simp [positionedState]
    · simp [positionedState]

/-- The measurements `exampleMeasurement k` pass the PullBased processing. -/
theorem exampleMeasurement_passes (fwdValid bwdValid : Bool) (scale k : ℚ) :
    PassesPullCheck (exampleEnv fwdValid bwdValid scale) (exampleMeasurement k) :=
  ⟨rfl, ⟨4, 1, 4⟩, rfl, by norm_num [exampleMeasurement, exampleTsos]⟩

theorem fillKalmanPart_pull_positions_witness :
    ∃ ok s', fillKalmanPart (exampleEnv true true 1) exampleMeasurements ([0] ++ 1 :: [2]) true
        0 2 exampleState = .ok (ok, s') ∧
      s'.theTrajectoryPositions.elem (2 * (0 + [0].length)) =
        ∑ j in Finset.range 5, (exampleMeasurement 1).recHit.projectionMatrix.elem 0 j *
          (asHepVector5 (exampleMeasurement 1).updatedState.mixedFormatVector).elem j ∧
      s'.theTrajectoryPositions.elem (2 * (0 + [0].length) + 1) =
        ∑ j in Finset.range 5, (exampleMeasurement 1).recHit.projectionMatrix.elem 1 j *
          (asHepVector5 (exampleMeasurement 1).updatedState.mixedFormatVector).elem j :=
  (fillKalmanPart_pull_positions (exampleEnv true true 1) exampleMeasurements [0] [2] 1 0
    exampleState (exampleMeasurement 1) (example_wellFormedRun true true 1).2.2.2.2.2.2.2.1
    (by decide) (by decide) (by decide) (by decide)
    (fun k hk => ⟨exampleMeasurement 0, by rw [List.mem_singleton.mp hk]; rfl,
      exampleMeasurement_passes true true 1 0⟩)
    rfl (exampleMeasurement_passes true true 1 1)).1
/-! ### IEEE 754 arithmetic -/

theorem roundHalfEven_nonneg {x : ℚ} (hx : 0 ≤ x) : 0 ≤ roundHalfEven x := by
  have hf : 0 ≤ ⌊x⌋ := Int.floor_nonneg.mpr hx
  unfold roundHalfEven
  split_ifs <;> omega

/-- Rounding to the nearest integer gives an integer that is closer than one half. -/
theorem roundHalfEven_eq {x : ℚ} {n : ℤ} (h : |x - n| < 1 / 2) : roundHalfEven x = n := by
  obtain ⟨h1, h2⟩ := abs_lt.mp h
  have hf1 : (⌊x⌋ : ℚ) ≤ x := Int.floor_le x
  have hf2 : x < ⌊x⌋ + 1 := Int.lt_floor_add_one x
  have hle : ⌊x⌋ ≤ n := by
    have : (⌊x⌋ : ℚ) < n + 1 := by linarith
    have : ⌊x⌋ < n + 1 := by exact_mod_cast this
    omega
  have hge : n ≤ ⌊x⌋ + 1 := by
    have : (n : ℚ) < ⌊x⌋ + 1 + 1 := by linarith
    have : n < ⌊x⌋ + 1 + 1 := by exact_mod_cast this
    omega
  unfold roundHalfEven
  rcases (by omega : n = ⌊x⌋ ∨ n = ⌊x⌋ + 1) with hn | hn
  · have hlt : x - ⌊x⌋ < 1 / 2 := by
      have : (n : ℚ) = ⌊x⌋ := by exact_mod_cast hn
      linarith
    rw [if_pos hlt, hn]
  · have hn' : (n : ℚ) = ⌊x⌋ + 1 := by exact_mod_cast hn
    have hgt : 1 / 2 < x - ⌊x⌋ := by linarith
    rw [if_neg (by linarith), if_pos hgt, hn]

theorem floatQuantum_pos (a : ℚ) : 0 < floatQuantum a := by
  unfold floatQuantum
  positivity

/-- The rounding of a non-negative number to `float` is not negative and not not-a-number. -/
theorem roundFloat_nonneg {q : ℚ} (hq : 0 ≤ q) : Ieee.le (.fin 0) (roundFloat q) = true := by
  have hnot : ¬ q < 0 := not_lt.mpr hq
  have hm : (0 : ℚ) ≤ roundHalfEven (|q| / floatQuantum |q|) * floatQuantum |q| := by
    have h1 : 0 ≤ |q| / floatQuantum |q| := div_nonneg (abs_nonneg q) (floatQuantum_pos _).le
    have h2 : (0 : ℚ) ≤ roundHalfEven (|q| / floatQuantum |q|) := by
      exact_mod_cast roundHalfEven_nonneg h1
    exact mul_nonneg h2 (floatQuantum_pos _).le
  unfold roundFloat
  simp only [hnot, if_false, decide_False]
  split_ifs
  · rfl
  · simpa [Ieee.le] using hm

/-- The rounding of a positive number in the binade `2 ^ e ≤ q < 2 ^ (e + 1)` of the normal
range: the multiple `n * 2 ^ (e - 23)` of the spacing that is closer than half a spacing. -/
theorem roundFloat_eq (q : ℚ) (e n : ℤ) (hq : 0 < q) (hlo : (2 : ℚ) ^ e ≤ q)
    (hhi : q < (2 : ℚ) ^ (e + 1)) (he : -126 ≤ e)
    (hn : |q / (2 : ℚ) ^ (e - 23) - n| < 1 / 2)
    (hfin : (n : ℚ) * (2 : ℚ) ^ (e - 23) < 2 ^ 128) :
    roundFloat q = .fin (n * (2 : ℚ) ^ (e - 23)) := by
  have hlog : Int.log 2 q = e := by
    apply le_antisymm
    · have := (Int.lt_zpow_iff_log_lt (R := ℚ) (b := 2) (by norm_num) hq (x := e + 1)).mp
        (by exact_mod_cast hhi)
      omega
    · exact (Int.zpow_le_iff_le_log (R := ℚ) (b := 2) (by norm_num) hq).mp
        (by exact_mod_cast hlo)
  have habs : |q| = q := abs_of_pos hq
  have hquant : floatQuantum q = (2 : ℚ) ^ (e - 23) := by
    unfold floatQuantum
    rw [hlog, max_eq_left he]
  unfold roundFloat
  simp only [habs, hquant, roundHalfEven_eq hn, not_lt.mpr hq.le, if_false, decide_False]
  rw [if_neg (not_le.mpr hfin)]

/-- A sum of two `float` values that are not negative is not negative. -/
theorem floatAdd_nonneg {a b : Ieee} (ha : Ieee.le (.fin 0) a = true)
    (hb : Ieee.le (.fin 0) b = true) : Ieee.le (.fin 0) (floatAdd a b) = true := by
  cases a with
  | nan => simp [Ieee.le] at ha
  | inf na =>
    cases b with
    | nan => simp [Ieee.le] at hb
    | inf nb =>
      simp only [Ieee.le, Bool.not_eq_true'] at ha hb
      subst ha; subst hb
      rfl
    | fin y => simpa [floatAdd] using ha
  | fin x =>
    cases b with
    | nan => simp [Ieee.le] at hb
    | inf nb => simpa [floatAdd] using hb
    | fin y =>
      simp only [Ieee.le, decide_eq_true_eq] at ha hb
      exact roundFloat_nonneg (add_nonneg ha hb)

/-- A difference of two `float` values whose first is not smaller than the second in the IEEE
comparison is not-a-number or not negative. -/
theorem floatSub_nan_or_nonneg {a b : Ieee} (h : a.lt b = false) :
    floatSub a b = .nan ∨ Ieee.le (.fin 0) (floatSub a b) = true := by
  cases a with
  | nan => left; cases b <;> rfl
  | inf na =>
    cases b with
    | nan => left; rfl
    | inf nb =>
      cases na <;> cases nb <;> simp_all [Ieee.lt, floatSub, Ieee.le]
    | fin y =>
      right
      simp only [Ieee.lt] at h
      subst h
      rfl
  | fin x =>
    cases b with
    | nan => left; rfl
    | inf nb =>
      right
      simp only [Ieee.lt, Bool.not_eq_false'] at h
      subst h
      rfl
    | fin y =>
      right
      simp only [Ieee.lt, decide_eq_false_iff_not, not_lt] at h
      exact roundFloat_nonneg (sub_nonneg.mpr h)

/-- A difference of two finite `float` values is not not-a-number. -/
theorem floatSub_ne_nan {a b : Ieee} (ha : a.isFinite = true) (hb : b.isFinite = true) :
    floatSub a b ≠ .nan := by
  cases a with
  | nan => simp [Ieee.isFinite] at ha
  | inf na => simp [Ieee.isFinite] at ha
  | fin x =>
    cases b with
    | nan => simp [Ieee.isFinite] at hb
    | inf nb => simp [Ieee.isFinite] at hb
    | fin y =>
      simp only [floatSub, roundFloat]
      split_ifs <;> simp

/-- A positive multiple `n * 2 ^ (e - 23)` of the spacing of its binade is a `float` value:
rounding leaves it unchanged. -/
theorem roundFloat_exact (q : ℚ) (e n : ℤ) (hq : 0 < q) (hlo : (2 : ℚ) ^ e ≤ q)
    (hhi : q < (2 : ℚ) ^ (e + 1)) (he : -126 ≤ e) (he' : e ≤ 127)
    (hn : q = n * (2 : ℚ) ^ (e - 23)) : roundFloat q = .fin q := by
  have hpos : (0 : ℚ) < (2 : ℚ) ^ (e - 23) := by positivity
  have hdiv : q / (2 : ℚ) ^ (e - 23) = n := by
    rw [hn]; field_simp
  have h := roundFloat_eq q e n hq hlo hhi he (by rw [hdiv]; norm_num)
    (by
      rw [← hn]
      refine lt_of_lt_of_le hhi ?_
      have : (2 : ℚ) ^ (e + 1) ≤ (2 : ℚ) ^ (128 : ℤ) :=
        zpow_le_zpow_right₀ (by norm_num) (by omega)
      have h128 : (2 : ℚ) ^ (128 : ℤ) = 2 ^ 128 := by norm_cast
      rw [h128] at this
      exact this)
  rw [h, ← hn]

theorem roundFloat_zero : roundFloat 0 = .fin 0 := by
  simp [roundFloat, roundHalfEven]

theorem roundFloat_one : roundFloat 1 = .fin 1 :=
  roundFloat_exact 1 0 (2 ^ 23) (by norm_num) (by norm_num) (by norm_num) (by norm_num)
    (by norm_num) (by norm_num)

theorem roundFloat_two : roundFloat 2 = .fin 2 :=
  roundFloat_exact 2 1 (2 ^ 23) (by norm_num) (by norm_num) (by norm_num) (by norm_num)
    (by norm_num) (by norm_num)

theorem roundFloat_four : roundFloat 4 = .fin 4 :=
  roundFloat_exact 4 2 (2 ^ 23) (by norm_num) (by norm_num) (by norm_num) (by norm_num)
    (by norm_num) (by norm_num)

theorem roundFloat_five : roundFloat 5 = .fin 5 :=
  roundFloat_exact 5 2 (5 * 2 ^ 21) (by norm_num) (by norm_num) (by norm_num) (by norm_num)
    (by norm_num) (by norm_num)

theorem roundFloat_quarter : roundFloat (1 / 4) = .fin (1 / 4) :=
  roundFloat_exact (1 / 4) (-2) (2 ^ 23) (by norm_num) (by norm_num) (by norm_num)
    (by norm_num) (by norm_num) (by norm_num)

theorem roundFloat_exampleXx : roundFloat (15 / 2 ^ 26) = .fin (15 / 2 ^ 26) :=
  roundFloat_exact (15 / 2 ^ 26) (-23) (15 * 2 ^ 20) (by norm_num) (by norm_num) (by norm_num)
    (by norm_num) (by norm_num) (by norm_num)

theorem roundFloat_exampleXy : roundFloat (33 / 2 ^ 29) = .fin (33 / 2 ^ 29) :=
  roundFloat_exact (33 / 2 ^ 29) (-24) (33 * 2 ^ 18) (by norm_num) (by norm_num) (by norm_num)
    (by norm_num) (by norm_num) (by norm_num)

theorem roundFloat_exampleYy : roundFloat (73 / 2 ^ 32) = .fin (73 / 2 ^ 32) :=
  roundFloat_exact (73 / 2 ^ 32) (-26) (73 * 2 ^ 17) (by norm_num) (by norm_num) (by norm_num)
    (by norm_num) (by norm_num) (by norm_num)

/-- The `float` sum `4 + 15 / 2^26` is `4`: the exact sum lies less than half a spacing
`2^-21` above `4`. -/
theorem roundFloat_sumXx : roundFloat (4 + 15 / 2 ^ 26) = .fin 4 := by
  have h := roundFloat_eq (4 + 15 / 2 ^ 26) 2 (2 ^ 23) (by norm_num) (by norm_num)
    (by norm_num) (by norm_num) (by norm_num [abs_lt]) (by norm_num)
  rw [h]; norm_num

/-- The `float` sum `1 + 33 / 2^29` is `1 + 2^-23`: the exact sum lies more than half a
spacing `2^-23` above `1`. -/
theorem roundFloat_sumXy : roundFloat (1 + 33 / 2 ^ 29) = .fin (1 + 1 / 2 ^ 23) := by
  have h := roundFloat_eq (1 + 33 / 2 ^ 29) 0 (2 ^ 23 + 1) (by norm_num) (by norm_num)
    (by norm_num) (by norm_num) (by norm_num [abs_lt]) (by norm_num)
  rw [h]; norm_num

/-- The `float` sum `1/4 + 73 / 2^32` is `1/4 + 2^-25`: the exact sum lies more than half a
spacing `2^-25` above `1/4`. -/
theorem roundFloat_sumYy : roundFloat (1 / 4 + 73 / 2 ^ 32) = .fin (1 / 4 + 1 / 2 ^ 25) := by
  have h := roundFloat_eq (1 / 4 + 73 / 2 ^ 32) (-2) (2 ^ 23 + 1) (by norm_num) (by norm_num)
    (by norm_num) (by norm_num) (by norm_num [abs_lt]) (by norm_num)
  rw [h]; norm_num

/-! ### The per-hit fill routines over IEEE values -/

/-- The five assignments of a per-hit fill over IEEE values succeed on a slot inside the
containers and give `Fp.writtenState`. -/
theorem fp_writeMeasurementAndError_eq (p : Fp.LocalPoint) (c : Fp.LocalError) (iHit : Nat)
    (s : Fp.DualKalmanTrajectory) (h32 : 2 * iHit + 1 < 4294967296)
    (hm : 2 * iHit + 1 < s.theMeasurements.nrow)
    (hc : 2 * iHit + 1 < s.theMeasurementsCov.nrow) :
    Fp.writeMeasurementAndError p c iHit s = .ok (Fp.writtenState p c iHit s) := by
  have e0 : u32 (nMeasPerHit * iHit) = 2 * iHit := by
    unfold nMeasPerHit; exact u32_of_lt (by omega)
  have e1 : u32 (2 * iHit + 1) = 2 * iHit + 1 := u32_of_lt h32
  have hm0 : 2 * iHit < s.theMeasurements.nrow := by omega
  have hc0 : 2 * iHit < s.theMeasurementsCov.nrow := by omega
  simp only [Fp.writeMeasurementAndError, e0, e1, Fp.HepVector.set, Fp.HepSymMatrix.set, bind,
    Except.bind, pure, Except.pure, hm, hc, hm0, hc0, and_self, if_true, Fp.writtenState]
  simp

/-- The entries of `Fp.writtenState` at the slot `iHit`. -/
theorem fp_writtenState_entries (p : Fp.LocalPoint) (c : Fp.LocalError) (iHit : Nat)
    (s : Fp.DualKalmanTrajectory) :
    (Fp.writtenState p c iHit s).theMeasurements.elem (2 * iHit) = p.x ∧
    (Fp.writtenState p c iHit s).theMeasurements.elem (2 * iHit + 1) = p.y ∧
    (Fp.writtenState p c iHit s).theMeasurementsCov.entry (2 * iHit) (2 * iHit) = c.xx ∧
    (Fp.writtenState p c iHit s).theMeasurementsCov.entry (2 * iHit) (2 * iHit + 1) = c.xy ∧
    (Fp.writtenState p c iHit s).theMeasurementsCov.entry (2 * iHit + 1) (2 * iHit + 1) =
      c.yy := by
  simp [Fp.writtenState, Fp.HepSymMatrix.entry]

/-- A write access that returns was inside the vector and keeps its size. -/
theorem fp_hepVector_set_ok {v v' : Fp.HepVector} {i : Nat} {x : Ieee}
    (h : v.set i x = .ok v') : i < v.nrow ∧ v'.nrow = v.nrow := by
  unfold Fp.HepVector.set at h
  split_ifs at h with hi
  · cases h; exact ⟨hi, rfl⟩

/-- A write access that returns was inside the symmetric matrix and keeps its size. -/
theorem fp_hepSymMatrix_set_ok {a a' : Fp.HepSymMatrix} {r c : Nat} {x : Ieee}
    (h : a.set r c x = .ok a') : r < a.nrow ∧ c < a.nrow ∧ a'.nrow = a.nrow := by
  unfold Fp.HepSymMatrix.set at h
  split_ifs at h with hi
  · cases h; exact ⟨hi.1, hi.2, rfl⟩

/-- A result of the five assignments of a per-hit fill over IEEE values is `Fp.writtenState`,
and the slot lies inside the two containers. -/
theorem fp_writeMeasurementAndError_of_ok (p : Fp.LocalPoint) (c : Fp.LocalError) (iHit : Nat)
    (s s' : Fp.DualKalmanTrajectory) (h32 : 2 * iHit + 1 < 4294967296)
    (h : Fp.writeMeasurementAndError p c iHit s = .ok s') :
    s' = Fp.writtenState p c iHit s ∧ 2 * iHit + 1 < s.theMeasurements.nrow ∧
      2 * iHit + 1 < s.theMeasurementsCov.nrow := by
  have e0 : u32 (nMeasPerHit * iHit) = 2 * iHit := by
    unfold nMeasPerHit; exact u32_of_lt (by omega)
  have e1 : u32 (2 * iHit + 1) = 2 * iHit + 1 := u32_of_lt h32
  have hin : 2 * iHit + 1 < s.theMeasurements.nrow ∧
      2 * iHit + 1 < s.theMeasurementsCov.nrow := by
    simp only [Fp.writeMeasurementAndError, e0, e1, bind, Except.bind, pure, Except.pure] at h
    cases hA : s.theMeasurements.set (2 * iHit) p.x with
    | error e => simp [hA] at h
    | ok m1 =>
      simp only [hA] at h
      cases hB : m1.set (2 * iHit + 1) p.y with
      | error e => simp [hB] at h
      | ok m2 =>
        simp only [hB] at h
        cases hC : s.theMeasurementsCov.set (2 * iHit) (2 * iHit) c.xx with
        | error e => simp [hC] at h
        | ok c1 =>
          simp only [hC] at h
          cases hD : c1.set (2 * iHit) (2 * iHit + 1) c.xy with
          | error e => simp [hD] at h
          | ok c2 =>
            have h1 := fp_hepVector_set_ok hA
            have h2 := fp_hepVector_set_ok hB
            have h3 := fp_hepSymMatrix_set_ok hC
            have h4 := fp_hepSymMatrix_set_ok hD
            exact ⟨by omega, by omega⟩
  rw [fp_writeMeasurementAndError_eq p c iHit s h32 hin.1 hin.2] at h
  cases h
  exact ⟨rfl, hin.1, hin.2⟩

/-- The Unbiased fill over IEEE values at a slot inside the containers: `false` and
`Fp.writtenState` of the three `float` sums. -/
theorem fp_fillMeasurementAndError1_eq (hitPtr : Fp.TransientTrackingRecHit) (iHit : Nat)
    (tsos : Fp.TrajectoryStateOnSurface) (s : Fp.DualKalmanTrajectory)
    (h32 : 2 * iHit + 1 < 4294967296)
    (hm : 2 * iHit + 1 < s.theMeasurements.nrow)
    (hc : 2 * iHit + 1 < s.theMeasurementsCov.nrow) :
    Fp.fillMeasurementAndError1 hitPtr iHit tsos s =
      .ok (false, Fp.writtenState hitPtr.localPosition
        ⟨floatAdd hitPtr.localPositionError.xx tsos.positionError.xx,
         floatAdd hitPtr.localPositionError.xy tsos.positionError.xy,
         floatAdd hitPtr.localPositionError.yy tsos.positionError.yy⟩ iHit s) := by
  simp only [Fp.fillMeasurementAndError1, bind, Except.bind, pure, Except.pure,
    fp_writeMeasurementAndError_eq _ _ iHit s h32 hm hc]

/-- A result of the PullBased fill over IEEE values: `false` and the state as it was when a
diagonal entry of the hit error `H` compares smaller than that of the state error, `true`
and `Fp.writtenState` of the three `float` differences otherwise. -/
theorem fp_fillMeasurementAndError2_of_ok
    (parError : Fp.LocalError → GeomDet → Fp.HepSymMatrix)
    (hitPtr : Fp.TransientTrackingRecHit) (iHit : Nat) (tsos : Fp.TrajectoryStateOnSurface)
    (s s' : Fp.DualKalmanTrajectory) (ok : Bool) (h32 : 2 * iHit + 1 < 4294967296)
    (h : Fp.fillMeasurementAndError2 parError hitPtr iHit tsos s = .ok (ok, s')) :
    ∃ H, Fp.hitErrWithAPE parError hitPtr = .ok H ∧
      ((ok = false ∧ s' = s ∧
          (H.xx.lt tsos.positionError.xx || H.yy.lt tsos.positionError.yy) = true) ∨
        (ok = true ∧ H.xx.lt tsos.positionError.xx = false ∧
          H.yy.lt tsos.positionError.yy = false ∧
          s' = Fp.writtenState hitPtr.localPosition
            ⟨floatSub H.xx tsos.positionError.xx, floatSub H.xy tsos.positionError.xy,
             floatSub H.yy tsos.positionError.yy⟩ iHit s)) := by
  simp only [Fp.fillMeasurementAndError2, bind, Except.bind, pure, Except.pure] at h
  cases hH : Fp.hitErrWithAPE parError hitPtr with
  | error e => simp [hH] at h
  | ok H =>
    simp only [hH] at h
    refine ⟨H, rfl, ?_⟩
    cases hcmp : (H.xx.lt tsos.positionError.xx || H.yy.lt tsos.positionError.yy) with
    | true =>
      rw [hcmp, if_pos rfl] at h
      cases h
      exact Or.inl ⟨rfl, rfl, rfl⟩
    | false =>
      rw [hcmp] at h
      simp only [Bool.false_eq_true, if_false] at h
      cases hw : Fp.writeMeasurementAndError hitPtr.localPosition
          ⟨floatSub H.xx tsos.positionError.xx, floatSub H.xy tsos.positionError.xy,
           floatSub H.yy tsos.positionError.yy⟩ iHit s with
      | error e => simp [hw] at h
      | ok s1 =>
        simp only [hw] at h
        cases h
        have hor := Bool.or_eq_false_iff.mp hcmp
        exact Or.inr ⟨rfl, hor.1, hor.2,
          (fp_writeMeasurementAndError_of_ok _ _ iHit s _ h32 hw).1⟩

/-- The PullBased fill over IEEE values at a slot inside the containers, when neither
diagonal entry of the hit error `H` compares smaller than that of the state error: `true`
and `Fp.writtenState` of the three `float` differences. -/
theorem fp_fillMeasurementAndError2_eq
    (parError : Fp.LocalError → GeomDet → Fp.HepSymMatrix)
    (hitPtr : Fp.TransientTrackingRecHit) (iHit : Nat) (tsos : Fp.TrajectoryStateOnSurface)
    (s : Fp.DualKalmanTrajectory) (H : Fp.LocalError)
    (hH : Fp.hitErrWithAPE parError hitPtr = .ok H)
    (h32 : 2 * iHit + 1 < 4294967296)
    (hm : 2 * iHit + 1 < s.theMeasurements.nrow)
    (hc : 2 * iHit + 1 < s.theMeasurementsCov.nrow)
    (hxx : H.xx.lt tsos.positionError.xx = false)
    (hyy : H.yy.lt tsos.positionError.yy = false) :
    Fp.fillMeasurementAndError2 parError hitPtr iHit tsos s =
      .ok (true, Fp.writtenState hitPtr.localPosition
        ⟨floatSub H.xx tsos.positionError.xx, floatSub H.xy tsos.positionError.xy,
         floatSub H.yy tsos.positionError.yy⟩ iHit s) := by
  simp only [Fp.fillMeasurementAndError2, hH, bind, Except.bind, pure, Except.pure, hxx, hyy,
    Bool.or_self, Bool.false_eq_true, if_false,
    fp_writeMeasurementAndError_eq _ _ iHit s h32 hm hc]

/-- A covariance with the exact value `E` has the three finite entries of `E`. -/
theorem exactError_eq_some {e : Fp.LocalError} {E : LocalError} (h : exactError e = some E) :
    e = ⟨.fin E.xx, .fin E.xy, .fin E.yy⟩ := by
  obtain ⟨a, b, c⟩ := e
  cases a <;> cases b <;> cases c <;> simp only [exactError] at h <;> try cases h
  rfl

/-- C9, counterexample: the written block is not the exact sum, and not non-negative-definite.
The hit error `H = (4, 1, 1/4)` and the state error `S = (15/2^26, 33/2^29, 73/2^32)` are
`float` values and non-negative-definite. The call writes the `float` sums
`(4, 1 + 2^-23, 1/4 + 2^-25)`: the entry `(0, 1)` is not `1 + 33/2^29`, and the determinant
`4 * (1/4 + 2^-25) - (1 + 2^-23)^2` of the written block is negative. -/
theorem fillMeasurementAndError1_rounded_counterexample :
    Fp.exampleRoundingHit.localPositionError.isFloat ∧
    Fp.exampleRoundingTsos.positionError.isFloat ∧
    exactError Fp.exampleRoundingHit.localPositionError = some ⟨4, 1, 1 / 4⟩ ∧
    exactError Fp.exampleRoundingTsos.positionError =
      some ⟨15 / 2 ^ 26, 33 / 2 ^ 29, 73 / 2 ^ 32⟩ ∧
    NonNegDefinite ⟨4, 1, 1 / 4⟩ ∧
    NonNegDefinite ⟨15 / 2 ^ 26, 33 / 2 ^ 29, 73 / 2 ^ 32⟩ ∧
    ∃ s', Fp.fillMeasurementAndError1 Fp.exampleRoundingHit 0 Fp.exampleRoundingTsos
        (Fp.exampleState 1) = .ok (false, s') ∧
      s'.theMeasurementsCov.entry 0 0 = .fin 4 ∧
      s'.theMeasurementsCov.entry 0 1 = .fin (1 + 1 / 2 ^ 23) ∧
      s'.theMeasurementsCov.entry 1 1 = .fin (1 / 4 + 1 / 2 ^ 25) ∧
      s'.theMeasurementsCov.entry 0 1 ≠ .fin (1 + 33 / 2 ^ 29) ∧
      ¬ NonNegDefinite ⟨4, 1 + 1 / 2 ^ 23, 1 / 4 + 1 / 2 ^ 25⟩ := by
  refine ⟨⟨roundFloat_four, roundFloat_one, roundFloat_quarter⟩,
    ⟨roundFloat_exampleXx, roundFloat_exampleXy, roundFloat_exampleYy⟩, rfl, rfl,
    by norm_num [NonNegDefinite], by norm_num [NonNegDefinite], _,
    fp_fillMeasurementAndError1_eq Fp.exampleRoundingHit 0 Fp.exampleRoundingTsos
      (Fp.exampleState 1) (by decide) (by decide) (by decide), ?_⟩
  obtain ⟨-, -, e1, e2, e3⟩ := fp_writtenState_entries Fp.exampleRoundingHit.localPosition
    ⟨floatAdd Fp.exampleRoundingHit.localPositionError.xx
        Fp.exampleRoundingTsos.positionError.xx,
     floatAdd Fp.exampleRoundingHit.localPositionError.xy
        Fp.exampleRoundingTsos.positionError.xy,
     floatAdd Fp.exampleRoundingHit.localPositionError.yy
        Fp.exampleRoundingTsos.positionError.yy⟩ 0 (Fp.exampleState 1)
  have a1 : floatAdd Fp.exampleRoundingHit.localPositionError.xx
      Fp.exampleRoundingTsos.positionError.xx = .fin 4 := roundFloat_sumXx
  have a2 : floatAdd Fp.exampleRoundingHit.localPositionError.xy
      Fp.exampleRoundingTsos.positionError.xy = .fin (1 + 1 / 2 ^ 23) := roundFloat_sumXy
  have a3 : floatAdd Fp.exampleRoundingHit.localPositionError.yy
      Fp.exampleRoundingTsos.positionError.yy = .fin (1 / 4 + 1 / 2 ^ 25) := roundFloat_sumYy
  refine ⟨e1.trans a1, e2.trans a2, e3.trans a3, ?_, by norm_num [NonNegDefinite]⟩
  rw [show (Fp.writtenState _ _ 0 (Fp.exampleState 1)).theMeasurementsCov.entry 0 1 = _
    from e2.trans a2]
  intro h
  have := Ieee.fin.inj h
  norm_num at this

/-- C9: the Unbiased per-hit fill over IEEE values. At a slot `iHit` inside the containers,
with `H` the local position error of the hit and `S` the position error of the state, the
call returns after writing the `float` sums of `H.xx` and `S.xx`, of `H.xy` and `S.xy`, of
`H.yy` and `S.yy` to the covariance entries `(2i,2i)`, `(2i,2i+1)`, `(2i+1,2i+1)`. A written
diagonal entry is `>= 0` when the two entries it is the sum of are. When the entries of `H`
and `S` are finite, the three exact sums are `float` values, and `H` and `S` are
non-negative-definite, the written block is the exact sum and non-negative-definite. -/
theorem fillMeasurementAndError1_float_sum (hitPtr : Fp.TransientTrackingRecHit) (iHit : Nat)
    (tsos : Fp.TrajectoryStateOnSurface) (s : Fp.DualKalmanTrajectory)
    (h32 : 2 * iHit + 1 < 4294967296)
    (hm : 2 * iHit + 1 < s.theMeasurements.nrow)
    (hc : 2 * iHit + 1 < s.theMeasurementsCov.nrow) :
    ∃ s', Fp.fillMeasurementAndError1 hitPtr iHit tsos s = .ok (false, s') ∧
      s'.theMeasurementsCov.entry (2 * iHit) (2 * iHit) =
        floatAdd hitPtr.localPositionError.xx tsos.positionError.xx ∧
      s'.theMeasurementsCov.entry (2 * iHit) (2 * iHit + 1) =
        floatAdd hitPtr.localPositionError.xy tsos.positionError.xy ∧
      s'.theMeasurementsCov.entry (2 * iHit + 1) (2 * iHit + 1) =
        floatAdd hitPtr.localPositionError.yy tsos.positionError.yy ∧
      (Ieee.le (.fin 0) hitPtr.localPositionError.xx = true →
        Ieee.le (.fin 0) tsos.positionError.xx = true →
        Ieee.le (.fin 0) (s'.theMeasurementsCov.entry (2 * iHit) (2 * iHit)) = true) ∧
      (Ieee.le (.fin 0) hitPtr.localPositionError.yy = true →
        Ieee.le (.fin 0) tsos.positionError.yy = true →
        Ieee.le (.fin 0) (s'.theMeasurementsCov.entry (2 * iHit + 1) (2 * iHit + 1)) = true) ∧
      (∀ H S : LocalError, exactError hitPtr.localPositionError = some H →
        exactError tsos.positionError = some S →
        roundFloat (H.xx + S.xx) = .fin (H.xx + S.xx) →
        roundFloat (H.xy + S.xy) = .fin (H.xy + S.xy) →
        roundFloat (H.yy + S.yy) = .fin (H.yy + S.yy) →
        NonNegDefinite H → NonNegDefinite S →
        exactError ⟨s'.theMeasurementsCov.entry (2 * iHit) (2 * iHit),
          s'.theMeasurementsCov.entry (2 * iHit) (2 * iHit + 1),
          s'.theMeasurementsCov.entry (2 * iHit + 1) (2 * iHit + 1)⟩ =
            some ⟨H.xx + S.xx, H.xy + S.xy, H.yy + S.yy⟩ ∧
        NonNegDefinite ⟨H.xx + S.xx, H.xy + S.xy, H.yy + S.yy⟩) := by
  refine ⟨_, fp_fillMeasurementAndError1_eq hitPtr iHit tsos s h32 hm hc, ?_⟩
  obtain ⟨-, -, e1, e2, e3⟩ := fp_writtenState_entries hitPtr.localPosition
    ⟨floatAdd hitPtr.localPositionError.xx tsos.positionError.xx,
     floatAdd hitPtr.localPositionError.xy tsos.positionError.xy,
     floatAdd hitPtr.localPositionError.yy tsos.positionError.yy⟩ iHit s
  refine ⟨e1, e2, e3, fun h1 h2 => ?_, fun h1 h2 => ?_, ?_⟩
  · rw [e1]; exact floatAdd_nonneg h1 h2
  · rw [e3]; exact floatAdd_nonneg h1 h2
  · intro H S hH hS r1 r2 r3 nH nS
    refine ⟨?_, nonNegDefinite_add H S nH nS⟩
    rw [e1, e2, e3, exactError_eq_some hH, exactError_eq_some hS]
    simp only [floatAdd, r1, r2, r3, exactError]

theorem fillMeasurementAndError1_float_sum_witness :
    ∃ s', Fp.fillMeasurementAndError1 Fp.exampleHit 1 (Fp.exampleTsos 1) (Fp.exampleState 2) =
        .ok (false, s') ∧
      Ieee.le (.fin 0) (s'.theMeasurementsCov.entry (2 * 1) (2 * 1)) = true ∧
      Ieee.le (.fin 0) (s'.theMeasurementsCov.entry (2 * 1 + 1) (2 * 1 + 1)) = true ∧
      exactError ⟨s'.theMeasurementsCov.entry (2 * 1) (2 * 1),
          s'.theMeasurementsCov.entry (2 * 1) (2 * 1 + 1),
          s'.theMeasurementsCov.entry (2 * 1 + 1) (2 * 1 + 1)⟩ = some ⟨4 + 1, 1 + 0, 4 + 1⟩ ∧
      NonNegDefinite ⟨4 + 1, 1 + 0, 4 + 1⟩ :=
  let ⟨s', h, _, _, _, hxx, hyy, hexact⟩ :=
    fillMeasurementAndError1_float_sum Fp.exampleHit 1 (Fp.exampleTsos 1) (Fp.exampleState 2)
      (by decide) (by decide) (by decide)
  ⟨s', h, hxx (by simp [Ieee.le, Fp.exampleHit]) (by simp [Ieee.le, Fp.exampleTsos]),
    hyy (by simp [Ieee.le, Fp.exampleHit]) (by simp [Ieee.le, Fp.exampleTsos]),
    hexact ⟨4, 1, 4⟩ ⟨1, 0, 1⟩ rfl rfl
      (by rw [show ((4 : ℚ) + 1) = 5 by norm_num]; exact roundFloat_five)
      (by rw [show ((1 : ℚ) + 0) = 1 by norm_num]; exact roundFloat_one)
      (by rw [show ((4 : ℚ) + 1) = 5 by norm_num]; exact roundFloat_five)
      (by norm_num [NonNegDefinite]) (by norm_num [NonNegDefinite])⟩

/-- C17, counterexample: success with a diagonal entry that is not `>= 0`. For the hit error
`H = (+inf, 0, 1)` and the state error `S = (+inf, 0, 1)` neither comparison of line 266
holds, the call returns `true`, and the entry `(0, 0)` it writes is `inf - inf`,
not-a-number, for which `>= 0` is false. -/
theorem fillMeasurementAndError2_infinite_counterexample :
    Fp.exampleInfiniteHit.localPositionError.isFloat ∧
    Fp.exampleInfiniteTsos.positionError.isFloat ∧
    ∃ s', Fp.fillMeasurementAndError2 Fp.exampleParError Fp.exampleInfiniteHit 0
        Fp.exampleInfiniteTsos (Fp.exampleState 1) = .ok (true, s') ∧
      s'.theMeasurementsCov.entry 0 0 = .nan ∧
      Ieee.le (.fin 0) (s'.theMeasurementsCov.entry 0 0) = false := by
  refine ⟨⟨rfl, roundFloat_zero, roundFloat_one⟩, ⟨rfl, roundFloat_zero, roundFloat_one⟩, _,
    fp_fillMeasurementAndError2_eq Fp.exampleParError Fp.exampleInfiniteHit 0
      Fp.exampleInfiniteTsos (Fp.exampleState 1) Fp.exampleInfiniteHit.localPositionError rfl
      (by decide) (by decide) (by decide) rfl
      (by simp [Ieee.lt, Fp.exampleInfiniteHit, Fp.exampleInfiniteTsos]), ?_⟩
  obtain ⟨-, -, e1, -, -⟩ := fp_writtenState_entries Fp.exampleInfiniteHit.localPosition
    ⟨floatSub Fp.exampleInfiniteHit.localPositionError.xx
        Fp.exampleInfiniteTsos.positionError.xx,
     floatSub Fp.exampleInfiniteHit.localPositionError.xy
        Fp.exampleInfiniteTsos.positionError.xy,
     floatSub Fp.exampleInfiniteHit.localPositionError.yy
        Fp.exampleInfiniteTsos.positionError.yy⟩ 0 (Fp.exampleState 1)
  have e : (Fp.writtenState Fp.exampleInfiniteHit.localPosition
    ⟨floatSub Fp.exampleInfiniteHit.localPositionError.xx
        Fp.exampleInfiniteTsos.positionError.xx,
     floatSub Fp.exampleInfiniteHit.localPositionError.xy
        Fp.exampleInfiniteTsos.positionError.xy,
     floatSub Fp.exampleInfiniteHit.localPositionError.yy
        Fp.exampleInfiniteTsos.positionError.yy⟩ 0
      (Fp.exampleState 1)).theMeasurementsCov.entry 0 0 = .nan := e1.trans rfl
  exact ⟨e, by rw [e]; rfl⟩

/-- C17: the PullBased per-hit fill over IEEE values. Whenever the call reports success at
the slot `iHit`, with `H` the hit error it has compared and `S` the position error of the
state, the diagonal entries it has written are the `float` differences of `H.xx` and `S.xx`
and of `H.yy` and `S.yy`; each of them is not-a-number or `>= 0`, and it is `>= 0` when the
two entries it is the difference of are finite. -/
theorem fillMeasurementAndError2_finite_diagonal_nonneg
    (parError : Fp.LocalError → GeomDet → Fp.HepSymMatrix)
    (hitPtr : Fp.TransientTrackingRecHit) (iHit : Nat) (tsos : Fp.TrajectoryStateOnSurface)
    (s s' : Fp.DualKalmanTrajectory) (H : Fp.LocalError)
    (h32 : 2 * iHit + 1 < 4294967296)
    (hH : Fp.hitErrWithAPE parError hitPtr = .ok H)
    (h : Fp.fillMeasurementAndError2 parError hitPtr iHit tsos s = .ok (true, s')) :
    s'.theMeasurementsCov.entry (2 * iHit) (2 * iHit) = floatSub H.xx tsos.positionError.xx ∧
    s'.theMeasurementsCov.entry (2 * iHit + 1) (2 * iHit + 1) =
      floatSub H.yy tsos.positionError.yy ∧
    (s'.theMeasurementsCov.entry (2 * iHit) (2 * iHit) = .nan ∨
      Ieee.le (.fin 0) (s'.theMeasurementsCov.entry (2 * iHit) (2 * iHit)) = true) ∧
    (s'.theMeasurementsCov.entry (2 * iHit + 1) (2 * iHit + 1) = .nan ∨
      Ieee.le (.fin 0) (s'.theMeasurementsCov.entry (2 * iHit + 1) (2 * iHit + 1)) = true) ∧
    (H.xx.isFinite = true → tsos.positionError.xx.isFinite = true →
      Ieee.le (.fin 0) (s'.theMeasurementsCov.entry (2 * iHit) (2 * iHit)) = true) ∧
    (H.yy.isFinite = true → tsos.positionError.yy.isFinite = true →
      Ieee.le (.fin 0) (s'.theMeasurementsCov.entry (2 * iHit + 1) (2 * iHit + 1)) = true) := by
  obtain ⟨H', hH', hcase⟩ :=
    fp_fillMeasurementAndError2_of_ok parError hitPtr iHit tsos s s' true h32 h
  have hHH : H' = H := by
    rw [hH] at hH'
    exact (Except.ok.inj hH').symm
  subst hHH
  rcases hcase with ⟨hfalse, -⟩ | ⟨-, hxx, hyy, rfl⟩
  · cases hfalse
  · obtain ⟨-, -, e1, -, e3⟩ := fp_writtenState_entries hitPtr.localPosition
      ⟨floatSub H'.xx tsos.positionError.xx, floatSub H'.xy tsos.positionError.xy,
       floatSub H'.yy tsos.positionError.yy⟩ iHit s
    rw [e1, e3]
    refine ⟨rfl, rfl, floatSub_nan_or_nonneg hxx, floatSub_nan_or_nonneg hyy,
      fun f1 f2 => ?_, fun f1 f2 => ?_⟩
    · exact (floatSub_nan_or_nonneg hxx).resolve_left (floatSub_ne_nan f1 f2)
    · exact (floatSub_nan_or_nonneg hyy).resolve_left (floatSub_ne_nan f1 f2)

theorem fillMeasurementAndError2_finite_diagonal_nonneg_witness :
    Ieee.le (.fin 0) ((Fp.writtenState Fp.exampleHit.localPosition
      ⟨floatSub (.fin 4) (.fin 2), floatSub (.fin 1) (.fin 0), floatSub (.fin 4) (.fin 2)⟩ 1
      (Fp.exampleState 2)).theMeasurementsCov.entry (2 * 1) (2 * 1)) = true ∧
    Ieee.le (.fin 0) ((Fp.writtenState Fp.exampleHit.localPosition
      ⟨floatSub (.fin 4) (.fin 2), floatSub (.fin 1) (.fin 0), floatSub (.fin 4) (.fin 2)⟩ 1
      (Fp.exampleState 2)).theMeasurementsCov.entry (2 * 1 + 1) (2 * 1 + 1)) = true :=
  let h := fillMeasurementAndError2_finite_diagonal_nonneg Fp.exampleParError Fp.exampleHit 1
    (Fp.exampleTsos 2) (Fp.exampleState 2) _ Fp.exampleHit.localPositionError (by decide) rfl
    (fp_fillMeasurementAndError2_eq Fp.exampleParError Fp.exampleHit 1 (Fp.exampleTsos 2)
      (Fp.exampleState 2) Fp.exampleHit.localPositionError rfl (by decide) (by decide)
      (by decide) (by norm_num [Ieee.lt, Fp.exampleHit, Fp.exampleTsos])
      (by norm_num [Ieee.lt, Fp.exampleHit, Fp.exampleTsos]))
  ⟨h.2.2.2.2.1 rfl rfl, h.2.2.2.2.2 rfl rfl⟩

end DualKalman
